import Mathlib

/-! Kinematics cache and forward-kinematics pass of the rigid-body tree

A shallow embedding of `drake/systems/plants/KinematicsCache.h` and of the
kinematics part of `drake/systems/plants/RigidBodyTree.h`.

Conventions of the embedding.

* The scalar type `Scalar` of the C++ templates is a type `S` with exact
  arithmetic (a commutative ring).
* A body is identified by its address (`RigidBody const *`, the key of the
  cache's `unordered_map`); `heap` maps an address to the body stored there.
* A `throw`, a failed `assert` and a failed Eigen index or size check end a call
  with an `Error`; the state reached at that point is kept in the `Outcome`.
  Assertions are taken as enabled.
* `int` sizes and offsets are natural numbers.
-/

namespace Drake

/-! ## Eigen values -/

/-- Dynamic column vector `Eigen::Matrix<Scalar, Eigen::Dynamic, 1>`. -/
abbrev VectorX (S : Type) := List S

/-- Value of the constant `TWIST_SIZE`. -/
abbrev TWIST_SIZE : Nat := 6

/-- Fixed-size spatial vector `Eigen::Matrix<Scalar, TWIST_SIZE, 1>`. -/
abbrev TwistVector (S : Type) := Fin TWIST_SIZE → S

/-- Matrix with `TWIST_SIZE` rows and a dynamic number of columns, stored as in
Eigen column by column. -/
abbrev TwistMatrix (S : Type) := List (TwistVector S)

/-- Matrix `Eigen::Matrix<Scalar, Eigen::Dynamic, Eigen::Dynamic>` with both
dimensions dynamic. -/
structure MatrixX (S : Type) where
  rows : Nat
  cols : Nat
  coeff : Fin rows → Fin cols → S

/-- Rigid transform `Eigen::Transform<Scalar, 3, Eigen::Isometry>`: its linear
part and its translation (the last row of the homogeneous matrix is fixed). -/
structure Transform (S : Type) where
  linear : Matrix (Fin 3) (Fin 3) S
  translation : Fin 3 → S

/-- Identity transform, what `setIdentity()` stores. -/
def Transform.Identity {S : Type} [CommRing S] : Transform S :=
  { linear := 1, translation := 0 }

/-- Product of two isometries, Eigen's `operator*` on `Transform`. -/
def Transform.mul {S : Type} [CommRing S] (a b : Transform S) : Transform S :=
  { linear := a.linear * b.linear
    translation := a.linear.mulVec b.translation + a.translation }

instance {S : Type} [CommRing S] : Mul (Transform S) := ⟨Transform.mul⟩

/-- Eigen's `middleRows(start, n)` on a column vector: the `n` entries from
`start` on. The block must lie inside the vector (checked by Eigen's
assertion). -/
def middleRows {S : Type} (x : VectorX S) (start n : Nat) : Option (VectorX S) :=
  if start + n ≤ x.length then some ((x.drop start).take n) else none

/-- Linear combination of the columns of `M` with the coefficients `x`. -/
def TwistMatrix.combine {S : Type} [CommRing S] :
    TwistMatrix S → VectorX S → TwistVector S
  | col :: M, a :: x => (fun i => col i * a) + TwistMatrix.combine M x
  | _, _ => 0

/-- Matrix-vector product `M * x` for a `TWIST_SIZE`-row matrix. The number of
columns must equal the length of `x` (checked by Eigen's assertion). -/
def TwistMatrix.mulVec {S : Type} [CommRing S] (M : TwistMatrix S) (x : VectorX S) :
    Option (TwistVector S) :=
  if M.length = x.length then some (TwistMatrix.combine M x) else none

/-- Eigen's `setZero()` on a `TWIST_SIZE`-row matrix: same shape, zero entries. -/
def TwistMatrix.setZero {S : Type} [CommRing S] (M : TwistMatrix S) : TwistMatrix S :=
  M.map (fun _ => 0)

/-- Eigen's `setZero()` on a dynamic matrix: same shape, zero entries. -/
def MatrixX.setZero {S : Type} [CommRing S] (M : MatrixX S) : MatrixX S :=
  { rows := M.rows, cols := M.cols, coeff := fun _ _ => 0 }

/-! ## Errors and outcomes -/

/-- The ways a call ends abnormally. -/
inductive Error where
  /-- Thrown `std::runtime_error` with its message. -/
  | runtime_error (what : String)
  /-- Thrown `std::out_of_range`, by `unordered_map::at`. -/
  | out_of_range
  /-- Failed `assert`, in this code or inside Eigen. -/
  | assertion_failed
  deriving DecidableEq, Repr

/-- Result of a call on a state of type `σ`: normal return with the new state,
or an error together with the state reached when it was raised. -/
inductive Outcome (σ : Type) where
  | returned (state : σ)
  | failed (error : Error) (state : σ)

/-- The call returned normally. -/
def Outcome.succeeds {σ : Type} : Outcome σ → Bool
  | .returned _ => true
  | .failed _ _ => false

/-- State after the call, also when it failed. -/
def Outcome.state {σ : Type} : Outcome σ → σ
  | .returned s => s
  | .failed _ s => s

/-! ## Bodies and joints -/

/-- Address of a `RigidBody`. -/
abbrev BodyPtr := Nat

/-- Modelled from the spec: the joint capability `DrakeJoint` (declared in
`DrakeJoint.h`, not part of the sources at hand), which from a slice of `q`
(and of `v`) gives the transform to the parent body, the motion subspace, the
maps between `qdot` and `v`, and the body-frame bias term. -/
structure DrakeJoint (S : Type) where
  getNumPositions : Nat
  getNumVelocities : Nat
  getTransformToParentBody : Transform S
  jointTransform : VectorX S → Transform S
  motionSubspace : VectorX S → TwistMatrix S
  qdot2v : VectorX S → MatrixX S
  v2qdot : VectorX S → MatrixX S
  motionSubspaceDotTimesV : VectorX S → VectorX S → TwistVector S

/-- Modelled from the spec: the entity `RigidBody` (declared in `RigidBody.h`,
not part of the sources at hand): an optional parent reference whose absence
marks the root, the joint to the parent, and the two offsets into `q` and `v`. -/
structure RigidBody (S : Type) where
  parent : Option BodyPtr
  joint : DrakeJoint S
  position_num_start : Nat
  velocity_num_start : Nat

/-- Modelled from the spec: `RigidBody::hasParent()`, true when the parent
reference is present. -/
def RigidBody.hasParent {S : Type} (body : RigidBody S) : Bool :=
  body.parent.isSome

/-- Accessor `RigidBody::getJoint()`. -/
def RigidBody.getJoint {S : Type} (body : RigidBody S) : DrakeJoint S :=
  body.joint

/-- Modelled from the spec: the spatial-algebra helpers of `drakeGeometryUtil.h`
(not part of the sources at hand) that the pass calls: the spatial-motion
transform of a matrix and of a single vector, and the spatial cross product. -/
structure GeometryUtil (S : Type) where
  transformSpatialMotion : Transform S → TwistMatrix S → TwistMatrix S
  transformSpatialMotionVector : Transform S → TwistVector S → TwistVector S
  crossSpatialMotion : TwistVector S → TwistVector S → TwistVector S

/-! ## KinematicsCache.h -/

/-- Class `KinematicsCacheElement<Scalar>`: the per-body record. -/
@[ext]
structure KinematicsCacheElement (S : Type) where
  transform_to_world : Transform S
  motion_subspace_in_body : TwistMatrix S
  motion_subspace_in_world : TwistMatrix S
  qdot_to_v : MatrixX S
  v_to_qdot : MatrixX S
  inertia_in_world : Fin TWIST_SIZE → Fin TWIST_SIZE → S
  crb_in_world : Fin TWIST_SIZE → Fin TWIST_SIZE → S
  twist_in_world : TwistVector S
  motion_subspace_in_body_dot_times_v : TwistVector S
  motion_subspace_in_world_dot_times_v : TwistVector S

/-- Class `KinematicsCache<Scalar>`: the element map keyed by body address, the
vectors `q` and `v`, and the four flags. -/
structure KinematicsCache (S : Type) where
  elements : BodyPtr → Option (KinematicsCacheElement S)
  q : VectorX S
  v : VectorX S
  velocity_vector_valid : Bool
  position_kinematics_cached : Bool
  jdotV_cached : Bool
  inertias_cached : Bool

namespace KinematicsCache

variable {S : Type}

/-- Static `getNumPositions(bodies)`: the `std::accumulate` over the body list. -/
def getNumPositions (heap : BodyPtr → RigidBody S) (bodies : List BodyPtr) : Nat :=
  bodies.foldl
    (fun result body_ptr =>
      if (heap body_ptr).hasParent then result + (heap body_ptr).getJoint.getNumPositions
      else result) 0

/-- Static `getNumVelocities(bodies)`: the `std::accumulate` over the body list. -/
def getNumVelocities (heap : BodyPtr → RigidBody S) (bodies : List BodyPtr) : Nat :=
  bodies.foldl
    (fun result body_ptr =>
      if (heap body_ptr).hasParent then result + (heap body_ptr).getJoint.getNumVelocities
      else result) 0

/-- Private `invalidate()`. -/
def invalidate (c : KinematicsCache S) : KinematicsCache S :=
  { c with position_kinematics_cached := false, jdotV_cached := false, inertias_cached := false }

/-- Insertion `elements.insert({&body, element})`: a key already present keeps
its element. -/
def insertElement (elements : BodyPtr → Option (KinematicsCacheElement S)) (body : BodyPtr)
    (element : KinematicsCacheElement S) : BodyPtr → Option (KinematicsCacheElement S) :=
  fun key => if key = body then (match elements key with
    | some old => some old
    | none => some element) else elements key

/-- Constructor `KinematicsCache(bodies)`. Eigen leaves the coefficients of a
new element unset: `fresh np nv` stands for the element that
`KinematicsCacheElement(np, nv)` yields. -/
def construct [CommRing S] (fresh : Nat → Nat → KinematicsCacheElement S)
    (heap : BodyPtr → RigidBody S) (bodies : List BodyPtr) : KinematicsCache S :=
  invalidate
    { elements := bodies.foldl
        (fun elements body_ptr =>
          let body := heap body_ptr
          let num_positions_joint := if body.hasParent then body.getJoint.getNumPositions else 0
          let num_velocities_joint := if body.hasParent then body.getJoint.getNumVelocities else 0
          insertElement elements body_ptr (fresh num_positions_joint num_velocities_joint))
        (fun _ => none)
      q := List.replicate (getNumPositions heap bodies) 0
      v := List.replicate (getNumVelocities heap bodies) 0
      velocity_vector_valid := false
      position_kinematics_cached := false
      jdotV_cached := false
      inertias_cached := false }

/-- Lookup `getElement(body)`, that is `elements.at(&body)`. -/
def getElement (c : KinematicsCache S) (body : BodyPtr) : Except Error (KinematicsCacheElement S) :=
  match c.elements body with
  | some element => .ok element
  | none => .error .out_of_range

/-- Overload `initialize(q)`. -/
def initialize_q (c : KinematicsCache S) (q : VectorX S) : Outcome (KinematicsCache S) :=
  if c.q.length = q.length then
    let c := { c with q := q }
    let c := invalidate c
    .returned { c with velocity_vector_valid := false }
  else .failed .assertion_failed c

/-- Overload `initialize(q, v)`. -/
def initialize_q_v (c : KinematicsCache S) (q v : VectorX S) : Outcome (KinematicsCache S) :=
  match initialize_q c q with
  | .failed e c => .failed e c
  | .returned c =>
    if c.v.length = v.length then
      let c := { c with v := v }
      .returned { c with velocity_vector_valid := true }
    else .failed .assertion_failed c

/-- Accessor `hasV()`. -/
def hasV (c : KinematicsCache S) : Bool :=
  c.velocity_vector_valid

/-- Method `checkCachedKinematicsSettings`; it is `const`, the cache it returns
is the one it was given. -/
def checkCachedKinematicsSettings (c : KinematicsCache S) (velocity_kinematics_required : Bool)
    (jdot_times_v_required : Bool) (method_name : String) : Outcome (KinematicsCache S) :=
  if !c.position_kinematics_cached then
    .failed (.runtime_error (method_name ++
      " requires position kinematics, which have not been cached. Please call doKinematics.")) c
  else if velocity_kinematics_required && !c.hasV then
    .failed (.runtime_error (method_name ++
      " requires velocity kinematics, which have not been cached. Please call doKinematics with a velocity vector.")) c
  else if jdot_times_v_required && !c.jdotV_cached then
    .failed (.runtime_error (method_name ++
      " requires Jdot times v, which has not been cached. Please call doKinematics with a velocity vector and compute_JdotV set to true.")) c
  else .returned c

/-- Accessor `getQ()`. -/
def getQ (c : KinematicsCache S) : VectorX S :=
  c.q

/-- Accessor `getV()`. -/
def getV (c : KinematicsCache S) : Except Error (VectorX S) :=
  if c.hasV then .ok c.v
  else .error (.runtime_error "Kinematics cache has no valid velocity vector.")

/-- Setter `setInertiasCached()`. -/
def setInertiasCached (c : KinematicsCache S) : KinematicsCache S :=
  { c with inertias_cached := true }

/-- Accessor `areInertiasCached()`. -/
def areInertiasCached (c : KinematicsCache S) : Bool :=
  c.inertias_cached

/-- Setter `setPositionKinematicsCached()`. -/
def setPositionKinematicsCached (c : KinematicsCache S) : KinematicsCache S :=
  { c with position_kinematics_cached := true }

/-- Setter `setJdotVCached(jdotV_cached)`. -/
def setJdotVCached (c : KinematicsCache S) (jdotV_cached : Bool) : KinematicsCache S :=
  { c with jdotV_cached := jdotV_cached }

/-- Effect of writing through the reference that the non-const
`getElement(body)` returns: the element stored under `body` is replaced. -/
def storeElement (c : KinematicsCache S) (body : BodyPtr) (element : KinematicsCacheElement S) :
    KinematicsCache S :=
  { c with elements := fun key => if key = body then some element else c.elements key }

end KinematicsCache

/-! ## RigidBodyTree.h: the forward-kinematics pass -/

/-- The members of class `RigidBodyTree` that the kinematics code reads: the
body list (shared pointers, here addresses into `heap`), the two totals and
the flag set by `compile`. -/
structure RigidBodyTree (S : Type) where
  heap : BodyPtr → RigidBody S
  bodies : List BodyPtr
  num_positions : Nat
  num_velocities : Nat
  initialized : Bool

namespace RigidBodyTree

variable {S : Type} [CommRing S]

/-- Body of the loop of `doKinematics(cache, compute_JdotV)` for the body at
address `body_ptr`. Here `compute_JdotV` is the flag after it was combined
with `cache.hasV()`. The references `element` and `parent_element` point into
the same map, so they denote one element when a body is its own parent. -/
def doKinematicsBody (geo : GeometryUtil S) (tree : RigidBodyTree S) (compute_JdotV : Bool)
    (cache : KinematicsCache S) (body_ptr : BodyPtr) : Outcome (KinematicsCache S) :=
  let body := tree.heap body_ptr
  match cache.getElement body_ptr with
  | .error e => .failed e cache
  | .ok element =>
    match body.parent with
    | some parent_ptr =>
      match cache.getElement parent_ptr with
      | .error e => .failed e cache
      | .ok parent_at_entry =>
        let parent_element := fun (current : KinematicsCacheElement S) =>
          if parent_ptr = body_ptr then current else parent_at_entry
        let joint := body.getJoint
        match middleRows cache.getQ body.position_num_start joint.getNumPositions with
        | none => .failed .assertion_failed cache
        | some q_body =>
          -- transform
          let T_body_to_parent := joint.getTransformToParentBody * joint.jointTransform q_body
          let element := { element with
            transform_to_world := (parent_element element).transform_to_world * T_body_to_parent }
          -- motion subspace in body frame
          let element := { element with motion_subspace_in_body := joint.motionSubspace q_body }
          -- motion subspace in world frame
          let element := { element with
            motion_subspace_in_world :=
              geo.transformSpatialMotion element.transform_to_world element.motion_subspace_in_body }
          let element := { element with qdot_to_v := joint.qdot2v q_body }
          let element := { element with v_to_qdot := joint.v2qdot q_body }
          if cache.hasV then
            match cache.getV with
            | .error e => .failed e (cache.storeElement body_ptr element)
            | .ok v =>
              if joint.getNumVelocities = 0 then
                -- for fixed joints
                let element := { element with
                  twist_in_world := (parent_element element).twist_in_world }
                if compute_JdotV then
                  let element := { element with
                    motion_subspace_in_world_dot_times_v :=
                      (parent_element element).motion_subspace_in_world_dot_times_v }
                  .returned (cache.storeElement body_ptr element)
                else .returned (cache.storeElement body_ptr element)
              else
                -- twist
                match middleRows v body.velocity_num_start joint.getNumVelocities with
                | none => .failed .assertion_failed (cache.storeElement body_ptr element)
                | some v_body =>
                  match element.motion_subspace_in_world.mulVec v_body with
                  | none => .failed .assertion_failed (cache.storeElement body_ptr element)
                  | some joint_twist =>
                    let element := { element with
                      twist_in_world := (parent_element element).twist_in_world }
                    let element := { element with
                      twist_in_world := element.twist_in_world + joint_twist }
                    if compute_JdotV then
                      -- Sdotv
                      let element := { element with
                        motion_subspace_in_body_dot_times_v :=
                          joint.motionSubspaceDotTimesV q_body v_body }
                      -- Jdotv
                      let joint_accel := geo.crossSpatialMotion element.twist_in_world joint_twist
                      let joint_accel := joint_accel +
                        geo.transformSpatialMotionVector element.transform_to_world
                          element.motion_subspace_in_body_dot_times_v
                      let element := { element with
                        motion_subspace_in_world_dot_times_v :=
                          (parent_element element).motion_subspace_in_world_dot_times_v + joint_accel }
                      .returned (cache.storeElement body_ptr element)
                    else .returned (cache.storeElement body_ptr element)
          else .returned (cache.storeElement body_ptr element)
    | none =>
      let element := { element with transform_to_world := Transform.Identity }
      if cache.hasV then
        let element := { element with twist_in_world := 0 }
        let element := { element with
          motion_subspace_in_body := element.motion_subspace_in_body.setZero }
        let element := { element with
          motion_subspace_in_world := element.motion_subspace_in_world.setZero }
        let element := { element with qdot_to_v := element.qdot_to_v.setZero }
        let element := { element with v_to_qdot := element.v_to_qdot.setZero }
        if compute_JdotV then
          let element := { element with motion_subspace_in_body_dot_times_v := 0 }
          let element := { element with motion_subspace_in_world_dot_times_v := 0 }
          .returned (cache.storeElement body_ptr element)
        else .returned (cache.storeElement body_ptr element)
      else .returned (cache.storeElement body_ptr element)

/-- The loop `for (int i = 0; i < bodies.size(); i++)` of `doKinematics`, run
over the bodies still to visit; it stops at the first error. -/
def doKinematicsLoop (geo : GeometryUtil S) (tree : RigidBodyTree S) (compute_JdotV : Bool) :
    List BodyPtr → KinematicsCache S → Outcome (KinematicsCache S)
  | [], cache => .returned cache
  | body_ptr :: rest, cache =>
    match doKinematicsBody geo tree compute_JdotV cache body_ptr with
    | .failed e c => .failed e c
    | .returned c => doKinematicsLoop geo tree compute_JdotV rest c

/-- Method `doKinematics(KinematicsCache<Scalar>& cache, bool compute_JdotV)`. -/
def doKinematics (geo : GeometryUtil S) (tree : RigidBodyTree S) (cache : KinematicsCache S)
    (compute_JdotV : Bool) : Outcome (KinematicsCache S) :=
  if !tree.initialized then
    .failed (.runtime_error "RigidBodyTree::doKinematics: call compile first.") cache
  else
    -- no sense in computing Jdot times v if v is not passed in
    let compute_JdotV := compute_JdotV && cache.hasV
    let cache := cache.setPositionKinematicsCached
    match doKinematicsLoop geo tree compute_JdotV tree.bodies cache with
    | .failed e c => .failed e c
    | .returned cache => .returned (cache.setJdotVCached (compute_JdotV && cache.hasV))

end RigidBodyTree

/-! ## Tree order and what a visit establishes -/

section Relations

variable {S : Type} [CommRing S]

/-- The body list is ordered parent before child: the parent of every body in
`rest` stands earlier in `rest` or is one of the bodies `seen` before it. -/
def parentsFirst (heap : BodyPtr → RigidBody S) : List BodyPtr → List BodyPtr → Bool
  | _, [] => true
  | seen, body_ptr :: rest =>
    (match (heap body_ptr).parent with
      | none => true
      | some parent_ptr => decide (parent_ptr ∈ seen)) &&
    parentsFirst heap (body_ptr :: seen) rest

/-- Relation between the element `e` of a body with a parent and the element
`ep` of that parent which a visit of the body establishes, for the vectors `q`
and `v`, the flag `hasV` of the cache and the flag `computeJdotV` of the pass. -/
def Propagated (geo : GeometryUtil S) (q v : VectorX S) (hasV computeJdotV : Bool)
    (body : RigidBody S) (ep e : KinematicsCacheElement S) : Prop :=
  ∃ q_body, middleRows q body.position_num_start body.joint.getNumPositions = some q_body ∧
    e.transform_to_world = ep.transform_to_world *
      (body.joint.getTransformToParentBody * body.joint.jointTransform q_body) ∧
    e.motion_subspace_in_body = body.joint.motionSubspace q_body ∧
    e.motion_subspace_in_world =
      geo.transformSpatialMotion e.transform_to_world e.motion_subspace_in_body ∧
    e.qdot_to_v = body.joint.qdot2v q_body ∧
    e.v_to_qdot = body.joint.v2qdot q_body ∧
    (hasV = true →
      (body.joint.getNumVelocities = 0 →
        e.twist_in_world = ep.twist_in_world ∧
        (computeJdotV = true →
          e.motion_subspace_in_world_dot_times_v = ep.motion_subspace_in_world_dot_times_v)) ∧
      (body.joint.getNumVelocities ≠ 0 →
        ∃ v_body joint_twist,
          middleRows v body.velocity_num_start body.joint.getNumVelocities = some v_body ∧
          e.motion_subspace_in_world.mulVec v_body = some joint_twist ∧
          e.twist_in_world = ep.twist_in_world + joint_twist ∧
          (computeJdotV = true →
            e.motion_subspace_in_body_dot_times_v =
              body.joint.motionSubspaceDotTimesV q_body v_body ∧
            e.motion_subspace_in_world_dot_times_v =
              ep.motion_subspace_in_world_dot_times_v +
                (geo.crossSpatialMotion e.twist_in_world joint_twist +
                  geo.transformSpatialMotionVector e.transform_to_world
                    e.motion_subspace_in_body_dot_times_v))))

/-- What a visit of a parentless body establishes on its element `e`. -/
def RootDone (hasV computeJdotV : Bool) (e : KinematicsCacheElement S) : Prop :=
  e.transform_to_world = Transform.Identity ∧
  (hasV = true →
    e.twist_in_world = 0 ∧
    e.motion_subspace_in_body.setZero = e.motion_subspace_in_body ∧
    e.motion_subspace_in_world.setZero = e.motion_subspace_in_world ∧
    e.qdot_to_v.setZero = e.qdot_to_v ∧
    e.v_to_qdot.setZero = e.v_to_qdot ∧
    (computeJdotV = true →
      e.motion_subspace_in_body_dot_times_v = 0 ∧
      e.motion_subspace_in_world_dot_times_v = 0))

/-- The body at `body_ptr` holds in cache `c` what a visit establishes: the
root values when it has no parent, the values propagated from its parent's
element otherwise. -/
def BodyDone (geo : GeometryUtil S) (tree : RigidBodyTree S) (computeJdotV : Bool)
    (c : KinematicsCache S) (body_ptr : BodyPtr) : Prop :=
  ∃ e, c.elements body_ptr = some e ∧
    match (tree.heap body_ptr).parent with
    | none => RootDone c.velocity_vector_valid computeJdotV e
    | some parent_ptr =>
      ∃ ep, c.elements parent_ptr = some ep ∧
        Propagated geo c.q c.v c.velocity_vector_valid computeJdotV (tree.heap body_ptr) ep e

end Relations

/-! ## Sequences of calls on a cache -/

section Calls

variable {S : Type} [CommRing S]

/-- A call made on a cache: one of the two overloads that bind vectors, one of
the three flag setters, or a forward-kinematics pass of some tree. -/
inductive CacheCall (S : Type) where
  | initialize_q (q : VectorX S)
  | initialize_q_v (q v : VectorX S)
  | setPositionKinematicsCached
  | setJdotVCached (jdotV_cached : Bool)
  | setInertiasCached
  | doKinematics (geo : GeometryUtil S) (tree : RigidBodyTree S) (compute_JdotV : Bool)

/-- Outcome of a call on the cache `c`. -/
def CacheCall.outcome (c : KinematicsCache S) : CacheCall S → Outcome (KinematicsCache S)
  | .initialize_q q => KinematicsCache.initialize_q c q
  | .initialize_q_v q v => KinematicsCache.initialize_q_v c q v
  | .setPositionKinematicsCached => .returned c.setPositionKinematicsCached
  | .setJdotVCached jdotV_cached => .returned (c.setJdotVCached jdotV_cached)
  | .setInertiasCached => .returned c.setInertiasCached
  | .doKinematics geo tree compute_JdotV => RigidBodyTree.doKinematics geo tree c compute_JdotV

/-- The call is one of the two overloads that bind vectors. -/
def CacheCall.isBinding : CacheCall S → Bool
  | .initialize_q _ => true
  | .initialize_q_v _ _ => true
  | _ => false

/-- The call is one of the three flag setters. -/
def CacheCall.isSetter : CacheCall S → Bool
  | .setPositionKinematicsCached => true
  | .setJdotVCached _ => true
  | .setInertiasCached => true
  | _ => false

/-- State of the cache after a sequence of calls; a call that fails leaves the
state it had reached, and the next call starts from there. -/
def runCalls : KinematicsCache S → List (CacheCall S) → KinematicsCache S
  | c, [] => c
  | c, call :: rest => runCalls (call.outcome c).state rest

/-- What is remembered of the calls made so far, to state the claims about the
flags. "Since the last binding" means since the last call of either overload
that binds vectors whose `q` had the right length. -/
structure History where
  /-- A pass has returned normally since the last binding. -/
  passCompleted : Bool
  /-- A pass has got beyond the check that the tree is compiled since the last
  binding. -/
  passBegun : Bool
  /-- The most recent pass called after the last call of either binding
  overload: its `compute_JdotV` and the value of `velocity_vector_valid` then. -/
  lastPass : Option (Bool × Bool)
  /-- The most recent pass that returned normally since the last binding: its
  `compute_JdotV` and the value of `velocity_vector_valid` then. -/
  lastReturnedPass : Option (Bool × Bool)
  /-- Every call so far has returned normally. -/
  allReturned : Bool
  /-- The most recent binding call that returned normally: `some true` for the
  overload with `v`. -/
  lastReturnedBinding : Option Bool
  /-- The most recent binding call whose `q` had the right length: `some true`
  when it was the overload with `v` and `v` had the right length as well. -/
  lastAcceptedBinding : Option Bool

/-- The history of a cache on which no call has been made. -/
def History.start : History :=
  { passCompleted := false
    passBegun := false
    lastPass := none
    lastReturnedPass := none
    allReturned := true
    lastReturnedBinding := none
    lastAcceptedBinding := none }

/-- The history after one more call, made on the cache `c`. -/
def History.record (h : History) (c : KinematicsCache S) : CacheCall S → History
  | .initialize_q q =>
    let accepted := ( KinematicsCache.initialize_q c q).succeeds
    { passCompleted := if accepted then false else h.passCompleted
      passBegun := if accepted then false else h.passBegun
      lastPass := none
      lastReturnedPass := if accepted then none else h.lastReturnedPass
      allReturned := h.allReturned && accepted
      lastReturnedBinding := if accepted then some false else h.lastReturnedBinding
      lastAcceptedBinding := if accepted then some false else h.lastAcceptedBinding }
  | .initialize_q_v q v =>
    let accepted := ( KinematicsCache.initialize_q c q).succeeds
    let returned := ( KinematicsCache.initialize_q_v c q v).succeeds
    { passCompleted := if accepted then false else h.passCompleted
      passBegun := if accepted then false else h.passBegun
      lastPass := none
      lastReturnedPass := if accepted then none else h.lastReturnedPass
      allReturned := h.allReturned && returned
      lastReturnedBinding := if returned then some true else h.lastReturnedBinding
      lastAcceptedBinding := if accepted then some returned else h.lastAcceptedBinding }
  | .doKinematics geo tree compute_JdotV =>
    let returned := (RigidBodyTree.doKinematics geo tree c compute_JdotV).succeeds
    { passCompleted := h.passCompleted || returned
      passBegun := h.passBegun || tree.initialized
      lastPass := some (compute_JdotV, c.velocity_vector_valid)
      lastReturnedPass :=
        if returned then some (compute_JdotV, c.velocity_vector_valid) else h.lastReturnedPass
      allReturned := h.allReturned && returned
      lastReturnedBinding := h.lastReturnedBinding
      lastAcceptedBinding := h.lastAcceptedBinding }
  | _ => h

/-- The history after a sequence of calls that starts on the cache `c` with the
history `h`. -/
def history : KinematicsCache S → History → List (CacheCall S) → History
  | _, h, [] => h
  | c, h, call :: rest => history (call.outcome c).state (h.record c call) rest

/-- Agreement of `position_kinematics_cached` and `jdotV_cached` with the
history of the calls, when no flag setter was called. -/
def PassFlagsAgree (c : KinematicsCache S) (h : History) : Prop :=
  (c.position_kinematics_cached = true ↔ h.passBegun = true) ∧
  (h.passCompleted = true → h.passBegun = true) ∧
  (c.jdotV_cached = true →
    c.velocity_vector_valid = true ∧ c.position_kinematics_cached = true ∧
    h.lastReturnedPass = some (true, true)) ∧
  (h.allReturned = true → c.jdotV_cached = true → h.lastPass = some (true, true))

/-- The cache `c'` differs from `c` at most in the contents of its elements:
vectors, flags and the set of keys are those of `c`. -/
def OnlyElementsChanged (c c' : KinematicsCache S) : Prop :=
  c'.q = c.q ∧ c'.v = c.v ∧ c'.velocity_vector_valid = c.velocity_vector_valid ∧
  c'.position_kinematics_cached = c.position_kinematics_cached ∧
  c'.jdotV_cached = c.jdotV_cached ∧ c'.inertias_cached = c.inertias_cached ∧
  ∀ key, (c'.elements key).isSome = (c.elements key).isSome

/-- Every element of `c` is present in `c'` with the same three
velocity-dependent fields. -/
def VelocityFieldsKept (c c' : KinematicsCache S) : Prop :=
  ∀ key e, c.elements key = some e →
    ∃ e', c'.elements key = some e' ∧ e'.twist_in_world = e.twist_in_world ∧
      e'.motion_subspace_in_body_dot_times_v = e.motion_subspace_in_body_dot_times_v ∧
      e'.motion_subspace_in_world_dot_times_v = e.motion_subspace_in_world_dot_times_v

/-- The pass can visit every body of the tree with the positions of `c`: the
body and its parent have an element in `c`, and the body's slice of `q` lies
inside `q`. -/
def PositionsVisitable (tree : RigidBodyTree S) (c : KinematicsCache S) : Prop :=
  ∀ b ∈ tree.bodies, (c.elements b).isSome = true ∧
    (∀ p, (tree.heap b).parent = some p → (c.elements p).isSome = true) ∧
    ((tree.heap b).hasParent = true →
      (tree.heap b).position_num_start + (tree.heap b).getJoint.getNumPositions ≤ c.q.length)

end Calls

/-! ## RigidBodyTree.h: compactToFull -/

section CompactToFull

variable {S : Type} [CommRing S]

/-- Coefficient `M(i, j)` of a dynamic matrix, when `i` and `j` are inside it. -/
def MatrixX.entry (M : MatrixX S) (i j : Nat) : Option S :=
  if h : i < M.rows ∧ j < M.cols then some (M.coeff ⟨i, h.1⟩ ⟨j, h.2⟩) else none

/-- Eigen's block assignment
`dst.middleCols(dst_start, n) = src.middleCols(src_start, n)`. Both blocks must
lie inside their matrices and have the same number of rows (checked by Eigen's
assertions). -/
def MatrixX.assignMiddleCols (dst : MatrixX S) (dst_start : Nat) (src : MatrixX S)
    (src_start n : Nat) : Option (MatrixX S) :=
  if h : dst_start + n ≤ dst.cols ∧ src_start + n ≤ src.cols ∧ dst.rows = src.rows then
    some
      { rows := dst.rows
        cols := dst.cols
        coeff := fun i j =>
          if hj : dst_start ≤ j.val ∧ j.val < dst_start + n then
            src.coeff (Fin.cast h.2.2 i) ⟨src_start + (j.val - dst_start), by omega⟩
          else dst.coeff i j }
  else none

namespace RigidBodyTree

end RigidBodyTree

end CompactToFull

/-! ## RigidBodyTree.h: transformPositionDotMappingToVelocityMapping -/

section PositionDotMapping

variable {S : Type} [CommRing S]

/-- Eigen's `middleCols(start, n)` as a value: the `n` columns from `start` on.
The block must lie inside the matrix (checked by Eigen's assertion). -/
def MatrixX.middleCols (M : MatrixX S) (start n : Nat) : Option (MatrixX S) :=
  if h : start + n ≤ M.cols then
    some { rows := M.rows, cols := n, coeff := fun i j => M.coeff i ⟨start + j.val, by omega⟩ }
  else none

/-- Matrix product `A * B`. The number of columns of `A` must be the number of
rows of `B` (checked by Eigen's assertion). -/
def MatrixX.mul (A B : MatrixX S) : Option (MatrixX S) :=
  if h : A.cols = B.rows then
    some { rows := A.rows, cols := B.cols,
           coeff := fun i j => ∑ k : Fin A.cols, A.coeff i k * B.coeff (Fin.cast h k) j }
  else none

namespace RigidBodyTree

/-- The loop of `transformPositionDotMappingToVelocityMapping` over the bodies
still to visit. The product assigned to the block of `ret` must have the
block's number of columns (checked by Eigen's assertion). -/
def transformPositionDotMappingLoop (tree : RigidBodyTree S) (cache : KinematicsCache S)
    (mat : MatrixX S) : List BodyPtr → MatrixX S → Nat → Nat → Except Error (MatrixX S)
  | [], ret, _, _ => .ok ret
  | body_ptr :: rest, ret, ret_col_start, mat_col_start =>
    let body := tree.heap body_ptr
    if body.hasParent then
      let joint := body.getJoint
      match cache.getElement body_ptr with
      | .error e => .error e
      | .ok element =>
        match mat.middleCols mat_col_start joint.getNumPositions with
        | none => .error .assertion_failed
        | some block =>
          match block.mul element.v_to_qdot with
          | none => .error .assertion_failed
          | some product =>
            if product.cols = joint.getNumVelocities then
              match ret.assignMiddleCols ret_col_start product 0 joint.getNumVelocities with
              | none => .error .assertion_failed
              | some ret =>
                transformPositionDotMappingLoop tree cache mat rest ret
                  (ret_col_start + joint.getNumVelocities)
                  (mat_col_start + joint.getNumPositions)
            else .error .assertion_failed
    else transformPositionDotMappingLoop tree cache mat rest ret ret_col_start mat_col_start

/-- Method `transformPositionDotMappingToVelocityMapping(cache, mat)`. The
matrix `ret` is built with `mat.rows()` rows and `num_velocities` columns and
is not zeroed: `unset i j` stands for the coefficient Eigen leaves unset. -/
def transformPositionDotMappingToVelocityMapping (unset : Nat → Nat → S)
    (tree : RigidBodyTree S) (cache : KinematicsCache S) (mat : MatrixX S) :
    Except Error (MatrixX S) :=
  let ret : MatrixX S :=
    { rows := mat.rows, cols := tree.num_velocities, coeff := fun i j => unset i.val j.val }
  let ret_col_start := 0
  let mat_col_start := 0
  transformPositionDotMappingLoop tree cache mat tree.bodies ret ret_col_start mat_col_start

end RigidBodyTree

/-- Number of velocity columns of a body: the velocities of its joint when it
has a parent, none otherwise. -/
def velocityWidth (heap : BodyPtr → RigidBody S) (b : BodyPtr) : Nat :=
  if (heap b).hasParent then (heap b).getJoint.getNumVelocities else 0

/-- Number of position columns of a body: the positions of its joint when it
has a parent, none otherwise. -/
def positionWidth (heap : BodyPtr → RigidBody S) (b : BodyPtr) : Nat :=
  if (heap b).hasParent then (heap b).getJoint.getNumPositions else 0

/-- Sum of the velocity widths of a list of bodies. -/
def velocityWidthSum (heap : BodyPtr → RigidBody S) (l : List BodyPtr) : Nat :=
  (l.map (velocityWidth heap)).sum

/-- Sum of the position widths of a list of bodies. -/
def positionWidthSum (heap : BodyPtr → RigidBody S) (l : List BodyPtr) : Nat :=
  (l.map (positionWidth heap)).sum

end PositionDotMapping

/-! ## RigidBodyTree.h: forwardKin -/

section ForwardKin

variable {S : Type} [CommRing S]

/-- Modelled from the spec: the members and helpers that `forwardKin` calls and
that are declared but not defined in the sources at hand: `relativeTransform`
of the tree, which may throw, and the two helpers for the representation of a
rotation. -/
structure KinematicsUtil (S : Type) where
  relativeTransform : RigidBodyTree S → KinematicsCache S → Int → Int →
    Except Error (Transform S)
  rotationRepresentationSize : Int → Nat
  rotmat2Representation : Matrix (Fin 3) (Fin 3) S → Int → VectorX S

namespace RigidBodyTree

/-- Method `forwardKin(cache, points, current_body_or_frame_ind,
new_body_or_frame_ind, rotation_type)`. The cache is `const`. The matrix `x`
is not zeroed: `unset i j` stands for a coefficient Eigen leaves unset. The
points must have three rows and the rotation representation must fit into `x`
(checked by Eigen's assertions). -/
def forwardKin (util : KinematicsUtil S) (unset : Nat → Nat → S) (tree : RigidBodyTree S)
    (cache : KinematicsCache S) (points : MatrixX S)
    (current_body_or_frame_ind new_body_or_frame_ind rotation_type : Int) :
    Except Error (MatrixX S) :=
  match cache.checkCachedKinematicsSettings false false "forwardKin" with
  | .failed e _ => .error e
  | .returned _ =>
    let npoints := points.cols
    match util.relativeTransform tree cache new_body_or_frame_ind current_body_or_frame_ind with
    | .error e => .error e
    | .ok T =>
      let rows := 3 + util.rotationRepresentationSize rotation_type
      if hp : points.rows = 3 then
        let qrot := util.rotmat2Representation T.linear rotation_type
        if hq : qrot.length ≤ rows then
          .ok { rows := rows, cols := npoints,
                coeff := fun i j =>
                  if hb : rows - qrot.length ≤ i.val then
                    qrot.get ⟨i.val - (rows - qrot.length), by omega⟩
                  else if ht : i.val < 3 then
                    (∑ k : Fin 3, T.linear ⟨i.val, ht⟩ k * points.coeff (Fin.cast hp.symm k) j)
                      + T.translation ⟨i.val, ht⟩
                  else unset i.val j.val }
        else .error .assertion_failed
      else .error .assertion_failed

end RigidBodyTree

end ForwardKin

/-! ## The twist as a sum along the parent chain -/

section ChainSum

variable {S : Type} [CommRing S]

/-- Contribution of the joint of the body at `j` to a twist: the columns of the
body's `motion_subspace_in_world` in `elements` combined with the slice of `v`
of the body's joint. -/
def jointTwist (tree : RigidBodyTree S) (elements : BodyPtr → Option (KinematicsCacheElement S))
    (v : VectorX S) (j : BodyPtr) : TwistVector S :=
  match elements j with
  | none => 0
  | some e =>
    TwistMatrix.combine e.motion_subspace_in_world
      ((v.drop (tree.heap j).velocity_num_start).take (tree.heap j).getJoint.getNumVelocities)

/-- Sum of the joint contributions over the bodies with a parent on the parent
chain from `b` up to the root, `b` included, whose joint has velocities; the
chain is followed for at most `fuel` bodies. -/
def chainTwist (tree : RigidBodyTree S) (elements : BodyPtr → Option (KinematicsCacheElement S))
    (v : VectorX S) : Nat → BodyPtr → TwistVector S
  | 0, _ => 0
  | fuel + 1, b =>
    match (tree.heap b).parent with
    | none => 0
    | some p =>
      (if (tree.heap b).getJoint.getNumVelocities = 0 then 0
        else jointTwist tree elements v b) + chainTwist tree elements v fuel p

end ChainSum

/-! ## Concrete caches and trees over the integers -/

/-- A cache with one position and one velocity left behind by an earlier pass:
all four flags are set. -/
def usedCache : KinematicsCache Int :=
  { elements := fun _ => none
    q := [1]
    v := [2]
    velocity_vector_valid := true
    position_kinematics_cached := true
    jdotV_cached := true
    inertias_cached := true }

/-- A joint with one position and one velocity: it sits one unit along the first
axis of the parent body and slides along the third axis by its position. -/
def slidingJoint : DrakeJoint Int :=
  { getNumPositions := 1
    getNumVelocities := 1
    getTransformToParentBody := { linear := 1, translation := ![1, 0, 0] }
    jointTransform := fun q => { linear := 1, translation := ![0, 0, q.headD 0] }
    motionSubspace := fun _ => [![0, 0, 0, 0, 0, 1]]
    qdot2v := fun _ => { rows := 1, cols := 1, coeff := fun _ _ => 1 }
    v2qdot := fun _ => { rows := 1, cols := 1, coeff := fun _ _ => 1 }
    motionSubspaceDotTimesV := fun _ _ => 0 }

/-- A tree of two bodies: the root at address 0 and, at every other address, a
body whose parent is the root; the body list holds the root and the body at
address 1. -/
def chainTree : RigidBodyTree Int :=
  { heap := fun body_ptr =>
      { parent := if body_ptr = 0 then none else some 0
        joint := slidingJoint
        position_num_start := 0
        velocity_num_start := 0 }
    bodies := [0, 1]
    num_positions := 1
    num_velocities := 1
    initialized := true }

/-- Stand-ins for the spatial-algebra helpers on the two-body chain: the
transforms of the chain do not rotate, and the stand-ins leave a motion as it
is and take the cross product to be zero. -/
def plainGeometry : GeometryUtil Int :=
  { transformSpatialMotion := fun _ M => M
    transformSpatialMotionVector := fun _ x => x
    crossSpatialMotion := fun _ _ => 0 }

/-- An element with all coefficients zero. -/
def zeroElement : KinematicsCacheElement Int :=
  { transform_to_world := { linear := 0, translation := 0 }
    motion_subspace_in_body := []
    motion_subspace_in_world := []
    qdot_to_v := { rows := 0, cols := 0, coeff := fun _ _ => 0 }
    v_to_qdot := { rows := 0, cols := 0, coeff := fun _ _ => 0 }
    inertia_in_world := 0
    crb_in_world := 0
    twist_in_world := 0
    motion_subspace_in_body_dot_times_v := 0
    motion_subspace_in_world_dot_times_v := 0 }

/-- A cache on the two-body chain holding `q = [3]` and `v = [2]`, as
`initialize(q, v)` leaves it. -/
def chainCache : KinematicsCache Int :=
  { elements := fun body_ptr => if body_ptr ≤ 1 then some zeroElement else none
    q := [3]
    v := [2]
    velocity_vector_valid := true
    position_kinematics_cached := false
    jdotV_cached := false
    inertias_cached := false }

/-- The cache that the constructor builds for the body list of the two-body
chain, with zero for the coefficients Eigen leaves unset. -/
def builtCache : KinematicsCache Int :=
  KinematicsCache.construct (fun _ _ => zeroElement) chainTree.heap chainTree.bodies

/-- A cache built when the body list of the chain held the root only, before the
body at address 1 was added to the tree. -/
def staleCache : KinematicsCache Int :=
  KinematicsCache.construct (fun _ _ => zeroElement) chainTree.heap [0]

/-- The chain as it is before `compile` has run. -/
def uncompiledTree : RigidBodyTree Int :=
  { chainTree with initialized := false }

/-- A compact matrix with two rows and one column, holding 1 and 2. -/
def compactColumn : MatrixX Int :=
  { rows := 2, cols := 1, coeff := fun i _ => (i.val : Int) + 1 }

/-- An element left behind by an earlier pass, with ones in its two bias
fields. -/
def dirtyElement : KinematicsCacheElement Int :=
  { zeroElement with
    motion_subspace_in_body_dot_times_v := fun _ => 1
    motion_subspace_in_world_dot_times_v := fun _ => 1 }

/-- The cache of the two-body chain after a pass with `q = [3]` and `v = [2]`. -/
def passedCache : KinematicsCache Int :=
  (RigidBodyTree.doKinematics plainGeometry chainTree chainCache true).state

/-- A cache of the two-body chain with the same `q = [3]`, no velocity vector
held, other elements from an earlier pass and other flags. -/
def stillCache : KinematicsCache Int :=
  { elements := fun body_ptr => if body_ptr ≤ 1 then some dirtyElement else none
    q := [3]
    v := [7]
    velocity_vector_valid := false
    position_kinematics_cached := true
    jdotV_cached := true
    inertias_cached := true }

/-- The two-body chain after a third body, at address 2, was added to it and
`compile` has run again. -/
def grownTree : RigidBodyTree Int :=
  { chainTree with bodies := [0, 1, 2], num_positions := 2, num_velocities := 2 }

/-! ## Theorems: the cache -/

section CacheTheorems

variable {S : Type}

/-- C1: for every cache state and every `q` of the cache's position count,
`initialize(q)` returns normally, and afterwards `getQ()` is `q`, `hasV()` is
false and the three cached-computation flags are false. -/
theorem initialize_q_resets (c : KinematicsCache S) (q : VectorX S)
    (hq : q.length = c.q.length) :
    ∃ c', KinematicsCache.initialize_q c q = .returned c' ∧ c'.getQ = q ∧ c'.hasV = false ∧
      c'.position_kinematics_cached = false ∧ c'.jdotV_cached = false ∧
      c'.inertias_cached = false := by
  simp [KinematicsCache.initialize_q, hq, KinematicsCache.getQ, KinematicsCache.hasV,
    KinematicsCache.invalidate]

/-- Witness of C1 on a cache whose three cached-computation flags were all set. -/
theorem initialize_q_resets_witness :
    (usedCache.position_kinematics_cached = true ∧ usedCache.jdotV_cached = true ∧
      usedCache.inertias_cached = true) ∧
    ∃ c', KinematicsCache.initialize_q usedCache [5] = .returned c' ∧ c'.getQ = [5] ∧
      c'.hasV = false ∧ c'.position_kinematics_cached = false ∧ c'.jdotV_cached = false ∧
      c'.inertias_cached = false :=
  ⟨⟨rfl, rfl, rfl⟩, initialize_q_resets usedCache [5] rfl⟩

/-- C2: for every cache state and every `q` and `v` of the cache's position and
velocity counts, `initialize(q, v)` returns normally, and afterwards `getQ()` is
`q`, `hasV()` is true, `getV()` returns `v` and the three cached-computation
flags are false. -/
theorem initialize_q_v_sets (c : KinematicsCache S) (q v : VectorX S)
    (hq : q.length = c.q.length) (hv : v.length = c.v.length) :
    ∃ c', KinematicsCache.initialize_q_v c q v = .returned c' ∧ c'.getQ = q ∧ c'.hasV = true ∧
      c'.getV = .ok v ∧ c'.position_kinematics_cached = false ∧ c'.jdotV_cached = false ∧
      c'.inertias_cached = false := by
  simp [KinematicsCache.initialize_q_v, KinematicsCache.initialize_q, hq, hv,
    KinematicsCache.getQ, KinematicsCache.hasV, KinematicsCache.getV, KinematicsCache.invalidate]

/-- Witness of C2 on a cache whose flags were all set. -/
theorem initialize_q_v_sets_witness :
    ∃ c', KinematicsCache.initialize_q_v usedCache [5] [7] = .returned c' ∧ c'.getQ = [5] ∧
      c'.hasV = true ∧ c'.getV = .ok [7] ∧ c'.position_kinematics_cached = false ∧
      c'.jdotV_cached = false ∧ c'.inertias_cached = false :=
  initialize_q_v_sets usedCache [5] [7] rfl rfl

/-- C3 as stated fails: `initialize(q, v)` with a `q` of the right length and a
`v` of the wrong length is rejected after the stored `q` was replaced and the
flags were cleared. -/
theorem initialize_q_v_rejected_after_q_stored :
    ∃ c', KinematicsCache.initialize_q_v usedCache [5] [] = .failed .assertion_failed c' ∧
      c'.q = [5] ∧ c'.q ≠ usedCache.q ∧
      c'.velocity_vector_valid ≠ usedCache.velocity_vector_valid ∧
      c'.position_kinematics_cached ≠ usedCache.position_kinematics_cached ∧
      c'.jdotV_cached ≠ usedCache.jdotV_cached ∧
      c'.inertias_cached ≠ usedCache.inertias_cached := by
  simp [KinematicsCache.initialize_q_v, KinematicsCache.initialize_q, usedCache,
    KinematicsCache.invalidate]

/-- C3, amended: a call with a wrongly sized vector is rejected. When `q` has the
wrong length, `initialize(q)` and `initialize(q, v)` leave the whole cache as it
was. When `q` has the right length and `v` the wrong one, `initialize(q, v)` is
rejected in the state that `initialize(q)` produces: the stored `v` and the
elements are as before, `q` is the new vector, and the four flags are false. -/
theorem initialize_rejects_mismatch (c : KinematicsCache S) (q v : VectorX S) :
    (q.length ≠ c.q.length →
      KinematicsCache.initialize_q c q = .failed .assertion_failed c ∧
      KinematicsCache.initialize_q_v c q v = .failed .assertion_failed c) ∧
    (q.length = c.q.length → v.length ≠ c.v.length →
      ∃ c', KinematicsCache.initialize_q c q = .returned c' ∧
        KinematicsCache.initialize_q_v c q v = .failed .assertion_failed c' ∧
        c'.v = c.v ∧ c'.elements = c.elements ∧ c'.q = q ∧
        c'.velocity_vector_valid = false ∧ c'.position_kinematics_cached = false ∧
        c'.jdotV_cached = false ∧ c'.inertias_cached = false) := by
  constructor
  · intro hq
    have hq' : ¬ c.q.length = q.length := fun h => hq h.symm
    simp [KinematicsCache.initialize_q_v, KinematicsCache.initialize_q, hq']
  · intro hq hv
    have hv' : ¬ c.v.length = v.length := fun h => hv h.symm
    simp [KinematicsCache.initialize_q_v, KinematicsCache.initialize_q, hq, hv',
      KinematicsCache.invalidate]

/-- Witness of the amended C3: both cases on the cache with all flags set. -/
theorem initialize_rejects_mismatch_witness :
    ( KinematicsCache.initialize_q usedCache [] = .failed .assertion_failed usedCache ∧
      KinematicsCache.initialize_q_v usedCache [] [7] = .failed .assertion_failed usedCache) ∧
    ∃ c', KinematicsCache.initialize_q usedCache [5] = .returned c' ∧
        KinematicsCache.initialize_q_v usedCache [5] [] = .failed .assertion_failed c' ∧
        c'.v = usedCache.v ∧ c'.elements = usedCache.elements ∧ c'.q = [5] ∧
        c'.velocity_vector_valid = false ∧ c'.position_kinematics_cached = false ∧
        c'.jdotV_cached = false ∧ c'.inertias_cached = false :=
  ⟨(initialize_rejects_mismatch usedCache [] [7]).1 (by decide),
   (initialize_rejects_mismatch usedCache [5] []).2 rfl (by decide)⟩

/-- C4: `initialize(q)` fails, with the assertion on the dimension, exactly when
the length of `q` differs from the cache's position count; `initialize(q, v)`
fails exactly when the length of `q` differs from the position count or the
length of `v` differs from the velocity count. The counts are the lengths of
the stored vectors: construction sets them to the sums of the joint dimensions
and a successful call keeps them. -/
theorem initialize_fails_iff_mismatch [CommRing S] (fresh : Nat → Nat → KinematicsCacheElement S)
    (heap : BodyPtr → RigidBody S) (bodies : List BodyPtr) (c : KinematicsCache S)
    (q v : VectorX S) :
    ((KinematicsCache.construct fresh heap bodies).q.length =
        KinematicsCache.getNumPositions heap bodies ∧
      (KinematicsCache.construct fresh heap bodies).v.length =
        KinematicsCache.getNumVelocities heap bodies) ∧
    (∀ c', KinematicsCache.initialize_q c q = .returned c' →
      c'.q.length = c.q.length ∧ c'.v.length = c.v.length) ∧
    (∀ c', KinematicsCache.initialize_q_v c q v = .returned c' →
      c'.q.length = c.q.length ∧ c'.v.length = c.v.length) ∧
    ((∃ s, KinematicsCache.initialize_q c q = .failed .assertion_failed s) ↔
      q.length ≠ c.q.length) ∧
    (( KinematicsCache.initialize_q c q).succeeds = true ↔ q.length = c.q.length) ∧
    ((∃ s, KinematicsCache.initialize_q_v c q v = .failed .assertion_failed s) ↔
      (q.length ≠ c.q.length ∨ v.length ≠ c.v.length)) ∧
    (( KinematicsCache.initialize_q_v c q v).succeeds = true ↔
      (q.length = c.q.length ∧ v.length = c.v.length)) := by
  refine ⟨?_, ?_, ?_, ?_, ?_, ?_, ?_⟩
  · simp [KinematicsCache.construct, KinematicsCache.invalidate]
  · intro c' h
    unfold KinematicsCache.initialize_q at h
    split at h
    · rename_i hq
      cases h
      simp [KinematicsCache.invalidate, hq]
    · cases h
  · intro c' h
    unfold KinematicsCache.initialize_q_v KinematicsCache.initialize_q at h
    by_cases hq : c.q.length = q.length
    · by_cases hv : c.v.length = v.length
      · simp [hq, hv, KinematicsCache.invalidate] at h
        subst h
        simp [hq, hv]
      · simp [hq, hv, KinematicsCache.invalidate] at h
    · simp [hq] at h
  · by_cases hq : c.q.length = q.length
    · simp [KinematicsCache.initialize_q, hq]
    · have hq' : ¬ q.length = c.q.length := fun h => hq h.symm
      simp [KinematicsCache.initialize_q, hq, hq']
  · by_cases hq : c.q.length = q.length
    · simp [KinematicsCache.initialize_q, hq, Outcome.succeeds]
    · have hq' : ¬ q.length = c.q.length := fun h => hq h.symm
      simp [KinematicsCache.initialize_q, hq, hq', Outcome.succeeds]
  · by_cases hq : c.q.length = q.length
    · by_cases hv : c.v.length = v.length
      · simp [KinematicsCache.initialize_q_v, KinematicsCache.initialize_q, hq, hv,
          KinematicsCache.invalidate]
      · have hv' : ¬ v.length = c.v.length := fun h => hv h.symm
        simp [KinematicsCache.initialize_q_v, KinematicsCache.initialize_q, hq, hv, hv',
          KinematicsCache.invalidate]
    · have hq' : ¬ q.length = c.q.length := fun h => hq h.symm
      simp [KinematicsCache.initialize_q_v, KinematicsCache.initialize_q, hq, hq']
  · by_cases hq : c.q.length = q.length
    · by_cases hv : c.v.length = v.length
      · simp [KinematicsCache.initialize_q_v, KinematicsCache.initialize_q, hq, hv,
          KinematicsCache.invalidate, Outcome.succeeds]
      · have hv' : ¬ v.length = c.v.length := fun h => hv h.symm
        simp [KinematicsCache.initialize_q_v, KinematicsCache.initialize_q, hq, hv, hv',
          KinematicsCache.invalidate, Outcome.succeeds]
    · have hq' : ¬ q.length = c.q.length := fun h => hq h.symm
      simp [KinematicsCache.initialize_q_v, KinematicsCache.initialize_q, hq, hq',
        Outcome.succeeds]

/-- C5: `checkCachedKinematicsSettings` fails exactly when position kinematics
are not cached, or velocity is required and no velocity vector is held, or
Jdot times v is required and not cached; otherwise it returns normally, and in
either case the cache is left as it was. -/
theorem checkCachedKinematicsSettings_fails_iff (c : KinematicsCache S)
    (velocity_kinematics_required jdot_times_v_required : Bool) (method_name : String) :
    (( KinematicsCache.checkCachedKinematicsSettings c velocity_kinematics_required
        jdot_times_v_required method_name).succeeds = false ↔
      (c.position_kinematics_cached = false ∨
        (velocity_kinematics_required = true ∧ c.velocity_vector_valid = false) ∨
        (jdot_times_v_required = true ∧ c.jdotV_cached = false))) ∧
    (¬ (c.position_kinematics_cached = false ∨
        (velocity_kinematics_required = true ∧ c.velocity_vector_valid = false) ∨
        (jdot_times_v_required = true ∧ c.jdotV_cached = false)) →
      KinematicsCache.checkCachedKinematicsSettings c velocity_kinematics_required
        jdot_times_v_required method_name = .returned c) ∧
    ( KinematicsCache.checkCachedKinematicsSettings c velocity_kinematics_required
        jdot_times_v_required method_name).state = c := by
  unfold KinematicsCache.checkCachedKinematicsSettings KinematicsCache.hasV
  cases c.position_kinematics_cached <;> cases c.velocity_vector_valid <;>
    cases c.jdotV_cached <;> cases velocity_kinematics_required <;>
    cases jdot_times_v_required <;> simp [Outcome.succeeds, Outcome.state]

end CacheTheorems

/-! ## Theorems: one visit of the loop body -/

section BodyLemmas

variable {S : Type} [CommRing S]

omit [CommRing S] in
theorem storeElement_same (c : KinematicsCache S) (b : BodyPtr) (e : KinematicsCacheElement S)
    (h : c.elements b = some e) : c.storeElement b e = c := by
  cases c with
  | mk elements q v f1 f2 f3 f4 =>
    simp only [KinematicsCache.storeElement, KinematicsCache.mk.injEq, and_true]
    funext key
    by_cases hk : key = b
    · subst hk
      simp [← h]
    · simp [hk]

/-- A visit that returns has replaced the element of the visited body and
nothing else. -/
theorem doKinematicsBody_returned_store (geo : GeometryUtil S) (tree : RigidBodyTree S)
    (J : Bool) (c c' : KinematicsCache S) (b : BodyPtr)
    (h : RigidBodyTree.doKinematicsBody geo tree J c b = .returned c') :
    ∃ e', c' = c.storeElement b e' := by
  unfold RigidBodyTree.doKinematicsBody at h
  simp only [KinematicsCache.getElement, KinematicsCache.getQ, KinematicsCache.getV,
    KinematicsCache.hasV, RigidBody.getJoint] at h
  repeat' split at h
  all_goals first
    | (cases h; done)
    | (cases h; exact ⟨_, rfl⟩)

theorem TwistMatrix.setZero_setZero (M : TwistMatrix S) : M.setZero.setZero = M.setZero := by
  simp [TwistMatrix.setZero]

theorem MatrixX.setZero_idem (M : MatrixX S) : M.setZero.setZero = M.setZero := rfl

/-- A visit that returns leaves the visited body in the state `BodyDone`,
provided the body is not its own parent. -/
theorem doKinematicsBody_done (geo : GeometryUtil S) (tree : RigidBodyTree S)
    (J : Bool) (c c' : KinematicsCache S) (b : BodyPtr)
    (h : RigidBodyTree.doKinematicsBody geo tree J c b = .returned c')
    (hself : (tree.heap b).parent ≠ some b) :
    BodyDone geo tree J c' b := by
  unfold RigidBodyTree.doKinematicsBody at h
  simp only [KinematicsCache.getElement, KinematicsCache.getQ, KinematicsCache.getV,
    KinematicsCache.hasV, RigidBody.getJoint] at h
  cases hb : c.elements b with
  | none => simp [hb] at h
  | some e0 =>
    simp only [hb] at h
    cases hp : (tree.heap b).parent with
    | none =>
      simp only [hp] at h
      unfold BodyDone
      simp only [hp]
      cases hV : c.velocity_vector_valid <;> cases J <;>
        simp only [hV, if_true, if_false, Bool.false_eq_true, Outcome.returned.injEq] at h <;>
        subst h <;>
        simp [KinematicsCache.storeElement, RootDone, hV, TwistMatrix.setZero_setZero,
          MatrixX.setZero_idem]
    | some p =>
      have hpb : p ≠ b := fun hEq => hself (by rw [hp, hEq])
      simp only [hp, if_neg hpb] at h
      unfold BodyDone
      simp only [hp]
      cases hpe : c.elements p with
      | none => simp [hpe] at h
      | some ep =>
        simp only [hpe] at h
        cases hq : middleRows c.q (tree.heap b).position_num_start
            (tree.heap b).joint.getNumPositions with
        | none => simp [hq] at h
        | some q_body =>
          simp only [hq] at h
          cases hV : c.velocity_vector_valid with
          | false =>
            simp only [hV, if_false, Bool.false_eq_true, Outcome.returned.injEq] at h
            subst h
            simp [KinematicsCache.storeElement, Propagated, hpb, hpe, hq, hV]
          | true =>
            simp only [hV, if_true] at h
            by_cases hnv : (tree.heap b).joint.getNumVelocities = 0
            · simp only [hnv, if_true] at h
              cases J <;>
                simp only [if_true, if_false, Bool.false_eq_true, Outcome.returned.injEq] at h <;>
                subst h <;>
                simp [KinematicsCache.storeElement, Propagated, hpb, hpe, hq, hV, hnv]
            · simp only [hnv, if_false] at h
              cases hvb : middleRows c.v (tree.heap b).velocity_num_start
                  (tree.heap b).joint.getNumVelocities with
              | none => simp [hvb] at h
              | some v_body =>
                simp only [hvb] at h
                cases hjt : TwistMatrix.mulVec (geo.transformSpatialMotion
                    (ep.transform_to_world * ((tree.heap b).joint.getTransformToParentBody *
                      (tree.heap b).joint.jointTransform q_body))
                    ((tree.heap b).joint.motionSubspace q_body)) v_body with
                | none => simp [hjt] at h
                | some joint_twist =>
                  simp only [hjt] at h
                  cases J <;>
                    simp only [if_true, if_false, Bool.false_eq_true,
                      Outcome.returned.injEq] at h <;>
                    subst h <;>
                    simp [KinematicsCache.storeElement, Propagated, hpb, hpe, hq, hV, hnv, hvb,
                      hjt]

/-- Visiting a body that is already in the state `BodyDone` changes nothing. -/
theorem doKinematicsBody_of_done (geo : GeometryUtil S) (tree : RigidBodyTree S)
    (J : Bool) (c : KinematicsCache S) (b : BodyPtr)
    (hdone : BodyDone geo tree J c b)
    (hself : (tree.heap b).parent ≠ some b) :
    RigidBodyTree.doKinematicsBody geo tree J c b = .returned c := by
  obtain ⟨e, he, hrest⟩ := hdone
  unfold RigidBodyTree.doKinematicsBody
  simp only [KinematicsCache.getElement, KinematicsCache.getQ, KinematicsCache.getV,
    KinematicsCache.hasV, RigidBody.getJoint, he]
  cases hp : (tree.heap b).parent with
  | none =>
    simp only [hp] at hrest
    obtain ⟨hT, hrest⟩ := hrest
    simp only
    by_cases hV : c.velocity_vector_valid = true
    · obtain ⟨h1, h2, h3, h4, h5, h6⟩ := hrest hV
      cases J with
      | false =>
        simp only [hV, if_true, if_false, Bool.false_eq_true, Outcome.returned.injEq]
        apply storeElement_same
        rw [he]
        congr 1
        apply KinematicsCacheElement.ext <;> simp [hT, h1, h2, h3, h4, h5]
      | true =>
        obtain ⟨h7, h8⟩ := h6 rfl
        simp only [hV, if_true, Outcome.returned.injEq]
        apply storeElement_same
        rw [he]
        congr 1
        apply KinematicsCacheElement.ext <;> simp [hT, h1, h2, h3, h4, h5, h7, h8]
    · simp only [hV, if_false, Bool.false_eq_true, Outcome.returned.injEq]
      apply storeElement_same
      rw [he, ← hT]
  | some p =>
    have hpb : p ≠ b := fun hEq => hself (by rw [hp, hEq])
    simp only [hp] at hrest
    obtain ⟨ep, hpe, q_body, hq, hT, hmb, hmw, hqv, hvq, hvel⟩ := hrest
    simp only [hpe, hq, if_neg hpb]
    rw [← hT, ← hmb, ← hmw, ← hqv, ← hvq]
    by_cases hV : c.velocity_vector_valid = true
    · obtain ⟨hzero, hpos⟩ := hvel hV
      simp only [hV, if_true]
      by_cases hnv : (tree.heap b).joint.getNumVelocities = 0
      · obtain ⟨htw, hj⟩ := hzero hnv
        simp only [hnv, if_true, ← htw]
        cases J with
        | false =>
          simp only [if_false, Bool.false_eq_true, Outcome.returned.injEq]
          exact storeElement_same _ _ _ he
        | true =>
          simp only [if_true, ← hj rfl, Outcome.returned.injEq]
          exact storeElement_same _ _ _ he
      · obtain ⟨v_body, joint_twist, hvb, hjt, htw, hj⟩ := hpos hnv
        simp only [hnv, if_false, hvb, hjt, ← htw]
        cases J with
        | false =>
          simp only [if_false, Bool.false_eq_true, Outcome.returned.injEq]
          exact storeElement_same _ _ _ he
        | true =>
          obtain ⟨hsb, hsw⟩ := hj rfl
          simp only [if_true, ← hsb, ← hsw, Outcome.returned.injEq]
          exact storeElement_same _ _ _ he
    · simp only [hV, if_false, Bool.false_eq_true, Outcome.returned.injEq]
      exact storeElement_same _ _ _ he

/-- Storing the element of another body keeps `BodyDone` for a body whose
parent is not that other body either. -/
theorem BodyDone_storeElement (geo : GeometryUtil S) (tree : RigidBodyTree S) (J : Bool)
    (c : KinematicsCache S) (b b' : BodyPtr) (e' : KinematicsCacheElement S)
    (hb : b ≠ b') (hp : ∀ p, (tree.heap b).parent = some p → p ≠ b')
    (hdone : BodyDone geo tree J c b) :
    BodyDone geo tree J (c.storeElement b' e') b := by
  obtain ⟨e, he, hrest⟩ := hdone
  refine ⟨e, by simp [KinematicsCache.storeElement, hb, he], ?_⟩
  cases hpar : (tree.heap b).parent with
  | none =>
    simp only [hpar] at hrest
    simpa [KinematicsCache.storeElement] using hrest
  | some p =>
    simp only [hpar] at hrest
    obtain ⟨ep, hpe, hprop⟩ := hrest
    exact ⟨ep, by simp [KinematicsCache.storeElement, hp p hpar, hpe],
      by simpa [KinematicsCache.storeElement] using hprop⟩

end BodyLemmas

/-! ## Theorems: the loop and the pass -/

section PassLemmas

variable {S : Type} [CommRing S]

/-- The loop touches nothing but the elements. -/
theorem doKinematicsLoop_frame (geo : GeometryUtil S) (tree : RigidBodyTree S) (J : Bool) :
    ∀ (l : List BodyPtr) (c c' : KinematicsCache S),
      RigidBodyTree.doKinematicsLoop geo tree J l c = .returned c' →
      c'.q = c.q ∧ c'.v = c.v ∧ c'.velocity_vector_valid = c.velocity_vector_valid ∧
      c'.position_kinematics_cached = c.position_kinematics_cached ∧
      c'.jdotV_cached = c.jdotV_cached ∧ c'.inertias_cached = c.inertias_cached := by
  intro l
  induction l with
  | nil =>
    intro c c' h
    simp only [RigidBodyTree.doKinematicsLoop, Outcome.returned.injEq] at h
    subst h
    simp
  | cons b rest ih =>
    intro c c' h
    simp only [RigidBodyTree.doKinematicsLoop] at h
    cases hstep : RigidBodyTree.doKinematicsBody geo tree J c b with
    | failed e c1 => simp [hstep] at h
    | returned c1 =>
      simp only [hstep] at h
      obtain ⟨e', he'⟩ := doKinematicsBody_returned_store geo tree J c c1 b hstep
      have := ih c1 c' h
      subst he'
      simpa [KinematicsCache.storeElement] using this

/-- Invariant of the loop over a list ordered parent before child: once the
bodies `seen` are in the state `BodyDone`, so are, after the loop, those and
the bodies the loop visited. -/
theorem doKinematicsLoop_done (geo : GeometryUtil S) (tree : RigidBodyTree S) (J : Bool) :
    ∀ (l seen : List BodyPtr) (c c' : KinematicsCache S),
      parentsFirst tree.heap seen l = true →
      (∀ b ∈ seen, ∀ p, (tree.heap b).parent = some p → p ∈ seen ∧ p ≠ b) →
      (∀ b ∈ seen, BodyDone geo tree J c b) →
      RigidBodyTree.doKinematicsLoop geo tree J l c = .returned c' →
      ∀ b, b ∈ seen ∨ b ∈ l → BodyDone geo tree J c' b := by
  intro l
  induction l with
  | nil =>
    intro seen c c' _ _ hinv h b hb
    simp only [RigidBodyTree.doKinematicsLoop, Outcome.returned.injEq] at h
    subst h
    rcases hb with hb | hb
    · exact hinv b hb
    · simp at hb
  | cons b' rest ih =>
    intro seen c c' hord hclosed hinv h b hb
    simp only [parentsFirst, Bool.and_eq_true] at hord
    obtain ⟨hpar, hord'⟩ := hord
    have hparent : ∀ p, (tree.heap b').parent = some p → p ∈ seen := by
      intro p hp
      simpa [hp] using hpar
    have hclosed' : ∀ x ∈ b' :: seen, ∀ p, (tree.heap x).parent = some p →
        p ∈ b' :: seen ∧ p ≠ x := by
      intro x hx p hp
      by_cases hxs : x ∈ seen
      · exact ⟨List.mem_cons_of_mem _ (hclosed x hxs p hp).1, (hclosed x hxs p hp).2⟩
      · have hxb : x = b' := by
          rcases List.mem_cons.mp hx with h1 | h1
          · exact h1
          · exact absurd h1 hxs
        subst hxb
        have hps := hparent p hp
        exact ⟨List.mem_cons_of_mem _ hps, fun hEq => hxs (hEq ▸ hps)⟩
    have hself : (tree.heap b').parent ≠ some b' := fun hp =>
      (hclosed' b' (List.mem_cons_self _ _) b' hp).2 rfl
    simp only [RigidBodyTree.doKinematicsLoop] at h
    cases hstep : RigidBodyTree.doKinematicsBody geo tree J c b' with
    | failed e c1 => simp [hstep] at h
    | returned c1 =>
      simp only [hstep] at h
      have hinv' : ∀ x ∈ b' :: seen, BodyDone geo tree J c1 x := by
        by_cases hbs : b' ∈ seen
        · have hnoop := doKinematicsBody_of_done geo tree J c b' (hinv b' hbs) hself
          rw [hnoop] at hstep
          cases hstep
          intro x hx
          rcases List.mem_cons.mp hx with h1 | h1
          · exact h1 ▸ hinv b' hbs
          · exact hinv x h1
        · have hdone := doKinematicsBody_done geo tree J c c1 b' hstep hself
          obtain ⟨e', he'⟩ := doKinematicsBody_returned_store geo tree J c c1 b' hstep
          intro x hx
          rcases List.mem_cons.mp hx with h1 | h1
          · exact h1 ▸ hdone
          · subst he'
            refine BodyDone_storeElement geo tree J c x b' e' ?_ ?_ (hinv x h1)
            · exact fun hEq => hbs (hEq ▸ h1)
            · intro p hp hEq
              exact hbs (hEq ▸ (hclosed x h1 p hp).1)
      refine ih (b' :: seen) c1 c' hord' hclosed' hinv' h b ?_
      rcases hb with hb | hb
      · exact Or.inl (List.mem_cons_of_mem _ hb)
      · rcases List.mem_cons.mp hb with h1 | h1
        · exact Or.inl (h1 ▸ List.mem_cons_self _ _)
        · exact Or.inr h1

theorem Outcome.eq_returned_state {σ : Type} (o : Outcome σ) (h : o.succeeds = true) :
    o = .returned o.state := by
  cases o with
  | returned s => rfl
  | failed e s => simp [Outcome.succeeds] at h

/-- A pass that returns ran the loop to its end on the cache marked as having
position kinematics, and then stored the flag for Jdot times v. -/
theorem doKinematics_returned (geo : GeometryUtil S) (tree : RigidBodyTree S)
    (cache c' : KinematicsCache S) (compute_JdotV : Bool)
    (h : RigidBodyTree.doKinematics geo tree cache compute_JdotV = .returned c') :
    ∃ c1, RigidBodyTree.doKinematicsLoop geo tree (compute_JdotV && cache.velocity_vector_valid)
        tree.bodies cache.setPositionKinematicsCached = .returned c1 ∧
      c' = c1.setJdotVCached
        ((compute_JdotV && cache.velocity_vector_valid) && c1.velocity_vector_valid) := by
  unfold RigidBodyTree.doKinematics at h
  simp only [KinematicsCache.hasV] at h
  split at h
  · cases h
  · cases hloop : RigidBodyTree.doKinematicsLoop geo tree
        (compute_JdotV && cache.velocity_vector_valid) tree.bodies
        cache.setPositionKinematicsCached with
    | failed e c1 => simp [hloop] at h
    | returned c1 =>
      simp only [hloop, Outcome.returned.injEq] at h
      exact ⟨c1, rfl, h.symm⟩

/-- A pass that returns keeps `q`, `v` and `velocity_vector_valid`. -/
theorem doKinematics_keeps (geo : GeometryUtil S) (tree : RigidBodyTree S)
    (cache c' : KinematicsCache S) (compute_JdotV : Bool)
    (h : RigidBodyTree.doKinematics geo tree cache compute_JdotV = .returned c') :
    c'.q = cache.q ∧ c'.v = cache.v ∧ c'.velocity_vector_valid = cache.velocity_vector_valid := by
  obtain ⟨c1, hloop, hc'⟩ := doKinematics_returned geo tree cache c' compute_JdotV h
  have hf := doKinematicsLoop_frame geo tree _ _ _ _ hloop
  subst hc'
  simpa [KinematicsCache.setJdotVCached, KinematicsCache.setPositionKinematicsCached] using
    ⟨hf.1, hf.2.1, hf.2.2.1⟩

/-- After a pass over a tree ordered parent before child, every body of the
tree is in the state `BodyDone`. -/
theorem doKinematics_done (geo : GeometryUtil S) (tree : RigidBodyTree S)
    (cache c' : KinematicsCache S) (compute_JdotV : Bool)
    (h : RigidBodyTree.doKinematics geo tree cache compute_JdotV = .returned c')
    (hord : parentsFirst tree.heap [] tree.bodies = true) (b : BodyPtr) (hb : b ∈ tree.bodies) :
    BodyDone geo tree (compute_JdotV && cache.velocity_vector_valid) c' b := by
  obtain ⟨c1, hloop, hc'⟩ := doKinematics_returned geo tree cache c' compute_JdotV h
  have hdone := doKinematicsLoop_done geo tree _ tree.bodies [] _ c1 hord
    (by intro x hx; simp at hx) (by intro x hx; simp at hx) hloop b (Or.inr hb)
  subst hc'
  simpa [BodyDone, KinematicsCache.setJdotVCached] using hdone

/-- The loop leaves every parentless body it visits, and every parentless body
that had it before, with the identity as transform to world. -/
theorem doKinematicsLoop_root (geo : GeometryUtil S) (tree : RigidBodyTree S) (J : Bool)
    (b : BodyPtr) (hroot : (tree.heap b).parent = none) :
    ∀ (l : List BodyPtr) (c c' : KinematicsCache S),
      RigidBodyTree.doKinematicsLoop geo tree J l c = .returned c' →
      ((∃ e, c.elements b = some e ∧ e.transform_to_world = Transform.Identity) ∨ b ∈ l) →
      ∃ e, c'.elements b = some e ∧ e.transform_to_world = Transform.Identity := by
  intro l
  induction l with
  | nil =>
    intro c c' h hb
    simp only [RigidBodyTree.doKinematicsLoop, Outcome.returned.injEq] at h
    subst h
    rcases hb with hb | hb
    · exact hb
    · simp at hb
  | cons b' rest ih =>
    intro c c' h hb
    simp only [RigidBodyTree.doKinematicsLoop] at h
    cases hstep : RigidBodyTree.doKinematicsBody geo tree J c b' with
    | failed e c1 => simp [hstep] at h
    | returned c1 =>
      simp only [hstep] at h
      refine ih c1 c' h ?_
      by_cases hbb : b = b'
      · subst hbb
        have hdone := doKinematicsBody_done geo tree J c c1 b hstep (by simp [hroot])
        obtain ⟨e, he, hrest⟩ := hdone
        simp only [hroot] at hrest
        exact Or.inl ⟨e, he, hrest.1⟩
      · obtain ⟨e', he'⟩ := doKinematicsBody_returned_store geo tree J c c1 b' hstep
        rcases hb with hb | hb
        · subst he'
          exact Or.inl (by simpa [KinematicsCache.storeElement, hbb] using hb)
        · rcases List.mem_cons.mp hb with h1 | h1
          · exact absurd h1 hbb
          · exact Or.inr h1

end PassLemmas

/-! ## Theorems: the forward-kinematics pass -/

section PassTheorems

variable {S : Type} [CommRing S]

theorem chain_pass_returns (compute_JdotV : Bool) :
    RigidBodyTree.doKinematics plainGeometry chainTree chainCache compute_JdotV =
      .returned (RigidBodyTree.doKinematics plainGeometry chainTree chainCache compute_JdotV).state := by
  apply Outcome.eq_returned_state
  cases compute_JdotV <;> rfl

theorem chain_parentsFirst : parentsFirst chainTree.heap [] chainTree.bodies = true := by
  decide

/-- C6: after `doKinematics(cache, compute_JdotV)` returns,
`position_kinematics_cached` is true and `jdotV_cached` is
`compute_JdotV && velocity_vector_valid`, whatever the two flags were before;
`velocity_vector_valid` itself is as before the pass. -/
theorem doKinematics_flags (geo : GeometryUtil S) (tree : RigidBodyTree S)
    (cache c' : KinematicsCache S) (compute_JdotV : Bool)
    (h : RigidBodyTree.doKinematics geo tree cache compute_JdotV = .returned c') :
    c'.position_kinematics_cached = true ∧
    c'.jdotV_cached = (compute_JdotV && cache.velocity_vector_valid) ∧
    c'.jdotV_cached = (compute_JdotV && c'.velocity_vector_valid) ∧
    c'.velocity_vector_valid = cache.velocity_vector_valid := by
  obtain ⟨c1, hloop, hc'⟩ := doKinematics_returned geo tree cache c' compute_JdotV h
  obtain ⟨_, _, hV, hP, _, _⟩ := doKinematicsLoop_frame geo tree _ _ _ _ hloop
  subst hc'
  simp only [KinematicsCache.setPositionKinematicsCached] at hV hP
  simp only [KinematicsCache.setJdotVCached, hV, hP]
  cases compute_JdotV <;> cases cache.velocity_vector_valid <;> simp

/-- Witness of C6: the pass over the two-body chain with Jdot times v requested. -/
theorem doKinematics_flags_witness :
    (RigidBodyTree.doKinematics plainGeometry chainTree chainCache true).state.position_kinematics_cached
      = true ∧
    (RigidBodyTree.doKinematics plainGeometry chainTree chainCache true).state.jdotV_cached =
      (true && chainCache.velocity_vector_valid) ∧
    (RigidBodyTree.doKinematics plainGeometry chainTree chainCache true).state.jdotV_cached =
      (true && (RigidBodyTree.doKinematics plainGeometry chainTree chainCache
        true).state.velocity_vector_valid) ∧
    (RigidBodyTree.doKinematics plainGeometry chainTree chainCache true).state.velocity_vector_valid
      = chainCache.velocity_vector_valid :=
  doKinematics_flags plainGeometry chainTree chainCache _ true (chain_pass_returns true)

/-- C7, amended: after a pass over a tree ordered parent before child, for every
body `b` of the tree with parent `p`, `transform_to_world(b)` is
`transform_to_world(p)` composed with the joint's fixed transform to the parent
body composed with `jointTransform` of the slice of `q` that starts at
`position_num_start(b)` and has `numPositions(b)` entries. -/
theorem transform_composition (geo : GeometryUtil S) (tree : RigidBodyTree S)
    (cache c' : KinematicsCache S) (compute_JdotV : Bool)
    (h : RigidBodyTree.doKinematics geo tree cache compute_JdotV = .returned c')
    (hord : parentsFirst tree.heap [] tree.bodies = true)
    (b p : BodyPtr) (hb : b ∈ tree.bodies) (hp : (tree.heap b).parent = some p) :
    ∃ e ep q_body, c'.getElement b = .ok e ∧ c'.getElement p = .ok ep ∧
      c'.getQ = cache.getQ ∧
      middleRows c'.getQ (tree.heap b).position_num_start
        (tree.heap b).getJoint.getNumPositions = some q_body ∧
      e.transform_to_world = ep.transform_to_world *
        ((tree.heap b).getJoint.getTransformToParentBody *
          (tree.heap b).getJoint.jointTransform q_body) := by
  obtain ⟨e, he, hrest⟩ := doKinematics_done geo tree cache c' compute_JdotV h hord b hb
  simp only [hp] at hrest
  obtain ⟨ep, hpe, q_body, hq, hT, _⟩ := hrest
  exact ⟨e, ep, q_body, by simp [KinematicsCache.getElement, he],
    by simp [KinematicsCache.getElement, hpe],
    (doKinematics_keeps geo tree cache c' compute_JdotV h).1, hq, hT⟩

/-- Witness of the amended C7: the child of the two-body chain. -/
theorem transform_composition_witness :
    ∃ e ep q_body,
      (RigidBodyTree.doKinematics plainGeometry chainTree chainCache false).state.getElement 1
        = .ok e ∧
      (RigidBodyTree.doKinematics plainGeometry chainTree chainCache false).state.getElement 0
        = .ok ep ∧
      (RigidBodyTree.doKinematics plainGeometry chainTree chainCache false).state.getQ
        = chainCache.getQ ∧
      middleRows (RigidBodyTree.doKinematics plainGeometry chainTree chainCache false).state.getQ
        (chainTree.heap 1).position_num_start (chainTree.heap 1).getJoint.getNumPositions
        = some q_body ∧
      e.transform_to_world = ep.transform_to_world *
        ((chainTree.heap 1).getJoint.getTransformToParentBody *
          (chainTree.heap 1).getJoint.jointTransform q_body) :=
  transform_composition plainGeometry chainTree chainCache _ false (chain_pass_returns false)
    chain_parentsFirst 1 0 (by decide) rfl

/-- C7 as stated fails: on the two-body chain the child's `transform_to_world`
is not the root's composed with `jointTransform` of the child's slice of `q`,
because the joint's fixed transform to the parent body is not the identity. -/
theorem transform_composition_without_fixed_fails :
    ∃ c' e ep q_body,
      RigidBodyTree.doKinematics plainGeometry chainTree chainCache false = .returned c' ∧
      parentsFirst chainTree.heap [] chainTree.bodies = true ∧
      1 ∈ chainTree.bodies ∧ (chainTree.heap 1).parent = some 0 ∧
      c'.getElement 1 = .ok e ∧ c'.getElement 0 = .ok ep ∧
      middleRows c'.getQ (chainTree.heap 1).position_num_start
        (chainTree.heap 1).getJoint.getNumPositions = some q_body ∧
      e.transform_to_world.translation 0 = 1 ∧
      (ep.transform_to_world *
        (chainTree.heap 1).getJoint.jointTransform q_body).translation 0 = 0 ∧
      e.transform_to_world ≠
        ep.transform_to_world * (chainTree.heap 1).getJoint.jointTransform q_body := by
  refine ⟨_, _, _, _, chain_pass_returns false, by decide, by decide, rfl, rfl, rfl, rfl,
    by decide, by decide, ?_⟩
  intro hEq
  have h0 := congrArg (fun t : Transform Int => t.translation 0) hEq
  revert h0
  decide

/-- C8: after a pass that returns, every parentless body of the tree has the
identity as `transform_to_world`, for every `q`, `v` and earlier content of the
cache. -/
theorem root_transform_identity (geo : GeometryUtil S) (tree : RigidBodyTree S)
    (cache c' : KinematicsCache S) (compute_JdotV : Bool)
    (h : RigidBodyTree.doKinematics geo tree cache compute_JdotV = .returned c')
    (b : BodyPtr) (hb : b ∈ tree.bodies) (hroot : (tree.heap b).hasParent = false) :
    ∃ e, c'.getElement b = .ok e ∧ e.transform_to_world = Transform.Identity := by
  obtain ⟨c1, hloop, hc'⟩ := doKinematics_returned geo tree cache c' compute_JdotV h
  have hnone : (tree.heap b).parent = none := by
    simpa [RigidBody.hasParent] using hroot
  obtain ⟨e, he, hT⟩ := doKinematicsLoop_root geo tree _ b hnone _ _ _ hloop (Or.inr hb)
  subst hc'
  exact ⟨e, by simp [KinematicsCache.getElement, KinematicsCache.setJdotVCached, he], hT⟩

/-- Witness of C8: the root of the two-body chain. -/
theorem root_transform_identity_witness :
    ∃ e, (RigidBodyTree.doKinematics plainGeometry chainTree chainCache true).state.getElement 0
        = .ok e ∧ e.transform_to_world = Transform.Identity :=
  root_transform_identity plainGeometry chainTree chainCache _ true (chain_pass_returns true)
    0 (by decide) rfl

/-- C9: after a pass with a velocity vector held, over a tree ordered parent
before child, for every body `b` of the tree with parent `p`: when the joint of
`b` has velocities, `twist_in_world(b)` is `twist_in_world(p)` plus
`motion_subspace_in_world(b)` times the slice of `v` that starts at
`velocity_num_start(b)` and has `numVelocities(b)` entries; when it has none,
`twist_in_world(b)` is `twist_in_world(p)`. -/
theorem twist_propagation (geo : GeometryUtil S) (tree : RigidBodyTree S)
    (cache c' : KinematicsCache S) (compute_JdotV : Bool)
    (h : RigidBodyTree.doKinematics geo tree cache compute_JdotV = .returned c')
    (hord : parentsFirst tree.heap [] tree.bodies = true)
    (hV : cache.hasV = true)
    (b p : BodyPtr) (hb : b ∈ tree.bodies) (hp : (tree.heap b).parent = some p) :
    ∃ e ep, c'.getElement b = .ok e ∧ c'.getElement p = .ok ep ∧
      c'.getV = .ok cache.v ∧
      ((tree.heap b).getJoint.getNumVelocities ≠ 0 →
        ∃ v_body joint_twist,
          middleRows cache.v (tree.heap b).velocity_num_start
            (tree.heap b).getJoint.getNumVelocities = some v_body ∧
          e.motion_subspace_in_world.mulVec v_body = some joint_twist ∧
          e.twist_in_world = ep.twist_in_world + joint_twist) ∧
      ((tree.heap b).getJoint.getNumVelocities = 0 →
        e.twist_in_world = ep.twist_in_world) := by
  obtain ⟨hq', hv', hV'⟩ := doKinematics_keeps geo tree cache c' compute_JdotV h
  have hVc : c'.velocity_vector_valid = true := by rw [hV']; exact hV
  obtain ⟨e, he, hrest⟩ := doKinematics_done geo tree cache c' compute_JdotV h hord b hb
  simp only [hp] at hrest
  obtain ⟨ep, hpe, q_body, _, _, _, _, _, _, hvel⟩ := hrest
  obtain ⟨hzero, hpos⟩ := hvel hVc
  refine ⟨e, ep, by simp [KinematicsCache.getElement, he],
    by simp [KinematicsCache.getElement, hpe],
    by simp [KinematicsCache.getV, KinematicsCache.hasV, hVc, hv'], ?_, ?_⟩
  · intro hnv
    obtain ⟨v_body, joint_twist, hvb, hjt, htw, _⟩ := hpos hnv
    exact ⟨v_body, joint_twist, hv' ▸ hvb, hjt, htw⟩
  · intro hnv
    exact (hzero hnv).1

/-- Witness of C9: the child of the two-body chain, whose joint has one velocity. -/
theorem twist_propagation_witness :
    ∃ e ep,
      (RigidBodyTree.doKinematics plainGeometry chainTree chainCache false).state.getElement 1
        = .ok e ∧
      (RigidBodyTree.doKinematics plainGeometry chainTree chainCache false).state.getElement 0
        = .ok ep ∧
      (RigidBodyTree.doKinematics plainGeometry chainTree chainCache false).state.getV
        = .ok chainCache.v ∧
      ((chainTree.heap 1).getJoint.getNumVelocities ≠ 0 →
        ∃ v_body joint_twist,
          middleRows chainCache.v (chainTree.heap 1).velocity_num_start
            (chainTree.heap 1).getJoint.getNumVelocities = some v_body ∧
          e.motion_subspace_in_world.mulVec v_body = some joint_twist ∧
          e.twist_in_world = ep.twist_in_world + joint_twist) ∧
      ((chainTree.heap 1).getJoint.getNumVelocities = 0 →
        e.twist_in_world = ep.twist_in_world) :=
  twist_propagation plainGeometry chainTree chainCache _ false (chain_pass_returns false)
    chain_parentsFirst rfl 1 0 (by decide) rfl

/-- C10: after a pass with a velocity vector held and Jdot times v requested,
over a tree ordered parent before child, for every body `b` of the tree with
parent `p`: when the joint of `b` has velocities,
`motion_subspace_in_world_dot_times_v(b)` is that of `p` plus
`crossSpatialMotion(twist_in_world(b), motion_subspace_in_world(b) * v_body)`
plus `transformSpatialMotion(transform_to_world(b),
motion_subspace_in_body_dot_times_v(b))`, where the last field is the joint's
`motionSubspaceDotTimesV` of the slices of `q` and `v`; when the joint has no
velocities, `motion_subspace_in_world_dot_times_v(b)` is that of `p`. -/
theorem bias_propagation (geo : GeometryUtil S) (tree : RigidBodyTree S)
    (cache c' : KinematicsCache S)
    (h : RigidBodyTree.doKinematics geo tree cache true = .returned c')
    (hord : parentsFirst tree.heap [] tree.bodies = true)
    (hV : cache.hasV = true)
    (b p : BodyPtr) (hb : b ∈ tree.bodies) (hp : (tree.heap b).parent = some p) :
    ∃ e ep, c'.getElement b = .ok e ∧ c'.getElement p = .ok ep ∧
      ((tree.heap b).getJoint.getNumVelocities ≠ 0 →
        ∃ q_body v_body joint_twist,
          middleRows cache.getQ (tree.heap b).position_num_start
            (tree.heap b).getJoint.getNumPositions = some q_body ∧
          middleRows cache.v (tree.heap b).velocity_num_start
            (tree.heap b).getJoint.getNumVelocities = some v_body ∧
          e.motion_subspace_in_world.mulVec v_body = some joint_twist ∧
          e.motion_subspace_in_body_dot_times_v =
            (tree.heap b).getJoint.motionSubspaceDotTimesV q_body v_body ∧
          e.motion_subspace_in_world_dot_times_v =
            ep.motion_subspace_in_world_dot_times_v +
              geo.crossSpatialMotion e.twist_in_world joint_twist +
              geo.transformSpatialMotionVector e.transform_to_world
                e.motion_subspace_in_body_dot_times_v) ∧
      ((tree.heap b).getJoint.getNumVelocities = 0 →
        e.motion_subspace_in_world_dot_times_v = ep.motion_subspace_in_world_dot_times_v) := by
  obtain ⟨hq', hv', hV'⟩ := doKinematics_keeps geo tree cache c' true h
  have hVcache : cache.velocity_vector_valid = true := hV
  have hVc : c'.velocity_vector_valid = true := by rw [hV']; exact hV
  obtain ⟨e, he, hrest⟩ := doKinematics_done geo tree cache c' true h hord b hb
  simp only [hp, hVcache, Bool.and_self] at hrest
  obtain ⟨ep, hpe, q_body, hq, _, _, _, _, _, hvel⟩ := hrest
  obtain ⟨hzero, hpos⟩ := hvel hVc
  refine ⟨e, ep, by simp [KinematicsCache.getElement, he],
    by simp [KinematicsCache.getElement, hpe], ?_, ?_⟩
  · intro hnv
    obtain ⟨v_body, joint_twist, hvb, hjt, _, hj⟩ := hpos hnv
    obtain ⟨hsb, hsw⟩ := hj rfl
    rw [hq'] at hq
    rw [hv'] at hvb
    refine ⟨q_body, v_body, joint_twist, hq, hvb, hjt, hsb, ?_⟩
    rw [hsw, add_assoc]
  · intro hnv
    exact (hzero hnv).2 rfl

/-- Witness of C10: the child of the two-body chain. -/
theorem bias_propagation_witness :
    ∃ e ep,
      (RigidBodyTree.doKinematics plainGeometry chainTree chainCache true).state.getElement 1
        = .ok e ∧
      (RigidBodyTree.doKinematics plainGeometry chainTree chainCache true).state.getElement 0
        = .ok ep ∧
      ((chainTree.heap 1).getJoint.getNumVelocities ≠ 0 →
        ∃ q_body v_body joint_twist,
          middleRows chainCache.getQ (chainTree.heap 1).position_num_start
            (chainTree.heap 1).getJoint.getNumPositions = some q_body ∧
          middleRows chainCache.v (chainTree.heap 1).velocity_num_start
            (chainTree.heap 1).getJoint.getNumVelocities = some v_body ∧
          e.motion_subspace_in_world.mulVec v_body = some joint_twist ∧
          e.motion_subspace_in_body_dot_times_v =
            (chainTree.heap 1).getJoint.motionSubspaceDotTimesV q_body v_body ∧
          e.motion_subspace_in_world_dot_times_v =
            ep.motion_subspace_in_world_dot_times_v +
              plainGeometry.crossSpatialMotion e.twist_in_world joint_twist +
              plainGeometry.transformSpatialMotionVector e.transform_to_world
                e.motion_subspace_in_body_dot_times_v) ∧
      ((chainTree.heap 1).getJoint.getNumVelocities = 0 →
        e.motion_subspace_in_world_dot_times_v = ep.motion_subspace_in_world_dot_times_v) :=
  bias_propagation plainGeometry chainTree chainCache _ (chain_pass_returns true)
    chain_parentsFirst rfl 1 0 (by decide) rfl

end PassTheorems

/-! ## Theorems: what a pass leaves alone, also when it fails -/

section FrameLemmas

variable {S : Type} [CommRing S]

omit [CommRing S] in
theorem getElement_ok (c : KinematicsCache S) (b : BodyPtr) (e : KinematicsCacheElement S)
    (h : c.getElement b = .ok e) : c.elements b = some e := by
  unfold KinematicsCache.getElement at h
  cases hb : c.elements b with
  | none => simp [hb] at h
  | some e0 =>
    simp only [hb, Except.ok.injEq] at h
    rw [h]

omit [CommRing S] in
theorem onlyElementsChanged_refl (c : KinematicsCache S) : OnlyElementsChanged c c :=
  ⟨rfl, rfl, rfl, rfl, rfl, rfl, fun _ => rfl⟩

omit [CommRing S] in
theorem onlyElementsChanged_trans {c1 c2 c3 : KinematicsCache S}
    (h12 : OnlyElementsChanged c1 c2) (h23 : OnlyElementsChanged c2 c3) :
    OnlyElementsChanged c1 c3 := by
  obtain ⟨a1, a2, a3, a4, a5, a6, a7⟩ := h12
  obtain ⟨b1, b2, b3, b4, b5, b6, b7⟩ := h23
  exact ⟨b1.trans a1, b2.trans a2, b3.trans a3, b4.trans a4, b5.trans a5, b6.trans a6,
    fun key => (b7 key).trans (a7 key)⟩

omit [CommRing S] in
theorem onlyElementsChanged_store (c : KinematicsCache S) (b : BodyPtr)
    (e0 e : KinematicsCacheElement S) (h : c.elements b = some e0) :
    OnlyElementsChanged c (c.storeElement b e) := by
  refine ⟨rfl, rfl, rfl, rfl, rfl, rfl, ?_⟩
  intro key
  by_cases hk : key = b
  · subst hk
    simp [KinematicsCache.storeElement, h]
  · simp [KinematicsCache.storeElement, hk]

/-- One visit, returning or not, leaves the cache as it was or replaces the
element of the visited body, which was present. -/
theorem doKinematicsBody_state (geo : GeometryUtil S) (tree : RigidBodyTree S)
    (J : Bool) (c : KinematicsCache S) (b : BodyPtr) :
    (RigidBodyTree.doKinematicsBody geo tree J c b).state = c ∨
    ∃ e0 e, c.elements b = some e0 ∧
      (RigidBodyTree.doKinematicsBody geo tree J c b).state = c.storeElement b e := by
  unfold RigidBodyTree.doKinematicsBody
  cases hb : c.getElement b with
  | error err => exact Or.inl rfl
  | ok e0 =>
    have he0 := getElement_ok c b e0 hb
    simp only
    repeat' split
    all_goals first
      | exact Or.inl rfl
      | exact Or.inr ⟨e0, _, he0, rfl⟩

theorem doKinematicsBody_onlyElements (geo : GeometryUtil S) (tree : RigidBodyTree S)
    (J : Bool) (c : KinematicsCache S) (b : BodyPtr) :
    OnlyElementsChanged c (RigidBodyTree.doKinematicsBody geo tree J c b).state := by
  rcases doKinematicsBody_state geo tree J c b with h | ⟨e0, e, he0, h⟩
  · rw [h]
    exact onlyElementsChanged_refl c
  · rw [h]
    exact onlyElementsChanged_store c b e0 e he0

theorem doKinematicsLoop_onlyElements (geo : GeometryUtil S) (tree : RigidBodyTree S)
    (J : Bool) :
    ∀ (l : List BodyPtr) (c : KinematicsCache S),
      OnlyElementsChanged c (RigidBodyTree.doKinematicsLoop geo tree J l c).state := by
  intro l
  induction l with
  | nil =>
    intro c
    exact onlyElementsChanged_refl c
  | cons b rest ih =>
    intro c
    have hstep := doKinematicsBody_onlyElements geo tree J c b
    simp only [RigidBodyTree.doKinematicsLoop]
    cases hbody : RigidBodyTree.doKinematicsBody geo tree J c b with
    | failed e c1 =>
      rw [hbody] at hstep
      exact hstep
    | returned c1 =>
      rw [hbody] at hstep
      exact onlyElementsChanged_trans hstep (ih c1)

/-- The state after a pass, returning or not: vectors, `velocity_vector_valid`,
`inertias_cached` and the set of keys are as before; `position_kinematics_cached`
is set once the tree is found compiled; `jdotV_cached` is written only by a
pass that returns. -/
theorem doKinematics_state (geo : GeometryUtil S) (tree : RigidBodyTree S)
    (cache : KinematicsCache S) (compute_JdotV : Bool) :
    (RigidBodyTree.doKinematics geo tree cache compute_JdotV).state.q = cache.q ∧
    (RigidBodyTree.doKinematics geo tree cache compute_JdotV).state.v = cache.v ∧
    (RigidBodyTree.doKinematics geo tree cache compute_JdotV).state.velocity_vector_valid =
      cache.velocity_vector_valid ∧
    (RigidBodyTree.doKinematics geo tree cache compute_JdotV).state.inertias_cached =
      cache.inertias_cached ∧
    (∀ key, ((RigidBodyTree.doKinematics geo tree cache compute_JdotV).state.elements key).isSome =
      (cache.elements key).isSome) ∧
    (RigidBodyTree.doKinematics geo tree cache compute_JdotV).state.position_kinematics_cached =
      (cache.position_kinematics_cached || tree.initialized) ∧
    (RigidBodyTree.doKinematics geo tree cache compute_JdotV).state.jdotV_cached =
      (if (RigidBodyTree.doKinematics geo tree cache compute_JdotV).succeeds = true then
        compute_JdotV && cache.velocity_vector_valid else cache.jdotV_cached) ∧
    ((RigidBodyTree.doKinematics geo tree cache compute_JdotV).succeeds = true →
      tree.initialized = true) := by
  unfold RigidBodyTree.doKinematics
  cases hinit : tree.initialized with
  | false => simp [Outcome.state, Outcome.succeeds]
  | true =>
    simp only [Bool.not_true, Bool.false_eq_true, if_false, KinematicsCache.hasV]
    have hloop := doKinematicsLoop_onlyElements geo tree
      (compute_JdotV && cache.velocity_vector_valid) tree.bodies
      cache.setPositionKinematicsCached
    cases hres : RigidBodyTree.doKinematicsLoop geo tree
        (compute_JdotV && cache.velocity_vector_valid) tree.bodies
        cache.setPositionKinematicsCached with
    | failed e c1 =>
      rw [hres] at hloop
      obtain ⟨a1, a2, a3, a4, a5, a6, a7⟩ := hloop
      simp only [Outcome.state] at a1 a2 a3 a4 a5 a6 a7
      simp only [KinematicsCache.setPositionKinematicsCached] at a1 a2 a3 a4 a5 a6 a7
      simp [Outcome.state, Outcome.succeeds, a1, a2, a3, a4, a5, a6, a7]
    | returned c1 =>
      rw [hres] at hloop
      obtain ⟨a1, a2, a3, a4, a5, a6, a7⟩ := hloop
      simp only [Outcome.state] at a1 a2 a3 a4 a5 a6 a7
      simp only [KinematicsCache.setPositionKinematicsCached] at a1 a2 a3 a4 a5 a6 a7
      simp [Outcome.state, Outcome.succeeds, KinematicsCache.setJdotVCached, a1, a2, a3, a4,
        a6, a7]

end FrameLemmas

/-! ## Theorems: sequences of calls -/

section CallLemmas

variable {S : Type} [CommRing S]

omit [CommRing S] in
theorem initialize_q_state (c : KinematicsCache S) (q : VectorX S) :
    ( KinematicsCache.initialize_q c q).state =
      if c.q.length = q.length then
        { c with q := q, position_kinematics_cached := false, jdotV_cached := false,
                 inertias_cached := false, velocity_vector_valid := false }
      else c := by
  unfold KinematicsCache.initialize_q
  split <;> simp [Outcome.state, KinematicsCache.invalidate]

omit [CommRing S] in
theorem initialize_q_succeeds (c : KinematicsCache S) (q : VectorX S) :
    ( KinematicsCache.initialize_q c q).succeeds = decide (c.q.length = q.length) := by
  unfold KinematicsCache.initialize_q
  split <;> simp [Outcome.succeeds, *]

omit [CommRing S] in
theorem initialize_q_v_state (c : KinematicsCache S) (q v : VectorX S) :
    ( KinematicsCache.initialize_q_v c q v).state =
      if c.q.length = q.length then
        if c.v.length = v.length then
          { c with q := q, v := v, position_kinematics_cached := false, jdotV_cached := false,
                   inertias_cached := false, velocity_vector_valid := true }
        else
          { c with q := q, position_kinematics_cached := false, jdotV_cached := false,
                   inertias_cached := false, velocity_vector_valid := false }
      else c := by
  unfold KinematicsCache.initialize_q_v KinematicsCache.initialize_q
  by_cases hq : c.q.length = q.length
  · by_cases hv : c.v.length = v.length
    · simp [hq, hv, Outcome.state, KinematicsCache.invalidate]
    · simp [hq, hv, Outcome.state, KinematicsCache.invalidate]
  · simp [hq, Outcome.state]

omit [CommRing S] in
theorem initialize_q_v_succeeds (c : KinematicsCache S) (q v : VectorX S) :
    ( KinematicsCache.initialize_q_v c q v).succeeds =
      (decide (c.q.length = q.length) && decide (c.v.length = v.length)) := by
  unfold KinematicsCache.initialize_q_v KinematicsCache.initialize_q
  by_cases hq : c.q.length = q.length
  · by_cases hv : c.v.length = v.length
    · simp [hq, hv, Outcome.succeeds, KinematicsCache.invalidate]
    · simp [hq, hv, Outcome.succeeds, KinematicsCache.invalidate]
  · simp [hq, Outcome.succeeds]

/-- Induction over a sequence of calls: a property of cache and history that
every call of the sequence keeps holds at its end. -/
theorem runCalls_induction (P : KinematicsCache S → History → Prop) :
    ∀ (calls : List (CacheCall S)) (c : KinematicsCache S) (h : History),
      (∀ c h call, call ∈ calls → P c h → P (call.outcome c).state (h.record c call)) →
      P c h → P (runCalls c calls) (history c h calls) := by
  intro calls
  induction calls with
  | nil =>
    intro c h _ hP
    exact hP
  | cons call rest ih =>
    intro c h hstep hP
    simp only [runCalls, history]
    apply ih
    · intro c1 h1 call1 hmem hP1
      exact hstep c1 h1 call1 (List.mem_cons_of_mem _ hmem) hP1
    · exact hstep c h call (List.mem_cons_self _ _) hP

/-- No call changes the set of keys of the element map or the lengths of the
stored vectors, whether it returns or fails. -/
theorem CacheCall.outcome_keeps (c : KinematicsCache S) (call : CacheCall S) :
    (∀ key, ((call.outcome c).state.elements key).isSome = (c.elements key).isSome) ∧
    (call.outcome c).state.q.length = c.q.length ∧
    (call.outcome c).state.v.length = c.v.length := by
  cases call with
  | initialize_q q =>
    simp only [CacheCall.outcome, initialize_q_state]
    split
    · rename_i hq
      simp [hq]
    · simp
  | initialize_q_v q v =>
    simp only [CacheCall.outcome, initialize_q_v_state]
    split
    · rename_i hq
      split
      · rename_i hv
        simp [hq, hv]
      · simp [hq]
    · simp
  | setPositionKinematicsCached =>
    simp [CacheCall.outcome, Outcome.state, KinematicsCache.setPositionKinematicsCached]
  | setJdotVCached flag =>
    simp [CacheCall.outcome, Outcome.state, KinematicsCache.setJdotVCached]
  | setInertiasCached =>
    simp [CacheCall.outcome, Outcome.state, KinematicsCache.setInertiasCached]
  | doKinematics geo tree flag =>
    obtain ⟨h1, h2, _, _, h5, _⟩ := doKinematics_state geo tree c flag
    simp only [CacheCall.outcome]
    exact ⟨h5, by rw [h1], by rw [h2]⟩

theorem construct_keys (fresh : Nat → Nat → KinematicsCacheElement S)
    (heap : BodyPtr → RigidBody S) (bodies : List BodyPtr) (key : BodyPtr) :
    ((KinematicsCache.construct fresh heap bodies).elements key).isSome =
      decide (key ∈ bodies) := by
  have hfold : ∀ (l : List BodyPtr) (m : BodyPtr → Option (KinematicsCacheElement S)),
      ((l.foldl (fun elements body_ptr =>
          KinematicsCache.insertElement elements body_ptr
            (fresh (if (heap body_ptr).hasParent then (heap body_ptr).getJoint.getNumPositions
              else 0)
              (if (heap body_ptr).hasParent then (heap body_ptr).getJoint.getNumVelocities
              else 0))) m) key).isSome = ((m key).isSome || decide (key ∈ l)) := by
    intro l
    induction l with
    | nil => intro m; simp
    | cons b rest ih =>
      intro m
      rw [List.foldl_cons, ih]
      by_cases hk : key = b
      · subst hk
        cases hm : m key <;> simp [KinematicsCache.insertElement, hm]
      · simp [KinematicsCache.insertElement, hk]
  simp only [KinematicsCache.construct, KinematicsCache.invalidate]
  rw [hfold]
  simp

omit [CommRing S] in
theorem getNumPositions_eq_sum (heap : BodyPtr → RigidBody S) (bodies : List BodyPtr) :
    KinematicsCache.getNumPositions heap bodies =
      (bodies.map (fun b =>
        if (heap b).hasParent then (heap b).getJoint.getNumPositions else 0)).sum := by
  have hfold : ∀ (l : List BodyPtr) (a : Nat),
      l.foldl (fun result body_ptr =>
        if (heap body_ptr).hasParent then result + (heap body_ptr).getJoint.getNumPositions
        else result) a =
      a + (l.map (fun b =>
        if (heap b).hasParent then (heap b).getJoint.getNumPositions else 0)).sum := by
    intro l
    induction l with
    | nil => intro a; simp
    | cons b rest ih =>
      intro a
      rw [List.foldl_cons, ih]
      by_cases hb : (heap b).hasParent = true
      · simp [hb, Nat.add_assoc]
      · simp [hb]
  simp [KinematicsCache.getNumPositions, hfold]

omit [CommRing S] in
theorem getNumVelocities_eq_sum (heap : BodyPtr → RigidBody S) (bodies : List BodyPtr) :
    KinematicsCache.getNumVelocities heap bodies =
      (bodies.map (fun b =>
        if (heap b).hasParent then (heap b).getJoint.getNumVelocities else 0)).sum := by
  have hfold : ∀ (l : List BodyPtr) (a : Nat),
      l.foldl (fun result body_ptr =>
        if (heap body_ptr).hasParent then result + (heap body_ptr).getJoint.getNumVelocities
        else result) a =
      a + (l.map (fun b =>
        if (heap b).hasParent then (heap b).getJoint.getNumVelocities else 0)).sum := by
    intro l
    induction l with
    | nil => intro a; simp
    | cons b rest ih =>
      intro a
      rw [List.foldl_cons, ih]
      by_cases hb : (heap b).hasParent = true
      · simp [hb, Nat.add_assoc]
      · simp [hb]
  simp [KinematicsCache.getNumVelocities, hfold]

/-- Every call other than a flag setter keeps the two pass flags in agreement
with the history. -/
theorem passFlagsAgree_step (c : KinematicsCache S) (h : History) (call : CacheCall S)
    (hcall : call.isSetter = false) (hP : PassFlagsAgree c h) :
    PassFlagsAgree (call.outcome c).state (h.record c call) := by
  unfold PassFlagsAgree at hP ⊢
  obtain ⟨p1, p2, p3, p4⟩ := hP
  cases call with
  | initialize_q q =>
    simp only [CacheCall.outcome, History.record, initialize_q_state, initialize_q_succeeds]
    by_cases hq : c.q.length = q.length
    · simp [hq]
    · simp only [hq, if_false, decide_False, Bool.false_eq_true, Bool.and_false]
      exact ⟨p1, p2, p3, fun hf => absurd hf (by simp)⟩
  | initialize_q_v q v =>
    simp only [CacheCall.outcome, History.record, initialize_q_v_state, initialize_q_succeeds,
      initialize_q_v_succeeds]
    by_cases hq : c.q.length = q.length
    · by_cases hv : c.v.length = v.length
      · simp [hq, hv]
      · simp [hq, hv]
    · simp only [hq, if_false, decide_False, Bool.false_eq_true, Bool.and_false,
        Bool.false_and]
      exact ⟨p1, p2, p3, fun hf => absurd hf (by simp)⟩
  | setPositionKinematicsCached => simp [CacheCall.isSetter] at hcall
  | setJdotVCached flag => simp [CacheCall.isSetter] at hcall
  | setInertiasCached => simp [CacheCall.isSetter] at hcall
  | doKinematics geo tree flag =>
    obtain ⟨_, _, h3, _, _, h6, h7, h8⟩ := doKinematics_state geo tree c flag
    simp only [CacheCall.outcome, History.record, h3, h6, h7]
    cases hs : (RigidBodyTree.doKinematics geo tree c flag).succeeds with
    | true =>
      have hinit := h8 hs
      simp only [hinit, Bool.or_true, if_true, Bool.and_true, Bool.and_eq_true, true_iff,
        forall_const, Option.some.injEq, Prod.mk.injEq, implies_true, true_and]
      refine ⟨fun hj => ⟨hj.2, hj.1, hj.2⟩, fun _ hj => ⟨hj.1, hj.2⟩⟩
    | false =>
      simp only [Bool.or_false, Bool.false_eq_true, if_false, Bool.and_false, Bool.or_eq_true]
      refine ⟨?_, ?_, ?_, fun hf => absurd hf (by simp)⟩
      · constructor
        · intro hpk
          rcases hpk with hpk | hpk
          · exact Or.inl (p1.mp hpk)
          · exact Or.inr hpk
        · intro hpk
          rcases hpk with hpk | hpk
          · exact Or.inl (p1.mpr hpk)
          · exact Or.inr hpk
      · intro hc
        exact Or.inl (p2 hc)
      · intro hj
        obtain ⟨a, b, d⟩ := p3 hj
        exact ⟨a, Or.inl b, d⟩

omit [CommRing S] in
theorem velocityFieldsKept_refl (c : KinematicsCache S) : VelocityFieldsKept c c :=
  fun _ e he => ⟨e, he, rfl, rfl, rfl⟩

omit [CommRing S] in
theorem velocityFieldsKept_trans {c1 c2 c3 : KinematicsCache S}
    (h12 : VelocityFieldsKept c1 c2) (h23 : VelocityFieldsKept c2 c3) :
    VelocityFieldsKept c1 c3 := by
  intro key e he
  obtain ⟨e2, he2, a1, a2, a3⟩ := h12 key e he
  obtain ⟨e3, he3, b1, b2, b3⟩ := h23 key e2 he2
  exact ⟨e3, he3, b1.trans a1, b2.trans a2, b3.trans a3⟩

omit [CommRing S] in
theorem velocityFieldsKept_store (c : KinematicsCache S) (b : BodyPtr)
    (e0 e' : KinematicsCacheElement S) (h : c.elements b = some e0)
    (h1 : e'.twist_in_world = e0.twist_in_world)
    (h2 : e'.motion_subspace_in_body_dot_times_v = e0.motion_subspace_in_body_dot_times_v)
    (h3 : e'.motion_subspace_in_world_dot_times_v = e0.motion_subspace_in_world_dot_times_v) :
    VelocityFieldsKept c (c.storeElement b e') := by
  intro key e he
  by_cases hk : key = b
  · subst hk
    rw [h] at he
    cases he
    exact ⟨e', by simp [KinematicsCache.storeElement], h1, h2, h3⟩
  · exact ⟨e, by simp [KinematicsCache.storeElement, hk, he], rfl, rfl, rfl⟩

/-- Without a velocity vector a visit, returning or not, leaves the three
velocity-dependent fields of every element as they were. -/
theorem doKinematicsBody_velocityFieldsKept (geo : GeometryUtil S) (tree : RigidBodyTree S)
    (J : Bool) (c : KinematicsCache S) (b : BodyPtr) (hV : c.velocity_vector_valid = false) :
    VelocityFieldsKept c (RigidBodyTree.doKinematicsBody geo tree J c b).state := by
  unfold RigidBodyTree.doKinematicsBody
  cases hb : c.getElement b with
  | error err => exact velocityFieldsKept_refl c
  | ok e0 =>
    have he0 := getElement_ok c b e0 hb
    simp only [KinematicsCache.hasV, hV, Bool.false_eq_true, if_false]
    repeat' split
    all_goals first
      | exact velocityFieldsKept_refl c
      | exact velocityFieldsKept_store c b e0 _ he0 rfl rfl rfl

theorem doKinematicsLoop_velocityFieldsKept (geo : GeometryUtil S) (tree : RigidBodyTree S)
    (J : Bool) :
    ∀ (l : List BodyPtr) (c : KinematicsCache S), c.velocity_vector_valid = false →
      VelocityFieldsKept c (RigidBodyTree.doKinematicsLoop geo tree J l c).state := by
  intro l
  induction l with
  | nil =>
    intro c _
    exact velocityFieldsKept_refl c
  | cons b rest ih =>
    intro c hV
    have hstep := doKinematicsBody_velocityFieldsKept geo tree J c b hV
    have hframe := doKinematicsBody_onlyElements geo tree J c b
    simp only [RigidBodyTree.doKinematicsLoop]
    cases hbody : RigidBodyTree.doKinematicsBody geo tree J c b with
    | failed e c1 =>
      rw [hbody] at hstep
      exact hstep
    | returned c1 =>
      rw [hbody] at hstep hframe
      have hV1 : c1.velocity_vector_valid = false := by
        rw [← hV]
        exact hframe.2.2.1
      exact velocityFieldsKept_trans hstep (ih c1 hV1)

/-- Without a velocity vector a pass, returning or not, leaves the three
velocity-dependent fields of every element as they were. -/
theorem doKinematics_velocityFieldsKept (geo : GeometryUtil S) (tree : RigidBodyTree S)
    (cache : KinematicsCache S) (compute_JdotV : Bool)
    (hV : cache.velocity_vector_valid = false) :
    VelocityFieldsKept cache (RigidBodyTree.doKinematics geo tree cache compute_JdotV).state := by
  unfold RigidBodyTree.doKinematics
  cases hinit : tree.initialized with
  | false => exact velocityFieldsKept_refl cache
  | true =>
    simp only [Bool.not_true, Bool.false_eq_true, if_false, KinematicsCache.hasV]
    have hloop := doKinematicsLoop_velocityFieldsKept geo tree
      (compute_JdotV && cache.velocity_vector_valid) tree.bodies
      cache.setPositionKinematicsCached hV
    cases hres : RigidBodyTree.doKinematicsLoop geo tree
        (compute_JdotV && cache.velocity_vector_valid) tree.bodies
        cache.setPositionKinematicsCached with
    | failed e c1 =>
      rw [hres] at hloop
      exact hloop
    | returned c1 =>
      rw [hres] at hloop
      exact hloop

/-- Without a velocity vector the request for Jdot times v changes nothing. -/
theorem doKinematics_request_ignored (geo : GeometryUtil S) (tree : RigidBodyTree S)
    (cache : KinematicsCache S) (hV : cache.velocity_vector_valid = false) :
    RigidBodyTree.doKinematics geo tree cache true =
      RigidBodyTree.doKinematics geo tree cache false := by
  unfold RigidBodyTree.doKinematics
  simp [KinematicsCache.hasV, hV]

/-- Without a velocity vector a visit returns when the body and its parent
have an element and the body's slice of `q` lies inside `q`. -/
theorem doKinematicsBody_returns (geo : GeometryUtil S) (tree : RigidBodyTree S)
    (J : Bool) (c : KinematicsCache S) (b : BodyPtr) (hV : c.velocity_vector_valid = false)
    (hb : (c.elements b).isSome = true)
    (hp : ∀ p, (tree.heap b).parent = some p → (c.elements p).isSome = true)
    (hq : (tree.heap b).hasParent = true →
      (tree.heap b).position_num_start + (tree.heap b).getJoint.getNumPositions ≤ c.q.length) :
    (RigidBodyTree.doKinematicsBody geo tree J c b).succeeds = true := by
  unfold RigidBodyTree.doKinematicsBody
  cases he : c.elements b with
  | none => simp [he] at hb
  | some e0 =>
    simp only [KinematicsCache.getElement, he, KinematicsCache.hasV, hV, Bool.false_eq_true,
      if_false]
    cases hpar : (tree.heap b).parent with
    | none => rfl
    | some p =>
      have hpe := hp p hpar
      cases hpel : c.elements p with
      | none => simp [hpel] at hpe
      | some ep =>
        have hslice := hq (by simp [RigidBody.hasParent, hpar])
        simp only [KinematicsCache.getQ, middleRows, RigidBody.getJoint] at hslice ⊢
        simp only [hslice, if_true, hpel]
        rfl

theorem doKinematicsLoop_returns (geo : GeometryUtil S) (tree : RigidBodyTree S) (J : Bool) :
    ∀ (l : List BodyPtr) (c : KinematicsCache S), c.velocity_vector_valid = false →
      (∀ b ∈ l, (c.elements b).isSome = true ∧
        (∀ p, (tree.heap b).parent = some p → (c.elements p).isSome = true) ∧
        ((tree.heap b).hasParent = true →
          (tree.heap b).position_num_start + (tree.heap b).getJoint.getNumPositions
            ≤ c.q.length)) →
      (RigidBodyTree.doKinematicsLoop geo tree J l c).succeeds = true := by
  intro l
  induction l with
  | nil =>
    intro c _ _
    rfl
  | cons b rest ih =>
    intro c hV hl
    obtain ⟨h1, h2, h3⟩ := hl b (List.mem_cons_self _ _)
    have hstep := doKinematicsBody_returns geo tree J c b hV h1 h2 h3
    have hframe := doKinematicsBody_onlyElements geo tree J c b
    simp only [RigidBodyTree.doKinematicsLoop]
    cases hbody : RigidBodyTree.doKinematicsBody geo tree J c b with
    | failed e c1 => simp [hbody, Outcome.succeeds] at hstep
    | returned c1 =>
      rw [hbody] at hframe
      obtain ⟨f1, _, f3, _, _, _, f7⟩ := hframe
      simp only [Outcome.state] at f1 f3 f7
      apply ih c1 (by rw [f3]; exact hV)
      intro x hx
      obtain ⟨g1, g2, g3⟩ := hl x (List.mem_cons_of_mem _ hx)
      refine ⟨by rw [f7]; exact g1, fun p hp => by rw [f7]; exact g2 p hp, ?_⟩
      intro hpar
      rw [f1]
      exact g3 hpar

/-- A pass or a flag setter, returning or not, keeps `velocity_vector_valid` and
the stored vectors. -/
theorem CacheCall.outcome_nonBinding (c : KinematicsCache S) (call : CacheCall S)
    (hcall : call.isBinding = false) :
    (call.outcome c).state.velocity_vector_valid = c.velocity_vector_valid ∧
    (call.outcome c).state.q = c.q ∧ (call.outcome c).state.v = c.v := by
  cases call with
  | initialize_q q => simp [CacheCall.isBinding] at hcall
  | initialize_q_v q v => simp [CacheCall.isBinding] at hcall
  | setPositionKinematicsCached =>
    simp [CacheCall.outcome, Outcome.state, KinematicsCache.setPositionKinematicsCached]
  | setJdotVCached flag =>
    simp [CacheCall.outcome, Outcome.state, KinematicsCache.setJdotVCached]
  | setInertiasCached =>
    simp [CacheCall.outcome, Outcome.state, KinematicsCache.setInertiasCached]
  | doKinematics geo tree flag =>
    obtain ⟨h1, h2, h3, _⟩ := doKinematics_state geo tree c flag
    exact ⟨h3, h1, h2⟩

theorem runCalls_nonBinding :
    ∀ (calls : List (CacheCall S)) (c : KinematicsCache S),
      (∀ call ∈ calls, call.isBinding = false) →
      (runCalls c calls).velocity_vector_valid = c.velocity_vector_valid ∧
      (runCalls c calls).q = c.q ∧ (runCalls c calls).v = c.v := by
  intro calls
  induction calls with
  | nil =>
    intro c _
    exact ⟨rfl, rfl, rfl⟩
  | cons call rest ih =>
    intro c hcalls
    obtain ⟨a1, a2, a3⟩ := CacheCall.outcome_nonBinding c call
      (hcalls call (List.mem_cons_self _ _))
    obtain ⟨b1, b2, b3⟩ := ih (call.outcome c).state
      (fun x hx => hcalls x (List.mem_cons_of_mem _ hx))
    simp only [runCalls]
    exact ⟨b1.trans a1, b2.trans a2, b3.trans a3⟩

end CallLemmas

/-! ## Theorems: invariants of the cache over sequences of calls -/

section CallTheorems

variable {S : Type} [CommRing S]

/-- C11: after every sequence of `initialize(q)`, `initialize(q, v)`, flag
setter and `doKinematics` calls on a cache constructed from a body list,
returning or failing, `getElement(body)` succeeds when `body` is one of the
bodies given at construction and fails with the lookup error otherwise. -/
theorem getElement_iff_constructed (fresh : Nat → Nat → KinematicsCacheElement S)
    (heap : BodyPtr → RigidBody S) (bodies : List BodyPtr) (calls : List (CacheCall S))
    (body : BodyPtr) :
    (body ∈ bodies →
      ∃ e, (runCalls (KinematicsCache.construct fresh heap bodies) calls).getElement body
        = .ok e) ∧
    (body ∉ bodies →
      (runCalls (KinematicsCache.construct fresh heap bodies) calls).getElement body
        = .error .out_of_range) := by
  have hkeys : ((runCalls (KinematicsCache.construct fresh heap bodies) calls).elements
      body).isSome = decide (body ∈ bodies) := by
    have := runCalls_induction
      (fun c _ => (c.elements body).isSome = decide (body ∈ bodies)) calls
      (KinematicsCache.construct fresh heap bodies) History.start
      (fun c h call _ hP => by
        show ((call.outcome c).state.elements body).isSome = decide (body ∈ bodies)
        rw [(CacheCall.outcome_keeps c call).1 body]
        exact hP)
      (construct_keys fresh heap bodies body)
    exact this
  constructor
  · intro hmem
    cases hel : (runCalls (KinematicsCache.construct fresh heap bodies) calls).elements body with
    | none => simp [hel, hmem] at hkeys
    | some e => exact ⟨e, by simp [KinematicsCache.getElement, hel]⟩
  · intro hmem
    cases hel : (runCalls (KinematicsCache.construct fresh heap bodies) calls).elements body with
    | none => simp [KinematicsCache.getElement, hel]
    | some e => simp [hel, hmem] at hkeys

/-- C12: `getV()` returns the stored velocity vector exactly when
`velocity_vector_valid` is true, and fails with the invalid-state error when it
is false, as it is after construction and after an `initialize(q)` that
returned, also when passes and flag setters were called since; `getQ()` returns
the stored `q` in every state. -/
theorem getV_iff_velocity_vector_valid (c : KinematicsCache S)
    (fresh : Nat → Nat → KinematicsCacheElement S) (heap : BodyPtr → RigidBody S)
    (bodies : List BodyPtr) (q : VectorX S) :
    (c.getV = .ok c.v ↔ c.velocity_vector_valid = true) ∧
    ((∃ v, c.getV = .ok v) ↔ c.velocity_vector_valid = true) ∧
    (c.velocity_vector_valid = false →
      c.getV = .error (.runtime_error "Kinematics cache has no valid velocity vector.")) ∧
    (KinematicsCache.construct fresh heap bodies).getV =
      .error (.runtime_error "Kinematics cache has no valid velocity vector.") ∧
    (∀ c', KinematicsCache.initialize_q c q = .returned c' →
      c'.getV = .error (.runtime_error "Kinematics cache has no valid velocity vector.")) ∧
    (∀ (c' : KinematicsCache S) (calls : List (CacheCall S)),
      KinematicsCache.initialize_q c q = .returned c' →
      (∀ call ∈ calls, call.isBinding = false) →
      (runCalls c' calls).getV =
        .error (.runtime_error "Kinematics cache has no valid velocity vector.")) ∧
    c.getQ = c.q := by
  have hq : ∀ c', KinematicsCache.initialize_q c q = .returned c' →
      c'.velocity_vector_valid = false := by
    intro c' h
    unfold KinematicsCache.initialize_q at h
    split at h
    · cases h
      rfl
    · cases h
  refine ⟨?_, ?_, ?_, ?_, ?_, ?_, rfl⟩
  rotate_right 1
  · intro c' calls h hcalls
    have hkeep := (runCalls_nonBinding calls c' hcalls).1
    simp [KinematicsCache.getV, KinematicsCache.hasV, hkeep, hq c' h]
  · cases hV : c.velocity_vector_valid <;> simp [KinematicsCache.getV, KinematicsCache.hasV, hV]
  · cases hV : c.velocity_vector_valid <;> simp [KinematicsCache.getV, KinematicsCache.hasV, hV]
  · intro hV
    simp [KinematicsCache.getV, KinematicsCache.hasV, hV]
  · simp [KinematicsCache.getV, KinematicsCache.hasV, KinematicsCache.construct,
      KinematicsCache.invalidate]
  · intro c' h
    unfold KinematicsCache.initialize_q at h
    split at h
    · cases h
      simp [KinematicsCache.getV, KinematicsCache.hasV, KinematicsCache.invalidate]
    · cases h

/-- C18: the constructed cache holds a zero `q` whose length is the sum of the
joint position dimensions and a zero `v` whose length is the sum of the joint
velocity dimensions, over the bodies with a parent; a call of either binding
overload that returns keeps both lengths; and after every sequence of calls
the two lengths are those sums. -/
theorem vector_sizes (fresh : Nat → Nat → KinematicsCacheElement S)
    (heap : BodyPtr → RigidBody S) (bodies : List BodyPtr) (calls : List (CacheCall S))
    (c : KinematicsCache S) (q v : VectorX S) :
    (KinematicsCache.construct fresh heap bodies).q =
      List.replicate ((bodies.map (fun b =>
        if (heap b).hasParent then (heap b).getJoint.getNumPositions else 0)).sum) 0 ∧
    (KinematicsCache.construct fresh heap bodies).v =
      List.replicate ((bodies.map (fun b =>
        if (heap b).hasParent then (heap b).getJoint.getNumVelocities else 0)).sum) 0 ∧
    (∀ c', KinematicsCache.initialize_q c q = .returned c' →
      c'.q.length = c.q.length ∧ c'.v.length = c.v.length) ∧
    (∀ c', KinematicsCache.initialize_q_v c q v = .returned c' →
      c'.q.length = c.q.length ∧ c'.v.length = c.v.length) ∧
    (runCalls (KinematicsCache.construct fresh heap bodies) calls).q.length =
      (bodies.map (fun b =>
        if (heap b).hasParent then (heap b).getJoint.getNumPositions else 0)).sum ∧
    (runCalls (KinematicsCache.construct fresh heap bodies) calls).v.length =
      (bodies.map (fun b =>
        if (heap b).hasParent then (heap b).getJoint.getNumVelocities else 0)).sum := by
  have hq0 : (KinematicsCache.construct fresh heap bodies).q =
      List.replicate ((bodies.map (fun b =>
        if (heap b).hasParent then (heap b).getJoint.getNumPositions else 0)).sum) 0 := by
    simp [KinematicsCache.construct, KinematicsCache.invalidate, getNumPositions_eq_sum]
  have hv0 : (KinematicsCache.construct fresh heap bodies).v =
      List.replicate ((bodies.map (fun b =>
        if (heap b).hasParent then (heap b).getJoint.getNumVelocities else 0)).sum) 0 := by
    simp [KinematicsCache.construct, KinematicsCache.invalidate, getNumVelocities_eq_sum]
  have hrun := runCalls_induction
    (fun c' _ => c'.q.length = (KinematicsCache.construct fresh heap bodies).q.length ∧
      c'.v.length = (KinematicsCache.construct fresh heap bodies).v.length) calls
    (KinematicsCache.construct fresh heap bodies) History.start
    (fun c1 h call _ hP => by
      obtain ⟨_, h2, h3⟩ := CacheCall.outcome_keeps c1 call
      exact ⟨h2.trans hP.1, h3.trans hP.2⟩)
    ⟨rfl, rfl⟩
  refine ⟨hq0, hv0, ?_, ?_, ?_, ?_⟩
  · intro c' h
    have := CacheCall.outcome_keeps c (CacheCall.initialize_q q)
    simp only [CacheCall.outcome, h, Outcome.state] at this
    exact ⟨this.2.1, this.2.2⟩
  · intro c' h
    have := CacheCall.outcome_keeps c (CacheCall.initialize_q_v q v)
    simp only [CacheCall.outcome, h, Outcome.state] at this
    exact ⟨this.2.1, this.2.2⟩
  · rw [hrun.1, hq0, List.length_replicate]
  · rw [hrun.2, hv0, List.length_replicate]

/-- C15 as stated fails: on a cache built before a body was added to the tree,
`initialize(q)` returns and the pass then fails with the lookup error at the
added body; `position_kinematics_cached` is true although no pass has run to
completion. -/
theorem position_kinematics_cached_after_failed_pass :
    (∀ call ∈ [CacheCall.initialize_q [],
        CacheCall.doKinematics plainGeometry chainTree false], call.isSetter = false) ∧
    ( KinematicsCache.initialize_q staleCache []).succeeds = true ∧
    (∃ c', RigidBodyTree.doKinematics plainGeometry chainTree
      ( KinematicsCache.initialize_q staleCache []).state false = .failed .out_of_range c') ∧
    (runCalls staleCache [CacheCall.initialize_q [],
      CacheCall.doKinematics plainGeometry chainTree false]).position_kinematics_cached = true ∧
    (history staleCache History.start [CacheCall.initialize_q [],
      CacheCall.doKinematics plainGeometry chainTree false]).passCompleted = false := by
  refine ⟨?_, by decide, ⟨_, rfl⟩, by decide, by decide⟩
  intro call hcall
  simp only [List.mem_cons, List.mem_singleton, List.not_mem_nil, or_false] at hcall
  rcases hcall with h | h <;> subst h <;> rfl

/-- C15, amended: in every state reached from construction by `initialize(q)`,
`initialize(q, v)` and `doKinematics` calls, returning or failing,
`position_kinematics_cached` is true exactly when, since the last binding call
whose `q` had the right length, `doKinematics` was called on a compiled tree,
whether that pass then returned or failed inside its loop; so it is true
whenever a pass has run to completion since then. -/
theorem position_kinematics_cached_iff_pass_begun
    (fresh : Nat → Nat → KinematicsCacheElement S) (heap : BodyPtr → RigidBody S)
    (bodies : List BodyPtr) (calls : List (CacheCall S))
    (hcalls : ∀ call ∈ calls, call.isSetter = false) :
    ((runCalls (KinematicsCache.construct fresh heap bodies)
        calls).position_kinematics_cached = true ↔
      (history (KinematicsCache.construct fresh heap bodies) History.start
        calls).passBegun = true) ∧
    ((history (KinematicsCache.construct fresh heap bodies) History.start
        calls).passCompleted = true →
      (runCalls (KinematicsCache.construct fresh heap bodies)
        calls).position_kinematics_cached = true) := by
  have hrun := runCalls_induction PassFlagsAgree calls
    (KinematicsCache.construct fresh heap bodies) History.start
    (fun c h call hmem hP => passFlagsAgree_step c h call (hcalls call hmem) hP)
    (by simp [PassFlagsAgree, KinematicsCache.construct, KinematicsCache.invalidate,
      History.start])
  obtain ⟨p1, p2, _, _⟩ := hrun
  exact ⟨p1, fun hc => p1.mpr (p2 hc)⟩

/-- Witness of the amended C15: `initialize(q, v)` and a pass on the cache built
for the two-body chain. -/
theorem position_kinematics_cached_iff_pass_begun_witness :
    ((runCalls builtCache [CacheCall.initialize_q_v [3] [2],
        CacheCall.doKinematics plainGeometry chainTree true]).position_kinematics_cached
        = true ↔
      (history builtCache History.start [CacheCall.initialize_q_v [3] [2],
        CacheCall.doKinematics plainGeometry chainTree true]).passBegun = true) ∧
    ((history builtCache History.start [CacheCall.initialize_q_v [3] [2],
        CacheCall.doKinematics plainGeometry chainTree true]).passCompleted = true →
      (runCalls builtCache [CacheCall.initialize_q_v [3] [2],
        CacheCall.doKinematics plainGeometry chainTree true]).position_kinematics_cached
        = true) :=
  position_kinematics_cached_iff_pass_begun (fun _ _ => zeroElement) chainTree.heap
    chainTree.bodies [CacheCall.initialize_q_v [3] [2],
      CacheCall.doKinematics plainGeometry chainTree true]
    (by
      intro call hcall
      simp only [List.mem_cons, List.mem_singleton, List.not_mem_nil, or_false] at hcall
      rcases hcall with h | h <;> subst h <;> rfl)

/-- C16 as stated fails: on the cache built for the two-body chain,
`initialize(q, v)` and a pass with Jdot times v requested return; a body is then
added to the tree and a pass without the request fails with the lookup error at
the added body. `jdotV_cached` is still true although the most recent
`doKinematics` call since the last `initialize` was made with the flag false. -/
theorem jdotV_cached_after_failed_pass :
    (∀ call ∈ [CacheCall.initialize_q_v [3] [2],
        CacheCall.doKinematics plainGeometry chainTree true,
        CacheCall.doKinematics plainGeometry grownTree false], call.isSetter = false) ∧
    ( KinematicsCache.initialize_q_v builtCache [3] [2]).succeeds = true ∧
    (RigidBodyTree.doKinematics plainGeometry chainTree
      ( KinematicsCache.initialize_q_v builtCache [3] [2]).state true).succeeds = true ∧
    (∃ c', RigidBodyTree.doKinematics plainGeometry grownTree
      (runCalls builtCache [CacheCall.initialize_q_v [3] [2],
        CacheCall.doKinematics plainGeometry chainTree true]) false
        = .failed .out_of_range c') ∧
    (runCalls builtCache [CacheCall.initialize_q_v [3] [2],
      CacheCall.doKinematics plainGeometry chainTree true,
      CacheCall.doKinematics plainGeometry grownTree false]).jdotV_cached = true ∧
    (history builtCache History.start [CacheCall.initialize_q_v [3] [2],
      CacheCall.doKinematics plainGeometry chainTree true,
      CacheCall.doKinematics plainGeometry grownTree false]).lastPass = some (false, true) := by
  refine ⟨?_, by decide, by decide, ⟨_, rfl⟩, by decide, by decide⟩
  intro call hcall
  simp only [List.mem_cons, List.mem_singleton, List.not_mem_nil, or_false] at hcall
  rcases hcall with h | h | h <;> subst h <;> rfl

/-- C16, amended: in every state reached from construction by `initialize(q)`,
`initialize(q, v)` and `doKinematics` calls, returning or failing,
`jdotV_cached` is true only if `velocity_vector_valid` and
`position_kinematics_cached` are true and the most recent pass that returned
since the last binding call whose `q` had the right length was called with
`compute_JdotV` true while `velocity_vector_valid` was true. When every call
returned, that pass is the most recent `doKinematics` call since the last
binding call. -/
theorem jdotV_cached_only_if (fresh : Nat → Nat → KinematicsCacheElement S)
    (heap : BodyPtr → RigidBody S) (bodies : List BodyPtr) (calls : List (CacheCall S))
    (hcalls : ∀ call ∈ calls, call.isSetter = false) :
    ((runCalls (KinematicsCache.construct fresh heap bodies) calls).jdotV_cached = true →
      (runCalls (KinematicsCache.construct fresh heap bodies) calls).velocity_vector_valid
        = true ∧
      (runCalls (KinematicsCache.construct fresh heap bodies) calls).position_kinematics_cached
        = true ∧
      (history (KinematicsCache.construct fresh heap bodies) History.start
        calls).lastReturnedPass = some (true, true)) ∧
    ((history (KinematicsCache.construct fresh heap bodies) History.start
        calls).allReturned = true →
      (runCalls (KinematicsCache.construct fresh heap bodies) calls).jdotV_cached = true →
      (history (KinematicsCache.construct fresh heap bodies) History.start
        calls).lastPass = some (true, true)) := by
  have hrun := runCalls_induction PassFlagsAgree calls
    (KinematicsCache.construct fresh heap bodies) History.start
    (fun c h call hmem hP => passFlagsAgree_step c h call (hcalls call hmem) hP)
    (by simp [PassFlagsAgree, KinematicsCache.construct, KinematicsCache.invalidate,
      History.start])
  obtain ⟨_, _, p3, p4⟩ := hrun
  exact ⟨p3, p4⟩

/-- Witness of C16: `initialize(q, v)` and a pass with Jdot times v requested on
the cache built for the two-body chain, after which `jdotV_cached` is true. -/
theorem jdotV_cached_only_if_witness :
    (runCalls builtCache [CacheCall.initialize_q_v [3] [2],
      CacheCall.doKinematics plainGeometry chainTree true]).jdotV_cached = true ∧
    ((runCalls builtCache [CacheCall.initialize_q_v [3] [2],
        CacheCall.doKinematics plainGeometry chainTree true]).jdotV_cached = true →
      (runCalls builtCache [CacheCall.initialize_q_v [3] [2],
        CacheCall.doKinematics plainGeometry chainTree true]).velocity_vector_valid = true ∧
      (runCalls builtCache [CacheCall.initialize_q_v [3] [2],
        CacheCall.doKinematics plainGeometry chainTree true]).position_kinematics_cached
        = true ∧
      (history builtCache History.start [CacheCall.initialize_q_v [3] [2],
        CacheCall.doKinematics plainGeometry chainTree true]).lastReturnedPass
        = some (true, true)) ∧
    ((history builtCache History.start [CacheCall.initialize_q_v [3] [2],
        CacheCall.doKinematics plainGeometry chainTree true]).allReturned = true →
      (runCalls builtCache [CacheCall.initialize_q_v [3] [2],
        CacheCall.doKinematics plainGeometry chainTree true]).jdotV_cached = true →
      (history builtCache History.start [CacheCall.initialize_q_v [3] [2],
        CacheCall.doKinematics plainGeometry chainTree true]).lastPass = some (true, true)) :=
  ⟨by decide,
   jdotV_cached_only_if (fun _ _ => zeroElement) chainTree.heap chainTree.bodies
    [CacheCall.initialize_q_v [3] [2], CacheCall.doKinematics plainGeometry chainTree true]
    (by
      intro call hcall
      simp only [List.mem_cons, List.mem_singleton, List.not_mem_nil, or_false] at hcall
      rcases hcall with h | h <;> subst h <;> rfl)⟩

/-- C13: after `initialize(q)` and a pass, `getV()` fails and
`checkCachedKinematicsSettings(true, j, name)` fails for every `j` and `name`
(naming velocity kinematics when the pass returned); after a subsequent
`initialize(q, v)` and a pass that returns, `getV()` returns `v` and
`checkCachedKinematicsSettings(true, false, name)` returns normally. -/
theorem velocity_accessors_after_pass (geo geo2 : GeometryUtil S) (tree tree2 : RigidBodyTree S)
    (flag flag2 : Bool) (c c1 c3 c4 : KinematicsCache S) (q q2 v : VectorX S)
    (h1 : KinematicsCache.initialize_q c q = .returned c1)
    (h3 : KinematicsCache.initialize_q_v (RigidBodyTree.doKinematics geo tree c1 flag).state q2 v
      = .returned c3)
    (h4 : RigidBodyTree.doKinematics geo2 tree2 c3 flag2 = .returned c4) :
    (RigidBodyTree.doKinematics geo tree c1 flag).state.getV =
      .error (.runtime_error "Kinematics cache has no valid velocity vector.") ∧
    (∀ (j : Bool) (name : String),
      ((RigidBodyTree.doKinematics geo tree c1 flag).state.checkCachedKinematicsSettings
        true j name).succeeds = false) ∧
    ((RigidBodyTree.doKinematics geo tree c1 flag).succeeds = true →
      ∀ (j : Bool) (name : String),
        (RigidBodyTree.doKinematics geo tree c1 flag).state.checkCachedKinematicsSettings
          true j name =
        .failed (.runtime_error (name ++
          " requires velocity kinematics, which have not been cached. Please call doKinematics with a velocity vector."))
          (RigidBodyTree.doKinematics geo tree c1 flag).state) ∧
    c4.getV = .ok v ∧
    (∀ name : String, c4.checkCachedKinematicsSettings true false name = .returned c4) := by
  have hc1 : c1.velocity_vector_valid = false := by
    unfold KinematicsCache.initialize_q at h1
    split at h1
    · cases h1
      rfl
    · cases h1
  obtain ⟨_, _, s3, _, _, s6, _, s8⟩ := doKinematics_state geo tree c1 flag
  have hs : (RigidBodyTree.doKinematics geo tree c1 flag).state.velocity_vector_valid = false := by
    rw [s3, hc1]
  have hc3 : c3.velocity_vector_valid = true ∧ c3.v = v := by
    have hst := initialize_q_v_state (RigidBodyTree.doKinematics geo tree c1 flag).state q2 v
    have hsu := initialize_q_v_succeeds (RigidBodyTree.doKinematics geo tree c1 flag).state q2 v
    rw [h3] at hst hsu
    simp only [Outcome.state, Outcome.succeeds] at hst hsu
    have hboth := Eq.symm hsu
    simp only [Bool.and_eq_true, decide_eq_true_eq] at hboth
    rw [if_pos hboth.1, if_pos hboth.2] at hst
    subst hst
    exact ⟨rfl, rfl⟩
  obtain ⟨_, t2, t3, _, _, t6, _, t8⟩ := doKinematics_state geo2 tree2 c3 flag2
  rw [h4] at t2 t3 t6 t8
  simp only [Outcome.state, Outcome.succeeds] at t2 t3 t6 t8
  have hc4V : c4.velocity_vector_valid = true := by rw [t3]; exact hc3.1
  have hc4P : c4.position_kinematics_cached = true := by rw [t6, t8 trivial]; simp
  refine ⟨?_, ?_, ?_, ?_, ?_⟩
  · simp [KinematicsCache.getV, KinematicsCache.hasV, hs]
  · intro j name
    unfold KinematicsCache.checkCachedKinematicsSettings
    simp only [KinematicsCache.hasV, hs]
    split <;> simp [Outcome.succeeds]
  · intro hsucc j name
    have hP : (RigidBodyTree.doKinematics geo tree c1 flag).state.position_kinematics_cached
        = true := by rw [s6, s8 hsucc]; simp
    unfold KinematicsCache.checkCachedKinematicsSettings
    simp [KinematicsCache.hasV, hs, hP]
  · simp [KinematicsCache.getV, KinematicsCache.hasV, hc4V, t2, hc3.2]
  · intro name
    unfold KinematicsCache.checkCachedKinematicsSettings
    simp [KinematicsCache.hasV, hc4V, hc4P]

/-- Witness of C13: the cache built for the two-body chain, bound to `q = [3]`,
passed, bound to `q = [3]` and `v = [2]`, and passed again. -/
theorem velocity_accessors_after_pass_witness :
    (RigidBodyTree.doKinematics plainGeometry chainTree
      ( KinematicsCache.initialize_q builtCache [3]).state false).state.getV =
      .error (.runtime_error "Kinematics cache has no valid velocity vector.") ∧
    (∀ (j : Bool) (name : String),
      ((RigidBodyTree.doKinematics plainGeometry chainTree
        ( KinematicsCache.initialize_q builtCache [3]).state
        false).state.checkCachedKinematicsSettings true j name).succeeds = false) ∧
    ((RigidBodyTree.doKinematics plainGeometry chainTree
        ( KinematicsCache.initialize_q builtCache [3]).state false).succeeds = true →
      ∀ (j : Bool) (name : String),
        (RigidBodyTree.doKinematics plainGeometry chainTree
          ( KinematicsCache.initialize_q builtCache [3]).state
          false).state.checkCachedKinematicsSettings true j name =
        .failed (.runtime_error (name ++
          " requires velocity kinematics, which have not been cached. Please call doKinematics with a velocity vector."))
          (RigidBodyTree.doKinematics plainGeometry chainTree
            ( KinematicsCache.initialize_q builtCache [3]).state false).state) ∧
    (RigidBodyTree.doKinematics plainGeometry chainTree
      ( KinematicsCache.initialize_q_v
        (RigidBodyTree.doKinematics plainGeometry chainTree
          ( KinematicsCache.initialize_q builtCache [3]).state false).state
        [3] [2]).state false).state.getV = .ok [2] ∧
    (∀ name : String,
      (RigidBodyTree.doKinematics plainGeometry chainTree
        ( KinematicsCache.initialize_q_v
          (RigidBodyTree.doKinematics plainGeometry chainTree
            ( KinematicsCache.initialize_q builtCache [3]).state false).state
          [3] [2]).state false).state.checkCachedKinematicsSettings true false name =
      .returned (RigidBodyTree.doKinematics plainGeometry chainTree
        ( KinematicsCache.initialize_q_v
          (RigidBodyTree.doKinematics plainGeometry chainTree
            ( KinematicsCache.initialize_q builtCache [3]).state false).state
          [3] [2]).state false).state) :=
  velocity_accessors_after_pass plainGeometry plainGeometry chainTree chainTree false false
    builtCache _ _ _ [3] [3] [2]
    (Outcome.eq_returned_state _ (by decide))
    (Outcome.eq_returned_state _ (by decide))
    (Outcome.eq_returned_state _ (by decide))

/-- C14: on a cache bound by `initialize(q)` only, the request for Jdot times v
does not make the pass fail: `doKinematics(cache, true)` does what
`doKinematics(cache, false)` does, and it returns on a compiled tree whose
bodies and their parents have elements in the cache and whose position slices
lie inside `q`. When it returns, `jdotV_cached` is false and every element has
its `twist_in_world`, `motion_subspace_in_body_dot_times_v` and
`motion_subspace_in_world_dot_times_v` exactly as before the pass. -/
theorem bias_request_without_velocity (geo : GeometryUtil S) (tree : RigidBodyTree S)
    (c0 cache : KinematicsCache S) (q : VectorX S)
    (hbound : KinematicsCache.initialize_q c0 q = .returned cache) :
    RigidBodyTree.doKinematics geo tree cache true =
      RigidBodyTree.doKinematics geo tree cache false ∧
    (tree.initialized = true → PositionsVisitable tree cache →
      (RigidBodyTree.doKinematics geo tree cache true).succeeds = true) ∧
    (∀ c', RigidBodyTree.doKinematics geo tree cache true = .returned c' →
      c'.jdotV_cached = false ∧
      ∀ body e, cache.getElement body = .ok e →
        ∃ e', c'.getElement body = .ok e' ∧
          e'.twist_in_world = e.twist_in_world ∧
          e'.motion_subspace_in_body_dot_times_v = e.motion_subspace_in_body_dot_times_v ∧
          e'.motion_subspace_in_world_dot_times_v =
            e.motion_subspace_in_world_dot_times_v) := by
  have hV : cache.velocity_vector_valid = false := by
    unfold KinematicsCache.initialize_q at hbound
    split at hbound
    · cases hbound
      rfl
    · cases hbound
  refine ⟨doKinematics_request_ignored geo tree cache hV, ?_, ?_⟩
  · intro hcompiled hvis
    unfold RigidBodyTree.doKinematics
    simp only [hcompiled, Bool.not_true, Bool.false_eq_true, if_false, KinematicsCache.hasV]
    have hloop := doKinematicsLoop_returns geo tree (true && cache.velocity_vector_valid)
      tree.bodies cache.setPositionKinematicsCached hV
      (fun b hb => hvis b hb)
    cases hres : RigidBodyTree.doKinematicsLoop geo tree (true && cache.velocity_vector_valid)
        tree.bodies cache.setPositionKinematicsCached with
    | failed e c1 =>
      rw [hres] at hloop
      simp [Outcome.succeeds] at hloop
    | returned c1 => rfl
  · intro c' hret
    obtain ⟨_, _, _, _, _, _, s7, _⟩ := doKinematics_state geo tree cache true
    have hkept := doKinematics_velocityFieldsKept geo tree cache true hV
    rw [hret] at s7 hkept
    simp only [Outcome.state, Outcome.succeeds, if_true, hV, Bool.and_false] at s7 hkept
    refine ⟨s7, ?_⟩
    intro body e he
    obtain ⟨e', he', a1, a2, a3⟩ := hkept body e (getElement_ok cache body e he)
    exact ⟨e', by simp [KinematicsCache.getElement, he'], a1, a2, a3⟩

/-- Witness of C14: the cache built for the two-body chain and bound to
`q = [3]`; the pass with the request returns. -/
theorem bias_request_without_velocity_witness :
    (RigidBodyTree.doKinematics plainGeometry chainTree
      ( KinematicsCache.initialize_q builtCache [3]).state true).succeeds = true ∧
    (RigidBodyTree.doKinematics plainGeometry chainTree
        ( KinematicsCache.initialize_q builtCache [3]).state true =
      RigidBodyTree.doKinematics plainGeometry chainTree
        ( KinematicsCache.initialize_q builtCache [3]).state false ∧
    (chainTree.initialized = true →
      PositionsVisitable chainTree ( KinematicsCache.initialize_q builtCache [3]).state →
      (RigidBodyTree.doKinematics plainGeometry chainTree
        ( KinematicsCache.initialize_q builtCache [3]).state true).succeeds = true) ∧
    (∀ c', RigidBodyTree.doKinematics plainGeometry chainTree
        ( KinematicsCache.initialize_q builtCache [3]).state true = .returned c' →
      c'.jdotV_cached = false ∧
      ∀ body e, ( KinematicsCache.initialize_q builtCache [3]).state.getElement body = .ok e →
        ∃ e', c'.getElement body = .ok e' ∧
          e'.twist_in_world = e.twist_in_world ∧
          e'.motion_subspace_in_body_dot_times_v = e.motion_subspace_in_body_dot_times_v ∧
          e'.motion_subspace_in_world_dot_times_v =
            e.motion_subspace_in_world_dot_times_v)) :=
  ⟨by decide,
   bias_request_without_velocity plainGeometry chainTree builtCache _ [3]
    (Outcome.eq_returned_state _ (by decide))⟩

end CallTheorems

/-! ## Theorems: compactToFull -/

section CompactLemmas

variable {S : Type} [CommRing S]

omit [CommRing S] in
theorem MatrixX.entry_eq_none (M : MatrixX S) (i j : Nat) (h : ¬ (i < M.rows ∧ j < M.cols)) :
    M.entry i j = none := by
  unfold MatrixX.entry
  rw [dif_neg h]

omit [CommRing S] in
/-- The block assignment succeeds when both blocks lie inside their matrices,
and it replaces exactly the columns of the destination block. -/
theorem MatrixX.assignMiddleCols_spec (dst : MatrixX S) (dst_start : Nat) (src : MatrixX S)
    (src_start n : Nat) (h1 : dst_start + n ≤ dst.cols) (h2 : src_start + n ≤ src.cols)
    (h3 : dst.rows = src.rows) :
    ∃ M, dst.assignMiddleCols dst_start src src_start n = some M ∧
      M.rows = dst.rows ∧ M.cols = dst.cols ∧
      ∀ i j, M.entry i j =
        if dst_start ≤ j ∧ j < dst_start + n then src.entry i (src_start + (j - dst_start))
        else dst.entry i j := by
  unfold MatrixX.assignMiddleCols
  rw [dif_pos ⟨h1, h2, h3⟩]
  refine ⟨_, rfl, rfl, rfl, ?_⟩
  intro i j
  by_cases hij : i < dst.rows ∧ j < dst.cols
  · by_cases hj : dst_start ≤ j ∧ j < dst_start + n
    · have hsrc : i < src.rows ∧ src_start + (j - dst_start) < src.cols := by
        constructor
        · omega
        · omega
      simp only [MatrixX.entry, dif_pos hij, dif_pos hsrc, if_pos hj, dif_pos hj]
      rfl
    · simp only [MatrixX.entry, dif_pos hij, if_neg hj, dif_neg hj]
  · by_cases hj : dst_start ≤ j ∧ j < dst_start + n
    · have hsrc : ¬ (i < src.rows ∧ src_start + (j - dst_start) < src.cols) := by
        intro hc
        apply hij
        constructor
        · omega
        · omega
      simp only [MatrixX.entry, dif_neg hij, dif_neg hsrc, if_pos hj]
    · simp only [MatrixX.entry, dif_neg hij, if_neg hj]

omit [CommRing S] in
theorem path_split (path : List Nat) (k : Nat) (hk : k < path.length) :
    path.take k ++ path[k] :: path.drop (k + 1) = path := by
  rw [← List.drop_eq_getElem_cons hk, List.take_append_drop]

end CompactLemmas

/-! ## Theorems: the claims on compactToFull -/

section CompactTheorems

variable {S : Type} [CommRing S]

end CompactTheorems

/-! ## Theorems: error messages and the failures of a pass -/

section MessageTheorems

variable {S : Type} [CommRing S]

omit [CommRing S] in
/-- C26: whenever `checkCachedKinematicsSettings` fails, the message begins with
the method name and names the first unmet requirement in the order position
kinematics, velocity kinematics, Jdot times v, with its remedial call: without
cached position kinematics it is the position message whatever the other two
arguments are; otherwise, when velocity is required and none is held, the
velocity message; otherwise the Jdot times v message. -/
theorem checkCachedKinematicsSettings_message (c : KinematicsCache S)
    (velocity_kinematics_required jdot_times_v_required : Bool) (method_name : String) :
    (c.position_kinematics_cached = false →
      c.checkCachedKinematicsSettings velocity_kinematics_required jdot_times_v_required
        method_name =
      .failed (.runtime_error (method_name ++
        " requires position kinematics, which have not been cached. Please call doKinematics."))
        c) ∧
    (c.position_kinematics_cached = true → velocity_kinematics_required = true →
      c.velocity_vector_valid = false →
      c.checkCachedKinematicsSettings velocity_kinematics_required jdot_times_v_required
        method_name =
      .failed (.runtime_error (method_name ++
        " requires velocity kinematics, which have not been cached. Please call doKinematics with a velocity vector."))
        c) ∧
    (c.position_kinematics_cached = true →
      ¬ (velocity_kinematics_required = true ∧ c.velocity_vector_valid = false) →
      jdot_times_v_required = true → c.jdotV_cached = false →
      c.checkCachedKinematicsSettings velocity_kinematics_required jdot_times_v_required
        method_name =
      .failed (.runtime_error (method_name ++
        " requires Jdot times v, which has not been cached. Please call doKinematics with a velocity vector and compute_JdotV set to true."))
        c) ∧
    (∀ e s, c.checkCachedKinematicsSettings velocity_kinematics_required jdot_times_v_required
        method_name = .failed e s →
      ∃ rest, e = .runtime_error (method_name ++ rest)) := by
  unfold KinematicsCache.checkCachedKinematicsSettings KinematicsCache.hasV
  cases c.position_kinematics_cached <;> cases c.velocity_vector_valid <;>
    cases c.jdotV_cached <;> cases velocity_kinematics_required <;>
    cases jdot_times_v_required <;> simp

omit [CommRing S] in
theorem getElement_error (c : KinematicsCache S) (b : BodyPtr) (e : Error)
    (h : c.getElement b = .error e) : e = .out_of_range := by
  unfold KinematicsCache.getElement at h
  cases hb : c.elements b with
  | none =>
    simp only [hb, Except.error.injEq] at h
    exact h.symm
  | some e0 => simp [hb] at h

/-- A visit fails only with the lookup error or with a failed assertion. -/
theorem doKinematicsBody_failed (geo : GeometryUtil S) (tree : RigidBodyTree S) (J : Bool)
    (c s : KinematicsCache S) (b : BodyPtr) (e : Error)
    (h : RigidBodyTree.doKinematicsBody geo tree J c b = .failed e s) :
    e = .out_of_range ∨ e = .assertion_failed := by
  unfold RigidBodyTree.doKinematicsBody at h
  cases hb : c.getElement b with
  | error err =>
    simp only [hb, Outcome.failed.injEq] at h
    rw [← h.1]
    exact Or.inl (getElement_error c b err hb)
  | ok e0 =>
    simp only [hb] at h
    cases hp : (tree.heap b).parent with
    | none =>
      simp only [hp] at h
      repeat' split at h
      all_goals cases h
    | some p =>
      simp only [hp] at h
      cases hpe : c.getElement p with
      | error err =>
        simp only [hpe, Outcome.failed.injEq] at h
        rw [← h.1]
        exact Or.inl (getElement_error c p err hpe)
      | ok ep =>
        simp only [hpe] at h
        cases hq : middleRows c.getQ (tree.heap b).position_num_start
            (tree.heap b).getJoint.getNumPositions with
        | none =>
          simp only [hq, Outcome.failed.injEq] at h
          exact Or.inr h.1.symm
        | some q_body =>
          simp only [hq] at h
          cases hV : c.velocity_vector_valid with
          | false =>
            simp only [KinematicsCache.hasV, hV, Bool.false_eq_true, if_false] at h
            cases h
          | true =>
            simp only [KinematicsCache.hasV, KinematicsCache.getV, hV, if_true] at h
            repeat' split at h
            all_goals first
              | (cases h; done)
              | (cases h; exact Or.inr rfl)

theorem doKinematicsLoop_failed (geo : GeometryUtil S) (tree : RigidBodyTree S) (J : Bool) :
    ∀ (l : List BodyPtr) (c s : KinematicsCache S) (e : Error),
      RigidBodyTree.doKinematicsLoop geo tree J l c = .failed e s →
      e = .out_of_range ∨ e = .assertion_failed := by
  intro l
  induction l with
  | nil =>
    intro c s e h
    simp [RigidBodyTree.doKinematicsLoop] at h
  | cons b rest ih =>
    intro c s e h
    simp only [RigidBodyTree.doKinematicsLoop] at h
    cases hbody : RigidBodyTree.doKinematicsBody geo tree J c b with
    | failed e1 c1 =>
      rw [hbody] at h
      simp only [Outcome.failed.injEq] at h
      rw [← h.1]
      exact doKinematicsBody_failed geo tree J c c1 b e1 hbody
    | returned c1 =>
      rw [hbody] at h
      exact ih c1 s e h

/-- C24 as stated fails: on a cache on which `initialize(q)` has been called
and has returned, `doKinematics` fails when the tree has not been compiled. -/
theorem doKinematics_fails_on_bound_cache :
    ( KinematicsCache.initialize_q builtCache [3]).succeeds = true ∧
    RigidBodyTree.doKinematics plainGeometry uncompiledTree
        ( KinematicsCache.initialize_q builtCache [3]).state false =
      .failed (.runtime_error "RigidBodyTree::doKinematics: call compile first.")
        ( KinematicsCache.initialize_q builtCache [3]).state := by
  constructor
  · decide
  · rfl

/-- C24, amended: `doKinematics` fails with its own not-ready error, whose
message names `RigidBodyTree::doKinematics` and asks to call `compile` first,
exactly when the tree has not been compiled, whatever was called on the cache,
and it then leaves the cache as it was; on a compiled tree a pass fails only
with the lookup error of a body without element or with a failed size
assertion. -/
theorem doKinematics_failures (geo : GeometryUtil S) (tree : RigidBodyTree S)
    (cache : KinematicsCache S) (compute_JdotV : Bool) :
    (tree.initialized = false ↔
      RigidBodyTree.doKinematics geo tree cache compute_JdotV =
        .failed (.runtime_error "RigidBodyTree::doKinematics: call compile first.") cache) ∧
    (∀ e s, RigidBodyTree.doKinematics geo tree cache compute_JdotV = .failed e s →
      tree.initialized = true → e = .out_of_range ∨ e = .assertion_failed) := by
  constructor
  · constructor
    · intro h
      simp [RigidBodyTree.doKinematics, h]
    · intro h
      cases hinit : tree.initialized with
      | false => rfl
      | true =>
        exfalso
        unfold RigidBodyTree.doKinematics at h
        simp only [hinit, Bool.not_true, Bool.false_eq_true, if_false] at h
        cases hloop : RigidBodyTree.doKinematicsLoop geo tree (compute_JdotV && cache.hasV)
            tree.bodies cache.setPositionKinematicsCached with
        | failed e1 c1 =>
          rw [hloop] at h
          simp only [Outcome.failed.injEq] at h
          have := doKinematicsLoop_failed geo tree _ _ _ _ _ hloop
          rw [h.1] at this
          simp at this
        | returned c1 =>
          rw [hloop] at h
          simp at h
  · intro e s h hinit
    unfold RigidBodyTree.doKinematics at h
    simp only [hinit, Bool.not_true, Bool.false_eq_true, if_false] at h
    cases hloop : RigidBodyTree.doKinematicsLoop geo tree (compute_JdotV && cache.hasV)
        tree.bodies cache.setPositionKinematicsCached with
    | failed e1 c1 =>
      rw [hloop] at h
      simp only [Outcome.failed.injEq] at h
      rw [← h.1]
      exact doKinematicsLoop_failed geo tree _ _ _ _ _ hloop
    | returned c1 =>
      rw [hloop] at h
      simp at h

end MessageTheorems

/-! ## Theorems: roots and the two-body chain -/

section ChainLemmas

variable {S : Type} [CommRing S]

theorem Transform.Identity_mul (a : Transform S) : Transform.Identity * a = a := by
  cases a with
  | mk linear translation =>
    show Transform.mul _ _ = _
    simp [Transform.mul, Transform.Identity]

theorem Transform.mul_Identity (a : Transform S) : a * Transform.Identity = a := by
  cases a with
  | mk linear translation =>
    show Transform.mul _ _ = _
    simp [Transform.mul, Transform.Identity]

/-- The loop leaves every parentless body it visits, and every parentless body
that was so before, with the values of a visited root. -/
theorem doKinematicsLoop_rootDone (geo : GeometryUtil S) (tree : RigidBodyTree S) (J : Bool)
    (b : BodyPtr) (hroot : (tree.heap b).parent = none) :
    ∀ (l : List BodyPtr) (c c' : KinematicsCache S),
      RigidBodyTree.doKinematicsLoop geo tree J l c = .returned c' →
      ((∃ e, c.elements b = some e ∧ RootDone c.velocity_vector_valid J e) ∨ b ∈ l) →
      ∃ e, c'.elements b = some e ∧ RootDone c'.velocity_vector_valid J e := by
  intro l
  induction l with
  | nil =>
    intro c c' h hb
    simp only [RigidBodyTree.doKinematicsLoop, Outcome.returned.injEq] at h
    subst h
    rcases hb with hb | hb
    · exact hb
    · simp at hb
  | cons b' rest ih =>
    intro c c' h hb
    simp only [RigidBodyTree.doKinematicsLoop] at h
    cases hstep : RigidBodyTree.doKinematicsBody geo tree J c b' with
    | failed e c1 => simp [hstep] at h
    | returned c1 =>
      simp only [hstep] at h
      refine ih c1 c' h ?_
      by_cases hbb : b = b'
      · subst hbb
        have hdone := doKinematicsBody_done geo tree J c c1 b hstep (by simp [hroot])
        obtain ⟨e, he, hrest⟩ := hdone
        simp only [hroot] at hrest
        exact Or.inl ⟨e, he, hrest⟩
      · obtain ⟨e', he'⟩ := doKinematicsBody_returned_store geo tree J c c1 b' hstep
        rcases hb with hb | hb
        · subst he'
          exact Or.inl (by simpa [KinematicsCache.storeElement, hbb] using hb)
        · rcases List.mem_cons.mp hb with h1 | h1
          · exact absurd h1 hbb
          · exact Or.inr h1

/-- After a pass that returns, every parentless body of the tree holds the
values of a visited root. -/
theorem doKinematics_rootDone (geo : GeometryUtil S) (tree : RigidBodyTree S)
    (cache c' : KinematicsCache S) (compute_JdotV : Bool)
    (h : RigidBodyTree.doKinematics geo tree cache compute_JdotV = .returned c')
    (b : BodyPtr) (hb : b ∈ tree.bodies) (hroot : (tree.heap b).parent = none) :
    ∃ e, c'.elements b = some e ∧
      RootDone cache.velocity_vector_valid (compute_JdotV && cache.velocity_vector_valid) e := by
  obtain ⟨c1, hloop, hc'⟩ := doKinematics_returned geo tree cache c' compute_JdotV h
  obtain ⟨e, he, hdone⟩ := doKinematicsLoop_rootDone geo tree _ b hroot _ _ _ hloop (Or.inr hb)
  have hframe := doKinematicsLoop_frame geo tree _ _ _ _ hloop
  subst hc'
  refine ⟨e, by simpa [KinematicsCache.setJdotVCached] using he, ?_⟩
  have hV : c1.velocity_vector_valid = cache.velocity_vector_valid := by
    simpa [KinematicsCache.setPositionKinematicsCached] using hframe.2.2.1
  rw [hV] at hdone
  exact hdone

omit [CommRing S] in
theorem middleRows_singleton (a : S) (start : Nat) (y : VectorX S)
    (h : middleRows [a] start 1 = some y) : start = 0 ∧ y = [a] := by
  unfold middleRows at h
  split at h
  · rename_i hle
    simp only [List.length_singleton] at hle
    have h0 : start = 0 := by omega
    subst h0
    simp only [List.drop_zero, List.take_succ_cons, List.take_zero, Option.some.injEq] at h
    exact ⟨rfl, h.symm⟩
  · cases h

omit [CommRing S] in
theorem chain_parentsFirst_of (tree : RigidBodyTree S) (r b : BodyPtr)
    (hbodies : tree.bodies = [r, b]) (hr : (tree.heap r).parent = none)
    (hb : (tree.heap b).parent = some r) :
    parentsFirst tree.heap [] tree.bodies = true := by
  rw [hbodies]
  simp [parentsFirst, hr, hb]

end ChainLemmas

section ChainTheorems

variable {S : Type} [CommRing S]

/-- C22: on a two-body chain whose joint has one position and whose joint
transform at angle 0 is the identity, after `initialize(q = [0])` and a pass the
child's `transform_to_world` is the joint's fixed transform to the parent
body. -/
theorem chain_transform_at_zero (geo : GeometryUtil S) (tree : RigidBodyTree S)
    (c0 cache c' : KinematicsCache S) (compute_JdotV : Bool) (r b : BodyPtr)
    (hbodies : tree.bodies = [r, b]) (hr : (tree.heap r).parent = none)
    (hb : (tree.heap b).parent = some r)
    (hnp : (tree.heap b).getJoint.getNumPositions = 1)
    (hid : (tree.heap b).getJoint.jointTransform [0] = Transform.Identity)
    (hbound : KinematicsCache.initialize_q c0 [0] = .returned cache)
    (hpass : RigidBodyTree.doKinematics geo tree cache compute_JdotV = .returned c') :
    ∃ e, c'.getElement b = .ok e ∧
      e.transform_to_world = (tree.heap b).getJoint.getTransformToParentBody := by
  have hq : cache.q = [0] := by
    unfold KinematicsCache.initialize_q at hbound
    split at hbound
    · cases hbound
      rfl
    · cases hbound
  have hord := chain_parentsFirst_of tree r b hbodies hr hb
  have hkeep := doKinematics_keeps geo tree cache c' compute_JdotV hpass
  obtain ⟨e, he, hrest⟩ := doKinematics_done geo tree cache c' compute_JdotV hpass hord b
    (by rw [hbodies]; simp)
  simp only [hb] at hrest
  obtain ⟨ep, hpe, q_body, hslice, hT, _⟩ := hrest
  obtain ⟨er, her, hrootT, _⟩ := doKinematics_rootDone geo tree cache c' compute_JdotV hpass r
    (by rw [hbodies]; simp) hr
  rw [her] at hpe
  cases hpe
  have hnp' : (tree.heap b).joint.getNumPositions = 1 := hnp
  rw [hkeep.1, hq, hnp'] at hslice
  obtain ⟨_, hqb⟩ := middleRows_singleton 0 _ q_body hslice
  have hid' : (tree.heap b).joint.jointTransform [0] = Transform.Identity := hid
  refine ⟨e, by simp [KinematicsCache.getElement, he], ?_⟩
  rw [hT, hrootT, hqb, hid', Transform.mul_Identity, Transform.Identity_mul]
  rfl

/-- C21: on a two-body chain whose joint has one position and one velocity,
after `initialize(q, v = [ω])` and a pass the child's `motion_subspace_in_world`
has a single column and the child's `twist_in_world` is that column scaled by
`ω`. -/
theorem chain_twist_scaled (geo : GeometryUtil S) (tree : RigidBodyTree S)
    (c0 cache c' : KinematicsCache S) (compute_JdotV : Bool) (r b : BodyPtr)
    (q : VectorX S) (ω : S)
    (hbodies : tree.bodies = [r, b]) (hr : (tree.heap r).parent = none)
    (hb : (tree.heap b).parent = some r)
    (hnv : (tree.heap b).getJoint.getNumVelocities = 1)
    (hbound : KinematicsCache.initialize_q_v c0 q [ω] = .returned cache)
    (hpass : RigidBodyTree.doKinematics geo tree cache compute_JdotV = .returned c') :
    ∃ e column, c'.getElement b = .ok e ∧ e.motion_subspace_in_world = [column] ∧
      e.twist_in_world = fun i => column i * ω := by
  have hcache : cache.velocity_vector_valid = true ∧ cache.v = [ω] := by
    have hst := initialize_q_v_state c0 q [ω]
    have hsu := initialize_q_v_succeeds c0 q [ω]
    rw [hbound] at hst hsu
    simp only [Outcome.state, Outcome.succeeds] at hst hsu
    have hboth := Eq.symm hsu
    simp only [Bool.and_eq_true, decide_eq_true_eq] at hboth
    rw [if_pos hboth.1, if_pos hboth.2] at hst
    subst hst
    exact ⟨rfl, rfl⟩
  have hord := chain_parentsFirst_of tree r b hbodies hr hb
  have hkeep := doKinematics_keeps geo tree cache c' compute_JdotV hpass
  have hVc : c'.velocity_vector_valid = true := by rw [hkeep.2.2]; exact hcache.1
  obtain ⟨e, he, hrest⟩ := doKinematics_done geo tree cache c' compute_JdotV hpass hord b
    (by rw [hbodies]; simp)
  simp only [hb] at hrest
  obtain ⟨ep, hpe, q_body, _, _, _, _, _, _, hvel⟩ := hrest
  obtain ⟨er, her, _, hrootV⟩ := doKinematics_rootDone geo tree cache c' compute_JdotV hpass r
    (by rw [hbodies]; simp) hr
  rw [her] at hpe
  cases hpe
  have hnv' : (tree.heap b).joint.getNumVelocities = 1 := hnv
  obtain ⟨v_body, joint_twist, hslice, hmul, htw, _⟩ :=
    (hvel hVc).2 (by rw [hnv']; exact Nat.one_ne_zero)
  rw [hkeep.2.1, hcache.2, hnv'] at hslice
  obtain ⟨_, hvb⟩ := middleRows_singleton ω _ v_body hslice
  subst hvb
  unfold TwistMatrix.mulVec at hmul
  split at hmul
  · rename_i hlen
    simp only [Option.some.injEq] at hmul
    match hM : e.motion_subspace_in_world, hlen with
    | [column], _ =>
      refine ⟨e, column, by simp [KinematicsCache.getElement, he], hM, ?_⟩
      rw [htw, (hrootV hcache.1).1, ← hmul, hM]
      funext i
      simp [TwistMatrix.combine]
    | [], hl => simp [hM] at hl
    | _ :: _ :: _, hl => simp [hM] at hl
  · cases hmul

/-- Witness of C22: the two-body chain at `q = [0]`. -/
theorem chain_transform_at_zero_witness :
    ∃ e, (RigidBodyTree.doKinematics plainGeometry chainTree
        ( KinematicsCache.initialize_q builtCache [0]).state false).state.getElement 1 = .ok e ∧
      e.transform_to_world = (chainTree.heap 1).getJoint.getTransformToParentBody :=
  chain_transform_at_zero plainGeometry chainTree builtCache _ _ false 0 1 rfl rfl rfl rfl
    (by
      show ({ linear := 1, translation := ![0, 0, 0] } : Transform Int) =
        { linear := 1, translation := 0 }
      congr 1
      funext i
      fin_cases i <;> rfl)
    (Outcome.eq_returned_state _ (by decide))
    (Outcome.eq_returned_state _ (by decide))

/-- Witness of C21: the two-body chain with `v = [2]`. -/
theorem chain_twist_scaled_witness :
    ∃ e column, (RigidBodyTree.doKinematics plainGeometry chainTree
        ( KinematicsCache.initialize_q_v builtCache [3] [2]).state true).state.getElement 1
        = .ok e ∧
      e.motion_subspace_in_world = [column] ∧
      e.twist_in_world = fun i => column i * 2 :=
  chain_twist_scaled plainGeometry chainTree builtCache _ _ true 0 1 [3] 2 rfl rfl rfl rfl
    (Outcome.eq_returned_state _ (by decide))
    (Outcome.eq_returned_state _ (by decide))

end ChainTheorems

/-! ## Theorems: transformPositionDotMappingToVelocityMapping -/

section MappingLemmas

variable {S : Type} [CommRing S]

omit [CommRing S] in
theorem MatrixX.middleCols_some (M : MatrixX S) (start n : Nat) (h : start + n ≤ M.cols) :
    ∃ B, M.middleCols start n = some B ∧ B.rows = M.rows ∧ B.cols = n := by
  unfold MatrixX.middleCols
  rw [dif_pos h]
  exact ⟨_, rfl, rfl, rfl⟩

theorem MatrixX.mul_some (A B : MatrixX S) (h : A.cols = B.rows) :
    ∃ P, A.mul B = some P ∧ P.rows = A.rows ∧ P.cols = B.cols := by
  unfold MatrixX.mul
  rw [dif_pos h]
  exact ⟨_, rfl, rfl, rfl⟩

omit [CommRing S] in
theorem velocityWidthSum_cons (heap : BodyPtr → RigidBody S) (b : BodyPtr) (l : List BodyPtr) :
    velocityWidthSum heap (b :: l) = velocityWidth heap b + velocityWidthSum heap l := by
  simp [velocityWidthSum]

omit [CommRing S] in
theorem positionWidthSum_cons (heap : BodyPtr → RigidBody S) (b : BodyPtr) (l : List BodyPtr) :
    positionWidthSum heap (b :: l) = positionWidth heap b + positionWidthSum heap l := by
  simp [positionWidthSum]

/-- The loop returns when every body with a parent has an element whose
`v_to_qdot` has the joint's positions as rows and velocities as columns, and
the running column ranges stay inside `mat` and `ret`. Each body with a
parent then owns the block of the result at the sum of the velocity widths of
the bodies before it, holding the product of the block of `mat` at the sum of
their position widths with its `v_to_qdot`; columns before the start are
untouched. -/
theorem transformPositionDotMappingLoop_spec (tree : RigidBodyTree S)
    (cache : KinematicsCache S) (mat : MatrixX S) :
    ∀ (l : List BodyPtr) (ret : MatrixX S) (rs ms : Nat),
      ret.rows = mat.rows →
      (∀ b ∈ l, (tree.heap b).hasParent = true →
        ∃ e, cache.getElement b = .ok e ∧
          e.v_to_qdot.rows = (tree.heap b).getJoint.getNumPositions ∧
          e.v_to_qdot.cols = (tree.heap b).getJoint.getNumVelocities) →
      ms + positionWidthSum tree.heap l ≤ mat.cols →
      rs + velocityWidthSum tree.heap l ≤ ret.cols →
      ∃ R, RigidBodyTree.transformPositionDotMappingLoop tree cache mat l ret rs ms = .ok R ∧
        R.rows = ret.rows ∧ R.cols = ret.cols ∧
        (∀ i j, j < rs → R.entry i j = ret.entry i j) ∧
        (∀ pre b post, l = pre ++ b :: post → (tree.heap b).hasParent = true →
          ∃ e block product, cache.getElement b = .ok e ∧
            mat.middleCols (ms + positionWidthSum tree.heap pre)
              (tree.heap b).getJoint.getNumPositions = some block ∧
            block.mul e.v_to_qdot = some product ∧
            ∀ i t, t < (tree.heap b).getJoint.getNumVelocities →
              R.entry i (rs + velocityWidthSum tree.heap pre + t) = product.entry i t) := by
  intro l
  induction l with
  | nil =>
    intro ret rs ms _ _ _ _
    refine ⟨ret, rfl, rfl, rfl, fun _ _ _ => rfl, ?_⟩
    intro pre b post hl
    simp at hl
  | cons b rest ih =>
    intro ret rs ms hrows hel hms hrs
    rw [positionWidthSum_cons] at hms
    rw [velocityWidthSum_cons] at hrs
    by_cases hpar : (tree.heap b).hasParent = true
    · obtain ⟨e, he, her, hec⟩ := hel b (List.mem_cons_self _ _) hpar
      have hpw : positionWidth tree.heap b = (tree.heap b).getJoint.getNumPositions := by
        simp [positionWidth, hpar]
      have hvw : velocityWidth tree.heap b = (tree.heap b).getJoint.getNumVelocities := by
        simp [velocityWidth, hpar]
      rw [hpw] at hms
      rw [hvw] at hrs
      obtain ⟨block, hblock, brows, bcols⟩ := MatrixX.middleCols_some mat ms
        (tree.heap b).getJoint.getNumPositions (by omega)
      obtain ⟨product, hproduct, prows, pcols⟩ := MatrixX.mul_some block e.v_to_qdot
        (bcols.trans her.symm)
      have hpc : product.cols = (tree.heap b).getJoint.getNumVelocities := pcols.trans hec
      obtain ⟨ret1, hret1, r1, c1, e1⟩ := MatrixX.assignMiddleCols_spec ret rs product 0
        (tree.heap b).getJoint.getNumVelocities (by omega) (by omega)
        (hrows.trans (prows.trans brows).symm)
      obtain ⟨R, hR, r2, c2, hbefore, hblocks⟩ := ih ret1
        (rs + (tree.heap b).getJoint.getNumVelocities)
        (ms + (tree.heap b).getJoint.getNumPositions) (r1.trans hrows)
        (fun x hx hxp => hel x (List.mem_cons_of_mem _ hx) hxp)
        (by omega) (by rw [c1]; omega)
      refine ⟨R, ?_, r2.trans r1, c2.trans c1, ?_, ?_⟩
      · simp only [RigidBodyTree.transformPositionDotMappingLoop, hpar, if_true, he, hblock,
          hproduct, hpc, hret1]
        exact hR
      · intro i j hj
        rw [hbefore i j (by omega), e1 i j, if_neg (by omega)]
      · intro pre x post hl hxp
        cases pre with
        | nil =>
          simp only [List.nil_append, List.cons.injEq] at hl
          obtain ⟨hbx, _⟩ := hl
          subst hbx
          refine ⟨e, block, product, he, ?_, hproduct, ?_⟩
          · simpa [positionWidthSum] using hblock
          · intro i t ht
            simp only [velocityWidthSum, List.map_nil, List.sum_nil, Nat.add_zero]
            rw [hbefore i (rs + t) (by omega), e1 i (rs + t), if_pos (by omega)]
            simp
        | cons y pre' =>
          simp only [List.cons_append, List.cons.injEq] at hl
          obtain ⟨hby, hrest⟩ := hl
          subst hby
          obtain ⟨e2, block2, product2, he2, hb2, hp2, hent⟩ := hblocks pre' x post hrest hxp
          refine ⟨e2, block2, product2, he2, ?_, hp2, ?_⟩
          · rw [positionWidthSum_cons, hpw, ← Nat.add_assoc]
            exact hb2
          · intro i t ht
            rw [velocityWidthSum_cons, hvw, ← Nat.add_assoc]
            exact hent i t ht
    · have hpw : positionWidth tree.heap b = 0 := by simp [positionWidth, hpar]
      have hvw : velocityWidth tree.heap b = 0 := by simp [velocityWidth, hpar]
      rw [hpw] at hms
      rw [hvw] at hrs
      obtain ⟨R, hR, r2, c2, hbefore, hblocks⟩ := ih ret rs ms hrows
        (fun x hx hxp => hel x (List.mem_cons_of_mem _ hx) hxp) (by omega) (by omega)
      refine ⟨R, ?_, r2, c2, hbefore, ?_⟩
      · simp only [RigidBodyTree.transformPositionDotMappingLoop, hpar]
        exact hR
      · intro pre x post hl hxp
        cases pre with
        | nil =>
          simp only [List.nil_append, List.cons.injEq] at hl
          obtain ⟨hbx, _⟩ := hl
          subst hbx
          exact absurd hxp hpar
        | cons y pre' =>
          simp only [List.cons_append, List.cons.injEq] at hl
          obtain ⟨hby, hrest⟩ := hl
          subst hby
          obtain ⟨e2, block2, product2, he2, hb2, hp2, hent⟩ := hblocks pre' x post hrest hxp
          refine ⟨e2, block2, product2, he2, ?_, hp2, ?_⟩
          · rw [positionWidthSum_cons, hpw, Nat.zero_add]
            exact hb2
          · intro i t ht
            rw [velocityWidthSum_cons, hvw, Nat.zero_add]
            exact hent i t ht

omit [CommRing S] in
/-- Every column below the sum of the velocity widths lies in the range of one
body. -/
theorem velocityWidthSum_cover (heap : BodyPtr → RigidBody S) :
    ∀ (l : List BodyPtr) (j : Nat), j < velocityWidthSum heap l →
      ∃ (k : Nat) (hk : k < l.length),
        velocityWidthSum heap (l.take k) ≤ j ∧
        j < velocityWidthSum heap (l.take k) + velocityWidth heap l[k] := by
  intro l
  induction l with
  | nil =>
    intro j hj
    simp [velocityWidthSum] at hj
  | cons b rest ih =>
    intro j hj
    rw [velocityWidthSum_cons] at hj
    by_cases hjb : j < velocityWidth heap b
    · refine ⟨0, by simp, ?_, ?_⟩
      · simp [velocityWidthSum]
      · simpa [velocityWidthSum] using hjb
    · obtain ⟨k, hk, h1, h2⟩ := ih (j - velocityWidth heap b) (by omega)
      refine ⟨k + 1, by simpa using hk, ?_, ?_⟩
      · rw [List.take_succ_cons, velocityWidthSum_cons]
        omega
      · rw [List.take_succ_cons, velocityWidthSum_cons]
        simp only [List.getElem_cons_succ]
        omega

end MappingLemmas

section MappingTheorems

variable {S : Type} [CommRing S]

/-- C31: for a matrix `mat` with `num_positions` columns, on a tree whose joint
dimensions fit into `num_positions` and `num_velocities` and a cache that holds
for every body with a parent a `v_to_qdot` of the joint's dimensions,
`transformPositionDotMappingToVelocityMapping` returns a matrix with
`mat.rows()` rows and `num_velocities` columns; for the `k`-th body, when it
has a parent, its columns from the sum of the velocity dimensions of the
earlier bodies on are the columns of `mat` from the sum of their position
dimensions on, times the body's `v_to_qdot`. When the stored offsets of every
body with a parent are those sums, the blocks sit at the stored offsets, and
when moreover `num_velocities` is the sum of all velocity dimensions, every
column of the result lies in the block of a body. -/
theorem positionDotMapping_blocks (unset : Nat → Nat → S) (tree : RigidBodyTree S)
    (cache : KinematicsCache S) (mat : MatrixX S)
    (hmat : mat.cols = tree.num_positions)
    (hnp : positionWidthSum tree.heap tree.bodies ≤ tree.num_positions)
    (hnv : velocityWidthSum tree.heap tree.bodies ≤ tree.num_velocities)
    (hel : ∀ b ∈ tree.bodies, (tree.heap b).hasParent = true →
      ∃ e, cache.getElement b = .ok e ∧
        e.v_to_qdot.rows = (tree.heap b).getJoint.getNumPositions ∧
        e.v_to_qdot.cols = (tree.heap b).getJoint.getNumVelocities) :
    ∃ ret, RigidBodyTree.transformPositionDotMappingToVelocityMapping unset tree cache mat
        = .ok ret ∧
      ret.rows = mat.rows ∧ ret.cols = tree.num_velocities ∧
      (∀ (k : Nat) (hk : k < tree.bodies.length), (tree.heap tree.bodies[k]).hasParent = true →
        ∃ e block product, cache.getElement tree.bodies[k] = .ok e ∧
          mat.middleCols (positionWidthSum tree.heap (tree.bodies.take k))
            (tree.heap tree.bodies[k]).getJoint.getNumPositions = some block ∧
          block.mul e.v_to_qdot = some product ∧
          ∀ i t, t < (tree.heap tree.bodies[k]).getJoint.getNumVelocities →
            ret.entry i (velocityWidthSum tree.heap (tree.bodies.take k) + t) =
              product.entry i t) ∧
      ((∀ (k : Nat) (hk : k < tree.bodies.length),
          (tree.heap tree.bodies[k]).hasParent = true →
          (tree.heap tree.bodies[k]).velocity_num_start =
            velocityWidthSum tree.heap (tree.bodies.take k) ∧
          (tree.heap tree.bodies[k]).position_num_start =
            positionWidthSum tree.heap (tree.bodies.take k)) →
        (∀ (k : Nat) (hk : k < tree.bodies.length),
          (tree.heap tree.bodies[k]).hasParent = true →
          ∃ e block product, cache.getElement tree.bodies[k] = .ok e ∧
            mat.middleCols (tree.heap tree.bodies[k]).position_num_start
              (tree.heap tree.bodies[k]).getJoint.getNumPositions = some block ∧
            block.mul e.v_to_qdot = some product ∧
            ∀ i t, t < (tree.heap tree.bodies[k]).getJoint.getNumVelocities →
              ret.entry i ((tree.heap tree.bodies[k]).velocity_num_start + t) =
                product.entry i t) ∧
        (velocityWidthSum tree.heap tree.bodies = tree.num_velocities →
          ∀ j, j < ret.cols →
            ∃ (k : Nat) (hk : k < tree.bodies.length),
              (tree.heap tree.bodies[k]).hasParent = true ∧
              (tree.heap tree.bodies[k]).velocity_num_start ≤ j ∧
              j < (tree.heap tree.bodies[k]).velocity_num_start +
                (tree.heap tree.bodies[k]).getJoint.getNumVelocities)) := by
  obtain ⟨R, hR, r, c, _, hblocks⟩ := transformPositionDotMappingLoop_spec tree cache mat
    tree.bodies
    { rows := mat.rows, cols := tree.num_velocities, coeff := fun i j => unset i.val j.val }
    0 0 rfl hel (by omega) (by simpa using hnv)
  have hkth : ∀ (k : Nat) (hk : k < tree.bodies.length),
      (tree.heap tree.bodies[k]).hasParent = true →
      ∃ e block product, cache.getElement tree.bodies[k] = .ok e ∧
        mat.middleCols (positionWidthSum tree.heap (tree.bodies.take k))
          (tree.heap tree.bodies[k]).getJoint.getNumPositions = some block ∧
        block.mul e.v_to_qdot = some product ∧
        ∀ i t, t < (tree.heap tree.bodies[k]).getJoint.getNumVelocities →
          R.entry i (velocityWidthSum tree.heap (tree.bodies.take k) + t) =
            product.entry i t := by
    intro k hk hpar
    obtain ⟨e, block, product, he, hb, hp, hent⟩ := hblocks (tree.bodies.take k)
      tree.bodies[k] (tree.bodies.drop (k + 1)) (path_split tree.bodies k hk).symm hpar
    refine ⟨e, block, product, he, by simpa using hb, hp, ?_⟩
    intro i t ht
    simpa using hent i t ht
  refine ⟨R, hR, r, c, hkth, ?_⟩
  intro hstarts
  constructor
  · intro k hk hpar
    obtain ⟨h1, h2⟩ := hstarts k hk hpar
    rw [h1, h2]
    exact hkth k hk hpar
  · intro hsum j hj
    rw [c] at hj
    simp only at hj
    rw [← hsum] at hj
    obtain ⟨k, hk, hlo, hhi⟩ := velocityWidthSum_cover tree.heap tree.bodies j hj
    have hpar : (tree.heap tree.bodies[k]).hasParent = true := by
      by_contra hno
      simp [velocityWidth, hno] at hhi
      omega
    have hw : velocityWidth tree.heap tree.bodies[k] =
        (tree.heap tree.bodies[k]).getJoint.getNumVelocities := by
      simp [velocityWidth, hpar]
    obtain ⟨h1, _⟩ := hstarts k hk hpar
    refine ⟨k, hk, hpar, ?_, ?_⟩
    · rw [h1]
      exact hlo
    · rw [h1, ← hw]
      exact hhi

/-- On the two-body chain after a pass, the mapping of a two-row, one-column
matrix is returned with two rows and one column. -/
theorem positionDotMapping_blocks_witness :
    ∃ ret, RigidBodyTree.transformPositionDotMappingToVelocityMapping (fun _ _ => 0)
        chainTree passedCache compactColumn = .ok ret ∧
      ret.rows = 2 ∧ ret.cols = 1 ∧ ret.entry 1 0 = some 2 := by
  obtain ⟨ret, h, r, c, hk, _⟩ := positionDotMapping_blocks (fun _ _ => (0 : Int))
    chainTree passedCache compactColumn rfl (by decide) (by decide)
    (by
      intro b hb hpar
      have hb' : b = 0 ∨ b = 1 := by simpa [chainTree] using hb
      rcases hb' with rfl | rfl
      · exact absurd hpar (by decide)
      · exact ⟨_, rfl, rfl, rfl⟩)
  refine ⟨ret, h, r, c, ?_⟩
  obtain ⟨e, block, product, he, hb, hp, hent⟩ := hk 1 (by decide) (by decide)
  have h0 := hent 1 0 (by decide)
  cases he
  cases hb
  cases hp
  simpa using h0

end MappingTheorems

/-! ## Theorems: the gate of forwardKin -/

section ForwardKinTheorems

variable {S : Type} [CommRing S]

/-- C27: `forwardKin` fails with the not-ready error that names "forwardKin" and
the missing `doKinematics` call whenever position kinematics are not cached,
whatever the points, the indices and the helpers are, so before anything is
computed; that is the case for a cache as constructed and for a cache on which
an `initialize` has returned. When position kinematics are cached the check
returns whatever the velocity and Jdot times v flags are, and `forwardKin`
returns the matrix of the transformed points once the helpers do. -/
theorem forwardKin_gate (util : KinematicsUtil S) (unset : Nat → Nat → S)
    (tree : RigidBodyTree S) (cache : KinematicsCache S) (points : MatrixX S)
    (current_body_or_frame_ind new_body_or_frame_ind rotation_type : Int) :
    (cache.position_kinematics_cached = false →
      tree.forwardKin util unset cache points current_body_or_frame_ind
          new_body_or_frame_ind rotation_type =
        .error (.runtime_error
          "forwardKin requires position kinematics, which have not been cached. Please call doKinematics.")) ∧
    (∀ (fresh : Nat → Nat → KinematicsCacheElement S) (bodies : List BodyPtr),
      tree.forwardKin util unset (KinematicsCache.construct fresh tree.heap bodies) points
          current_body_or_frame_ind new_body_or_frame_ind rotation_type =
        .error (.runtime_error
          "forwardKin requires position kinematics, which have not been cached. Please call doKinematics.")) ∧
    (∀ q, ( KinematicsCache.initialize_q cache q).succeeds = true →
      tree.forwardKin util unset ( KinematicsCache.initialize_q cache q).state points
          current_body_or_frame_ind new_body_or_frame_ind rotation_type =
        .error (.runtime_error
          "forwardKin requires position kinematics, which have not been cached. Please call doKinematics.")) ∧
    (∀ q v, ( KinematicsCache.initialize_q_v cache q v).succeeds = true →
      tree.forwardKin util unset ( KinematicsCache.initialize_q_v cache q v).state points
          current_body_or_frame_ind new_body_or_frame_ind rotation_type =
        .error (.runtime_error
          "forwardKin requires position kinematics, which have not been cached. Please call doKinematics.")) ∧
    (cache.position_kinematics_cached = true →
      cache.checkCachedKinematicsSettings false false "forwardKin" = .returned cache ∧
      ∀ T, util.relativeTransform tree cache new_body_or_frame_ind current_body_or_frame_ind
          = .ok T →
        points.rows = 3 →
        (util.rotmat2Representation T.linear rotation_type).length ≤
          3 + util.rotationRepresentationSize rotation_type →
        ∃ x, tree.forwardKin util unset cache points current_body_or_frame_ind
            new_body_or_frame_ind rotation_type = .ok x ∧
          x.rows = 3 + util.rotationRepresentationSize rotation_type ∧
          x.cols = points.cols) := by
  have key : ∀ c : KinematicsCache S, c.position_kinematics_cached = false →
      tree.forwardKin util unset c points current_body_or_frame_ind
          new_body_or_frame_ind rotation_type =
        .error (.runtime_error
          "forwardKin requires position kinematics, which have not been cached. Please call doKinematics.") := by
    intro c hc
    simp only [RigidBodyTree.forwardKin, KinematicsCache.checkCachedKinematicsSettings, hc]
    rfl
  refine ⟨key cache, ?_, ?_, ?_, ?_⟩
  · intro fresh bodies
    apply key
    simp [KinematicsCache.construct, KinematicsCache.invalidate]
  · intro q hq
    apply key
    rw [initialize_q_succeeds] at hq
    rw [initialize_q_state]
    simp at hq
    simp [hq]
  · intro q v hq
    apply key
    rw [initialize_q_v_succeeds] at hq
    rw [initialize_q_v_state]
    simp at hq
    simp [hq.1, hq.2]
  · intro hc
    have hgate : cache.checkCachedKinematicsSettings false false "forwardKin" =
        .returned cache := by
      simp [KinematicsCache.checkCachedKinematicsSettings, hc]
    refine ⟨hgate, ?_⟩
    intro T hT hp hq
    simp only [RigidBodyTree.forwardKin, hgate, hT]
    rw [dif_pos hp, dif_pos hq]
    exact ⟨_, rfl, rfl, rfl⟩

end ForwardKinTheorems

/-! ## Theorems: a second pass -/

section SecondPassLemmas

variable {S : Type} [CommRing S]

omit [CommRing S] in
/-- In a list ordered parent before child, a body that is its own parent was
seen before the list. -/
theorem parentsFirst_self (heap : BodyPtr → RigidBody S) :
    ∀ (l seen : List BodyPtr), parentsFirst heap seen l = true →
      ∀ b ∈ l, (heap b).parent = some b → b ∈ seen := by
  intro l
  induction l with
  | nil =>
    intro seen _ b hb
    simp at hb
  | cons a rest ih =>
    intro seen h b hb hpar
    simp only [parentsFirst, Bool.and_eq_true] at h
    obtain ⟨hhead, hrest⟩ := h
    have hhead' : (heap a).parent = some a → a ∈ seen := by
      intro ha
      rw [ha] at hhead
      simpa using hhead
    rcases List.mem_cons.mp hb with rfl | hb
    · exact hhead' hpar
    · have := ih (a :: seen) hrest b hb hpar
      rcases List.mem_cons.mp this with rfl | hseen
      · exact hhead' hpar
      · exact hseen

/-- The loop over bodies that are all in the state `BodyDone`, none its own
parent, changes nothing. -/
theorem doKinematicsLoop_of_done (geo : GeometryUtil S) (tree : RigidBodyTree S) (J : Bool)
    (c : KinematicsCache S) :
    ∀ (l : List BodyPtr),
      (∀ b ∈ l, BodyDone geo tree J c b ∧ (tree.heap b).parent ≠ some b) →
      RigidBodyTree.doKinematicsLoop geo tree J l c = .returned c := by
  intro l
  induction l with
  | nil =>
    intro _
    rfl
  | cons a rest ih =>
    intro h
    obtain ⟨hd, hs⟩ := h a (List.mem_cons_self a rest)
    simp only [RigidBodyTree.doKinematicsLoop, doKinematicsBody_of_done geo tree J c a hd hs]
    exact ih (fun b hb => h b (List.mem_cons_of_mem a hb))

end SecondPassLemmas

section SecondPassTheorems

variable {S : Type} [CommRing S]

/-- C30: the pass is idempotent: on a tree ordered parent before child, when
`doKinematics(cache, compute_JdotV)` has returned, running it again with the
same flag returns and leaves the cache as it is, in every element, in `q` and
`v` and in the four flags. -/
theorem doKinematics_idempotent (geo : GeometryUtil S) (tree : RigidBodyTree S)
    (cache c' : KinematicsCache S) (compute_JdotV : Bool)
    (hord : parentsFirst tree.heap [] tree.bodies = true)
    (h : RigidBodyTree.doKinematics geo tree cache compute_JdotV = .returned c') :
    RigidBodyTree.doKinematics geo tree c' compute_JdotV = .returned c' := by
  have hst := doKinematics_state geo tree cache compute_JdotV
  rw [h] at hst
  simp only [Outcome.state, Outcome.succeeds, if_true] at hst
  obtain ⟨_, _, hv, _, _, hpkc, hj, hinit⟩ := hst
  have hinit' := hinit trivial
  rw [hinit', Bool.or_true] at hpkc
  have hloop := doKinematicsLoop_of_done geo tree (compute_JdotV && c'.velocity_vector_valid) c'
    tree.bodies (by
      intro b hb
      refine ⟨?_, ?_⟩
      · rw [hv]
        exact doKinematics_done geo tree cache c' compute_JdotV h hord b hb
      · intro hself
        have := parentsFirst_self tree.heap tree.bodies [] hord b hb hself
        simp at this)
  have hpk : c'.setPositionKinematicsCached = c' := by
    cases c'
    simp only [KinematicsCache.setPositionKinematicsCached] at hpkc ⊢
    rw [hpkc]
  unfold RigidBodyTree.doKinematics
  simp only [hinit', Bool.not_true, Bool.false_eq_true, if_false, KinematicsCache.hasV, hpk,
    hloop, Outcome.returned.injEq]
  rw [← hv] at hj
  cases c'
  simp only [KinematicsCache.setJdotVCached] at hj ⊢
  simp [hj]

/-- The second pass on the two-body chain leaves the cache of the first. -/
theorem doKinematics_idempotent_witness :
    RigidBodyTree.doKinematics plainGeometry chainTree passedCache true =
      .returned passedCache :=
  doKinematics_idempotent plainGeometry chainTree chainCache passedCache true
    (by decide) (by rfl)

end SecondPassTheorems

/-! ## Theorems: what depends on the configuration only -/

section ConfigurationLemmas

variable {S : Type} [CommRing S]

omit [CommRing S] in
/-- Induction along a list ordered parent before child: a property that holds
for a body once it holds for its parent holds for every body of the list. -/
theorem parentsFirst_induction (heap : BodyPtr → RigidBody S) (P : BodyPtr → Prop) :
    ∀ (l seen : List BodyPtr), parentsFirst heap seen l = true →
      (∀ b ∈ seen, P b) →
      (∀ b ∈ l, (∀ p, (heap b).parent = some p → P p) → P b) →
      ∀ b ∈ l, P b := by
  intro l
  induction l with
  | nil =>
    intro seen _ _ _ b hb
    simp at hb
  | cons a rest ih =>
    intro seen h hseen hstep b hb
    simp only [parentsFirst, Bool.and_eq_true] at h
    obtain ⟨hhead, hrest⟩ := h
    have ha : P a := by
      apply hstep a (List.mem_cons_self a rest)
      intro p hp
      rw [hp] at hhead
      exact hseen p (by simpa using hhead)
    rcases List.mem_cons.mp hb with rfl | hb
    · exact ha
    · apply ih (a :: seen) hrest _ _ b hb
      · intro x hx
        rcases List.mem_cons.mp hx with rfl | hx
        · exact ha
        · exact hseen x hx
      · intro x hx
        exact hstep x (List.mem_cons_of_mem a hx)

end ConfigurationLemmas

section ConfigurationTheorems

variable {S : Type} [CommRing S]

/-- C25: `transform_to_world` depends on the configuration only: for two caches
holding the same `q`, whatever their velocity vectors, `velocity_vector_valid`,
prior elements and flags are, after passes that returned over one tree ordered
parent before child, with any two values of `compute_JdotV`, every body of the
tree has the same `transform_to_world` in both caches, and every body with a
parent also the same `motion_subspace_in_body`, `motion_subspace_in_world`,
`qdot_to_v` and `v_to_qdot`. -/
theorem configuration_fields_agree (geo : GeometryUtil S) (tree : RigidBodyTree S)
    (cache1 cache2 c1 c2 : KinematicsCache S) (compute_JdotV1 compute_JdotV2 : Bool)
    (hord : parentsFirst tree.heap [] tree.bodies = true)
    (hq : cache1.q = cache2.q)
    (h1 : RigidBodyTree.doKinematics geo tree cache1 compute_JdotV1 = .returned c1)
    (h2 : RigidBodyTree.doKinematics geo tree cache2 compute_JdotV2 = .returned c2) :
    ∀ b ∈ tree.bodies, ∃ e1 e2, c1.elements b = some e1 ∧ c2.elements b = some e2 ∧
      e1.transform_to_world = e2.transform_to_world ∧
      ((tree.heap b).hasParent = true →
        e1.motion_subspace_in_body = e2.motion_subspace_in_body ∧
        e1.motion_subspace_in_world = e2.motion_subspace_in_world ∧
        e1.qdot_to_v = e2.qdot_to_v ∧
        e1.v_to_qdot = e2.v_to_qdot) := by
  have hq1 := (doKinematics_keeps geo tree cache1 c1 compute_JdotV1 h1).1
  have hq2 := (doKinematics_keeps geo tree cache2 c2 compute_JdotV2 h2).1
  refine parentsFirst_induction tree.heap
    (fun b => ∃ e1 e2, c1.elements b = some e1 ∧ c2.elements b = some e2 ∧
      e1.transform_to_world = e2.transform_to_world ∧
      ((tree.heap b).hasParent = true →
        e1.motion_subspace_in_body = e2.motion_subspace_in_body ∧
        e1.motion_subspace_in_world = e2.motion_subspace_in_world ∧
        e1.qdot_to_v = e2.qdot_to_v ∧
        e1.v_to_qdot = e2.v_to_qdot)) tree.bodies [] hord ?_ ?_
  · intro b hb
    simp at hb
  · intro b hb hparent
    obtain ⟨e1, he1, hd1⟩ := doKinematics_done geo tree cache1 c1 compute_JdotV1 h1 hord b hb
    obtain ⟨e2, he2, hd2⟩ := doKinematics_done geo tree cache2 c2 compute_JdotV2 h2 hord b hb
    refine ⟨e1, e2, he1, he2, ?_⟩
    cases hp : (tree.heap b).parent with
    | none =>
      simp only [hp] at hd1 hd2
      refine ⟨by rw [hd1.1, hd2.1], ?_⟩
      intro hpar
      simp [RigidBody.hasParent, hp] at hpar
    | some p =>
      simp only [hp] at hd1 hd2
      obtain ⟨ep1, hep1, qb1, hqb1, hT1, hb1, hw1, hqv1, hvq1, _⟩ := hd1
      obtain ⟨ep2, hep2, qb2, hqb2, hT2, hb2, hw2, hqv2, hvq2, _⟩ := hd2
      obtain ⟨p1, p2, hp1, hp2, hpT, _⟩ := hparent p hp
      rw [hp1] at hep1
      rw [hp2] at hep2
      cases hep1
      cases hep2
      rw [hq1, hq] at hqb1
      rw [hq2, hqb1] at hqb2
      cases hqb2
      have hT : e1.transform_to_world = e2.transform_to_world := by
        rw [hT1, hT2, hpT]
      refine ⟨hT, ?_⟩
      intro _
      refine ⟨by rw [hb1, hb2], ?_, by rw [hqv1, hqv2], by rw [hvq1, hvq2]⟩
      rw [hw1, hw2, hT, hb1, hb2]

/-- On the two-body chain, the cache with velocity and the cache without hold
the same configuration-dependent values after their passes. -/
theorem configuration_fields_agree_witness :
    ∃ e1 e2, passedCache.elements 1 = some e1 ∧
      (RigidBodyTree.doKinematics plainGeometry chainTree stillCache false).state.elements 1
        = some e2 ∧
      e1.transform_to_world = e2.transform_to_world ∧
      e1.motion_subspace_in_body = e2.motion_subspace_in_body ∧
      e1.motion_subspace_in_world = e2.motion_subspace_in_world ∧
      e1.qdot_to_v = e2.qdot_to_v ∧
      e1.v_to_qdot = e2.v_to_qdot := by
  obtain ⟨e1, e2, h1, h2, hT, hrest⟩ :=
    configuration_fields_agree plainGeometry chainTree chainCache stillCache passedCache
      (RigidBodyTree.doKinematics plainGeometry chainTree stillCache false).state true false
      (by decide) rfl (by rfl) (by rfl) 1 (by decide)
  exact ⟨e1, e2, h1, h2, hT, hrest (by decide)⟩

end ConfigurationTheorems

/-! ## Theorems: a pass on a cache of the tree returns -/

section ReturnLemmas

variable {S : Type} [CommRing S]

/-- A visit returns when the body and its parent have an element, the body's
slices lie inside `q` and, when a velocity is held, inside `v`, and the motion
subspace in the world frame has as many columns as the joint has velocities. -/
theorem doKinematicsBody_returns_with_v (geo : GeometryUtil S) (tree : RigidBodyTree S)
    (J : Bool) (c : KinematicsCache S) (b : BodyPtr)
    (hb : (c.elements b).isSome = true)
    (hp : ∀ p, (tree.heap b).parent = some p → (c.elements p).isSome = true)
    (hq : (tree.heap b).hasParent = true →
      (tree.heap b).position_num_start + (tree.heap b).getJoint.getNumPositions ≤ c.q.length)
    (hv : (tree.heap b).hasParent = true →
      (tree.heap b).velocity_num_start + (tree.heap b).getJoint.getNumVelocities ≤ c.v.length)
    (hw : ∀ T q_body,
      (geo.transformSpatialMotion T ((tree.heap b).getJoint.motionSubspace q_body)).length =
        (tree.heap b).getJoint.getNumVelocities) :
    (RigidBodyTree.doKinematicsBody geo tree J c b).succeeds = true := by
  by_cases hV : c.velocity_vector_valid = true
  · unfold RigidBodyTree.doKinematicsBody
    cases he : c.elements b with
    | none => simp [he] at hb
    | some e0 =>
      simp only [KinematicsCache.getElement, he, KinematicsCache.hasV, hV, if_true,
        KinematicsCache.getV]
      cases hpar : (tree.heap b).parent with
      | none => cases J <;> rfl
      | some p =>
        have hpe := hp p hpar
        cases hpel : c.elements p with
        | none => simp [hpel] at hpe
        | some ep =>
          have hqs := hq (by simp [RigidBody.hasParent, hpar])
          have hvs := hv (by simp [RigidBody.hasParent, hpar])
          simp only [RigidBody.getJoint] at hqs hvs hw
          simp only [KinematicsCache.getQ, middleRows, RigidBody.getJoint, hqs, hvs, if_true,
            hpel]
          by_cases hnv : (tree.heap b).joint.getNumVelocities = 0
          · simp only [hnv, if_true]
            cases J <;> rfl
          · have hlen : (geo.transformSpatialMotion
                ((if p = b then e0 else ep).transform_to_world *
                  ((tree.heap b).joint.getTransformToParentBody *
                    (tree.heap b).joint.jointTransform
                      (List.take (tree.heap b).joint.getNumPositions
                        (List.drop (tree.heap b).position_num_start c.q))))
                ((tree.heap b).joint.motionSubspace
                  (List.take (tree.heap b).joint.getNumPositions
                    (List.drop (tree.heap b).position_num_start c.q)))).length =
                (List.take (tree.heap b).joint.getNumVelocities
                  (List.drop (tree.heap b).velocity_num_start c.v)).length := by
              rw [hw, List.length_take, List.length_drop]
              omega
            simp only [hnv, if_false, TwistMatrix.mulVec, hlen, if_true]
            cases J <;> rfl
  · exact doKinematicsBody_returns geo tree J c b (by simpa using hV) hb hp hq

/-- The loop returns when every body it visits meets the conditions of a visit
that returns. -/
theorem doKinematicsLoop_returns_with_v (geo : GeometryUtil S) (tree : RigidBodyTree S)
    (J : Bool) :
    ∀ (l : List BodyPtr) (c : KinematicsCache S),
      (∀ b ∈ l, (c.elements b).isSome = true ∧
        (∀ p, (tree.heap b).parent = some p → (c.elements p).isSome = true) ∧
        ((tree.heap b).hasParent = true →
          (tree.heap b).position_num_start + (tree.heap b).getJoint.getNumPositions
            ≤ c.q.length ∧
          (tree.heap b).velocity_num_start + (tree.heap b).getJoint.getNumVelocities
            ≤ c.v.length) ∧
        (∀ T q_body,
          (geo.transformSpatialMotion T
            ((tree.heap b).getJoint.motionSubspace q_body)).length =
              (tree.heap b).getJoint.getNumVelocities)) →
      (RigidBodyTree.doKinematicsLoop geo tree J l c).succeeds = true := by
  intro l
  induction l with
  | nil =>
    intro c _
    rfl
  | cons b rest ih =>
    intro c hl
    obtain ⟨h1, h2, h3, h4⟩ := hl b (List.mem_cons_self _ _)
    have hstep := doKinematicsBody_returns_with_v geo tree J c b h1 h2
      (fun h => (h3 h).1) (fun h => (h3 h).2) h4
    have hframe := doKinematicsBody_onlyElements geo tree J c b
    simp only [RigidBodyTree.doKinematicsLoop]
    cases hbody : RigidBodyTree.doKinematicsBody geo tree J c b with
    | failed e c1 => simp [hbody, Outcome.succeeds] at hstep
    | returned c1 =>
      rw [hbody] at hframe
      obtain ⟨f1, f2, _, _, _, _, f7⟩ := hframe
      simp only [Outcome.state] at f1 f2 f7
      apply ih c1
      intro x hx
      obtain ⟨g1, g2, g3, g4⟩ := hl x (List.mem_cons_of_mem _ hx)
      refine ⟨by rw [f7]; exact g1, fun p hp => by rw [f7]; exact g2 p hp, ?_, g4⟩
      intro hpar
      rw [f1, f2]
      exact g3 hpar

/-- After any sequence of calls on a cache constructed from a body list, the
keys of the element map are the bodies of the list. -/
theorem runCalls_construct_keys (fresh : Nat → Nat → KinematicsCacheElement S)
    (heap : BodyPtr → RigidBody S) (bodies : List BodyPtr) (calls : List (CacheCall S))
    (body : BodyPtr) :
    ((runCalls (KinematicsCache.construct fresh heap bodies) calls).elements body).isSome =
      decide (body ∈ bodies) :=
  runCalls_induction
    (fun c _ => (c.elements body).isSome = decide (body ∈ bodies)) calls
    (KinematicsCache.construct fresh heap bodies) History.start
    (fun c h call _ hP => by
      show ((call.outcome c).state.elements body).isSome = decide (body ∈ bodies)
      rw [(CacheCall.outcome_keeps c call).1 body]
      exact hP)
    (construct_keys fresh heap bodies body)

end ReturnLemmas

section ReturnTheorems

variable {S : Type} [CommRing S]

/-- C29: on a compiled tree in which the parent of every body of the body list
is in the list and the slices of every body with a parent lie inside `q` and
`v`, and on a cache constructed from that body list, after any sequence of
calls on it (so with or without vectors bound, with or without a velocity),
`doKinematics(cache, compute_JdotV)` returns normally for both values of
`compute_JdotV`. The helper that carries a motion subspace into the world frame
is taken to return as many columns as the joint has velocities. -/
theorem doKinematics_returns_on_constructed (geo : GeometryUtil S) (tree : RigidBodyTree S)
    (fresh : Nat → Nat → KinematicsCacheElement S) (calls : List (CacheCall S))
    (compute_JdotV : Bool)
    (hinit : tree.initialized = true)
    (hparent : ∀ b ∈ tree.bodies, ∀ p, (tree.heap b).parent = some p → p ∈ tree.bodies)
    (hslices : ∀ b ∈ tree.bodies, (tree.heap b).hasParent = true →
      (tree.heap b).position_num_start + (tree.heap b).getJoint.getNumPositions ≤
        (runCalls (KinematicsCache.construct fresh tree.heap tree.bodies) calls).q.length ∧
      (tree.heap b).velocity_num_start + (tree.heap b).getJoint.getNumVelocities ≤
        (runCalls (KinematicsCache.construct fresh tree.heap tree.bodies) calls).v.length)
    (hwidth : ∀ b ∈ tree.bodies, ∀ T q_body,
      (geo.transformSpatialMotion T ((tree.heap b).getJoint.motionSubspace q_body)).length =
        (tree.heap b).getJoint.getNumVelocities) :
    (RigidBodyTree.doKinematics geo tree
      (runCalls (KinematicsCache.construct fresh tree.heap tree.bodies) calls)
      compute_JdotV).succeeds = true := by
  have hkeys := runCalls_construct_keys fresh tree.heap tree.bodies calls
  have hloop := doKinematicsLoop_returns_with_v geo tree
    (compute_JdotV &&
      (runCalls (KinematicsCache.construct fresh tree.heap tree.bodies) calls).hasV)
    tree.bodies
    (runCalls (KinematicsCache.construct fresh tree.heap tree.bodies)
      calls).setPositionKinematicsCached
    (by
      intro b hb
      refine ⟨?_, ?_, ?_, hwidth b hb⟩
      · simp [KinematicsCache.setPositionKinematicsCached, hkeys, hb]
      · intro p hp
        simp [KinematicsCache.setPositionKinematicsCached, hkeys, hparent b hb p hp]
      · intro hpar
        simpa [KinematicsCache.setPositionKinematicsCached] using hslices b hb hpar)
  unfold RigidBodyTree.doKinematics
  simp only [hinit, Bool.not_true, Bool.false_eq_true, if_false]
  cases hres : RigidBodyTree.doKinematicsLoop geo tree
      (compute_JdotV &&
        (runCalls (KinematicsCache.construct fresh tree.heap tree.bodies) calls).hasV)
      tree.bodies
      (runCalls (KinematicsCache.construct fresh tree.heap tree.bodies)
        calls).setPositionKinematicsCached with
  | failed e c1 =>
    rw [hres] at hloop
    simp [Outcome.succeeds] at hloop
  | returned c1 => rfl

/-- The pass with the bias terms requested returns on the constructed cache of
the two-body chain after `initialize(q, v)`. -/
theorem doKinematics_returns_on_constructed_witness :
    (RigidBodyTree.doKinematics plainGeometry chainTree
      (runCalls (KinematicsCache.construct (fun _ _ => zeroElement) chainTree.heap
        chainTree.bodies) [CacheCall.initialize_q_v [3] [2]]) true).succeeds = true :=
  doKinematics_returns_on_constructed plainGeometry chainTree (fun _ _ => zeroElement)
    [CacheCall.initialize_q_v [3] [2]] true rfl
    (by
      intro b hb p hp
      have hb' : b = 0 ∨ b = 1 := by simpa [chainTree] using hb
      rcases hb' with rfl | rfl
      · simp [chainTree] at hp
      · have : p = 0 := by simpa [chainTree] using hp.symm
        subst this
        simp [chainTree])
    (by
      intro b _ _
      exact ⟨Nat.le_refl 1, Nat.le_refl 1⟩)
    (by
      intro b _ T q_body
      rfl)

end ReturnTheorems

/-! ## Theorems: the twist along the parent chain -/

section ChainSumLemmas

variable {S : Type} [CommRing S]

/-- The combination of columns is linear in the coefficients. -/
theorem TwistMatrix.combine_linear (α β : S) :
    ∀ (M : TwistMatrix S) (x y : VectorX S), x.length = y.length →
      ∀ i, TwistMatrix.combine M (List.zipWith (fun a b => α * a + β * b) x y) i =
        α * TwistMatrix.combine M x i + β * TwistMatrix.combine M y i := by
  intro M
  induction M with
  | nil =>
    intro x y _ i
    simp [TwistMatrix.combine]
  | cons col M ih =>
    intro x y hlen i
    cases x with
    | nil =>
      cases y with
      | nil => simp [TwistMatrix.combine]
      | cons b y => simp at hlen
    | cons a x =>
      cases y with
      | nil => simp at hlen
      | cons b y =>
        simp only [List.zipWith_cons_cons, TwistMatrix.combine, Pi.add_apply]
        rw [ih x y (by simpa using hlen) i]
        ring

/-- The sum along the parent chain is linear in the velocity vector. -/
theorem chainTwist_linear (tree : RigidBodyTree S)
    (elements : BodyPtr → Option (KinematicsCacheElement S)) (α β : S) (x y : VectorX S)
    (hlen : x.length = y.length) :
    ∀ (fuel : Nat) (b : BodyPtr) (i : Fin TWIST_SIZE),
      chainTwist tree elements (List.zipWith (fun a b => α * a + β * b) x y) fuel b i =
        α * chainTwist tree elements x fuel b i + β * chainTwist tree elements y fuel b i := by
  intro fuel
  induction fuel with
  | zero =>
    intro b i
    simp [chainTwist]
  | succ fuel ih =>
    intro b i
    simp only [chainTwist]
    cases hp : (tree.heap b).parent with
    | none => simp
    | some p =>
      simp only [Pi.add_apply]
      rw [ih p i]
      by_cases hnv : (tree.heap b).getJoint.getNumVelocities = 0
      · simp only [hnv, if_true, Pi.zero_apply]
        ring
      · simp only [hnv, if_false, jointTwist]
        cases he : elements b with
        | none =>
          simp only [Pi.zero_apply]
          ring
        | some e =>
          simp only [List.drop_zipWith, List.take_zipWith]
          rw [TwistMatrix.combine_linear α β e.motion_subspace_in_world _ _
            (by simp [List.length_take, List.length_drop, hlen]) i]
          ring

omit [CommRing S] in
/-- Induction along a list ordered parent before child with a bound that grows
by one from a parent to its child: the bound of every body of the list is at
most the number of bodies. -/
theorem parentsFirst_induction_depth (heap : BodyPtr → RigidBody S)
    (P : Nat → BodyPtr → Prop) (hmono : ∀ n m b, n ≤ m → P n b → P m b) :
    ∀ (l seen : List BodyPtr), parentsFirst heap seen l = true →
      (∀ b ∈ seen, P seen.length b) →
      (∀ b ∈ l, ∀ n, (∀ p, (heap b).parent = some p → P n p) → P (n + 1) b) →
      ∀ b ∈ l, P (seen.length + l.length) b := by
  intro l
  induction l with
  | nil =>
    intro seen _ _ _ b hb
    simp at hb
  | cons a rest ih =>
    intro seen h hseen hstep b hb
    simp only [parentsFirst, Bool.and_eq_true] at h
    obtain ⟨hhead, hrest⟩ := h
    have ha : P (seen.length + 1) a := by
      apply hstep a (List.mem_cons_self a rest)
      intro p hp
      rw [hp] at hhead
      exact hseen p (by simpa using hhead)
    have hlen : seen.length + (a :: rest).length = (a :: seen).length + rest.length := by
      simp only [List.length_cons]
      omega
    rw [hlen]
    rcases List.mem_cons.mp hb with rfl | hb
    · exact hmono _ _ _ (by simp only [List.length_cons]; omega) ha
    · apply ih (a :: seen) hrest _ _ b hb
      · intro x hx
        rcases List.mem_cons.mp hx with rfl | hx
        · exact ha
        · exact hmono _ _ _ (by simp) (hseen x hx)
      · intro x hx
        exact hstep x (List.mem_cons_of_mem a hx)

end ChainSumLemmas

section ChainSumTheorems

variable {S : Type} [CommRing S]

/-- C28: after a pass that returned with a velocity vector held, over a tree
ordered parent before child, the `twist_in_world` of every body `b` of the tree
is the sum, over the bodies with a parent on the parent chain from `b` up to
the root (`b` included) whose joint has velocities, of the body's
`motion_subspace_in_world` combined with its slice of `v`; and that sum is
linear in the velocity vector, the term of `b` itself being its
`motion_subspace_in_world` combined with its own slice. -/
theorem twist_chain_sum (geo : GeometryUtil S) (tree : RigidBodyTree S)
    (cache c' : KinematicsCache S) (compute_JdotV : Bool)
    (hord : parentsFirst tree.heap [] tree.bodies = true)
    (hV : cache.velocity_vector_valid = true)
    (h : RigidBodyTree.doKinematics geo tree cache compute_JdotV = .returned c') :
    ∀ b ∈ tree.bodies, ∃ e, c'.elements b = some e ∧
      e.twist_in_world = chainTwist tree c'.elements c'.v tree.bodies.length b ∧
      (∀ p, (tree.heap b).parent = some p →
        chainTwist tree c'.elements c'.v tree.bodies.length b =
          (if (tree.heap b).getJoint.getNumVelocities = 0 then 0
            else TwistMatrix.combine e.motion_subspace_in_world
              ((c'.v.drop (tree.heap b).velocity_num_start).take
                (tree.heap b).getJoint.getNumVelocities)) +
          chainTwist tree c'.elements c'.v (tree.bodies.length - 1) p) ∧
      (∀ (α β : S) (x y : VectorX S), x.length = y.length → ∀ i,
        chainTwist tree c'.elements (List.zipWith (fun a b => α * a + β * b) x y)
            tree.bodies.length b i =
          α * chainTwist tree c'.elements x tree.bodies.length b i +
          β * chainTwist tree c'.elements y tree.bodies.length b i) := by
  have hV' : c'.velocity_vector_valid = true := by
    rw [(doKinematics_keeps geo tree cache c' compute_JdotV h).2.2]
    exact hV
  have hmain := parentsFirst_induction_depth tree.heap
    (fun n b => ∀ fuel, n ≤ fuel → ∃ e, c'.elements b = some e ∧
      e.twist_in_world = chainTwist tree c'.elements c'.v fuel b)
    (by
      intro n m b hnm hP fuel hfuel
      exact hP fuel (by omega))
    tree.bodies [] hord
    (by
      intro b hb
      simp at hb)
    (by
      intro b hb n hparent fuel hfuel
      obtain ⟨e, he, hd⟩ := doKinematics_done geo tree cache c' compute_JdotV h hord b hb
      refine ⟨e, he, ?_⟩
      obtain ⟨f, rfl⟩ : ∃ f, fuel = f + 1 := ⟨fuel - 1, by omega⟩
      simp only [chainTwist]
      cases hp : (tree.heap b).parent with
      | none =>
        simp only [hp] at hd
        exact (hd.2 hV').1
      | some p =>
        simp only [hp] at hd
        obtain ⟨ep, hep, qb, _, _, _, _, _, _, hvel⟩ := hd
        obtain ⟨ep', hep', htw⟩ := hparent p hp f (by omega)
        rw [hep] at hep'
        cases hep'
        obtain ⟨h0, h1⟩ := hvel hV'
        by_cases hnv : (tree.heap b).joint.getNumVelocities = 0
        · simp only [RigidBody.getJoint, hnv, if_true, zero_add]
          rw [(h0 hnv).1, htw]
        · obtain ⟨vb, jt, hvb, hjt, ht, _⟩ := h1 hnv
          simp only [RigidBody.getJoint, hnv, if_false, jointTwist, he]
          rw [ht, htw, add_comm]
          congr 1
          simp only [middleRows] at hvb
          split at hvb
          · cases hvb
            simp only [TwistMatrix.mulVec] at hjt
            split at hjt
            · cases hjt
              rfl
            · cases hjt
          · cases hvb)
  intro b hb
  have hb' := hmain b hb
  simp only [List.length_nil, zero_add] at hb'
  obtain ⟨e, he, htw⟩ := hb' tree.bodies.length (Nat.le_refl _)
  refine ⟨e, he, htw, ?_, ?_⟩
  · intro p hp
    have hpos : tree.bodies.length = (tree.bodies.length - 1) + 1 := by
      have := List.length_pos_of_mem hb
      omega
    rw [hpos]
    simp only [chainTwist, hp, jointTwist, he, Nat.add_sub_cancel]
  · intro α β x y hlen i
    exact chainTwist_linear tree c'.elements α β x y hlen _ b i

/-- On the two-body chain with `v = [2]`, the twist of the child is its motion
subspace times 2. -/
theorem twist_chain_sum_witness :
    ∃ e, passedCache.elements 1 = some e ∧
      e.twist_in_world = chainTwist chainTree passedCache.elements passedCache.v 2 1 ∧
      e.twist_in_world = ![0, 0, 0, 0, 0, 2] := by
  obtain ⟨e, he, htw, _⟩ := twist_chain_sum plainGeometry chainTree chainCache passedCache true
    (by decide) rfl (by rfl) 1 (by decide)
  refine ⟨e, he, htw, ?_⟩
  cases he
  funext i
  fin_cases i <;> rfl

end ChainSumTheorems

end Drake
